import Mathlib

/-!
Verification of go-llm-mcp-rag: the retrieval engine and the agent loop.

A shallow embedding of `rag.go`, `agent.go` and `chat_open_ai.go`.

Conventions of the embedding.

* A Go `string` holding text is a Lean `String`; `range` over it yields its
  runes (`String.data`) and `len` is its UTF-8 byte length
  (`String.utf8ByteSize`).
* A `float64` value is the rational number it denotes; the constants `0.7`,
  `0.3`, `0.1` are their float64 values, and every float64 operation rounds
  its exact result by `GoLib.Round64` (`round64` is the IEEE 754 rounding).
* A Go `map[string]V` is an association list with one entry per key; an
  absent key reads as the zero value.
* The Go standard-library functions the program calls (`unicode.IsLetter`,
  `unicode.IsDigit`, `unicode.ToLower`, `sort.Slice`, the `%.2f` verb) are
  not code of the repository: they are the fields of `GoLib`, a parameter
  of every definition that uses them. What a theorem assumes of them is a
  named hypothesis (`GoLib.LowerIdempotent`, `GoLib.SortContract`,
  `GoLib.AgreesOnAscii`, `GoLib.IEEEArithmetic`, `GoLib.ExactArithmetic`,
  `GoLib.ExactNaturals`); `asciiLib` is an instance with IEEE 754 rounding.
* A value of type `string` that the program builds by slicing bytes
  (`buildContext`) is a byte list (`Bytes`).
* The corpus is the sequence of calls `filepath.Walk` makes to the callback
  of `loadDocuments` (`FileSystem`).
* The model service and the tool providers are functions of the history of
  calls made so far (`Collaborators`); every call is recorded as an `Event`,
  so that one can say which provider was invoked or closed, and how often.
  A failed model call makes `Chat` panic, which ends `Invoke` at once.
* The loop of `Invoke` has no bound of its own: `invokeLoop` takes the number
  of rounds it may run as fuel and reports `Outcome.outOfFuel` beyond it.
-/

namespace LlmMcpRag

/-! ## Data model (rag.go) -/

/-- The `Document` struct of rag.go. -/
structure Document where
  Path : String
  Content : String
  Score : ℚ
  deriving DecidableEq

/-- The `RAGRetriever` struct of rag.go. -/
structure RAGRetriever where
  KnowledgeBaseDir : String
  MaxResults : Int
  MinScore : ℚ

/-! ## float64 arithmetic

A float64 value is held as the rational number it denotes. A float64
operation of Go returns its exact result rounded to the nearest float64, ties
to even (IEEE 754); that rounding is the field `Round64` of `GoLib`. The
function `round64` is this rounding for results within the range of float64
(no overflow), and every operation is rounded on its own (no fused
multiply-add, as on amd64). -/

/-- Rounding to the nearest integer, ties to the even one. -/
def roundHalfEven (t : ℚ) : ℤ :=
  if t - ⌊t⌋ < 1 / 2 then ⌊t⌋
  else if 1 / 2 < t - ⌊t⌋ then ⌊t⌋ + 1
  else if ⌊t⌋ % 2 = 0 then ⌊t⌋ else ⌊t⌋ + 1

/-- The float64 nearest to `x`, ties to even: with `e` the binary exponent of
`x` (at least -1022, where the subnormal numbers start), `x` is rounded to a
multiple of `2 ^ (e - 52)`, the spacing of the float64 numbers around it. -/
def round64 (x : ℚ) : ℚ :=
  if x = 0 then 0
  else
    (roundHalfEven (x / (2 : ℚ) ^ (max (Int.log 2 |x|) (-1022) - 52)) : ℚ)
      * (2 : ℚ) ^ (max (Int.log 2 |x|) (-1022) - 52)

/-- The float64 value of the Go constant `0.1`. -/
def float64_0_1 : ℚ := 3602879701896397 / 36028797018963968

/-- The float64 value of the Go constant `0.7`. -/
def float64_0_7 : ℚ := 3152519739159347 / 4503599627370496

/-- The float64 value of the Go constant `0.3`. -/
def float64_0_3 : ℚ := 5404319552844595 / 18014398509481984

/-- The float64 nearest to 0.85, which `%.2f` renders as `0.85`. -/
def float64_0_85 : ℚ := 7656119366529843 / 9007199254740992

/-- The constructor `NewRAGRetriever`: at most 3 results, minimum score 0.1. -/
def NewRAGRetriever (knowledgeBaseDir : String) : RAGRetriever :=
  { KnowledgeBaseDir := knowledgeBaseDir, MaxResults := 3, MinScore := float64_0_1 }

/-- The Go standard-library functions used by the program. -/
structure GoLib where
  /-- The classifier `unicode.IsLetter`. -/
  IsLetter : Char → Bool
  /-- The classifier `unicode.IsDigit`. -/
  IsDigit : Char → Bool
  /-- The rune mapping `unicode.ToLower`. -/
  ToLower : Char → Char
  /-- The call `sort.Slice(documents, less)`: the slice after sorting. -/
  SortSlice : (Document → Document → Bool) → List Document → List Document
  /-- The rendering of a score by `fmt.Sprintf` with the verb `%.2f`. -/
  FormatScore : ℚ → String
  /-- The rounding of float64 arithmetic: the float64 an operation returns when
  its exact result is the given number. -/
  Round64 : ℚ → ℚ

/-- The function `strings.ToLower`: `unicode.ToLower` applied to every rune. -/
def GoLib.stringsToLower (L : GoLib) (s : String) : String :=
  ⟨s.data.map L.ToLower⟩

/-! ## Go maps -/

/-- A Go `map[string]V`. -/
abbrev GoMap (V : Type) := List (String × V)

/-- Reading `m[k]`: the stored value, or the zero value `z` when `k` is absent. -/
def GoMap.get {V : Type} (z : V) : GoMap V → String → V
  | [], _ => z
  | (k1, v) :: m, k => if k1 = k then v else GoMap.get z m k

/-- The assignment `m[k] = v`. -/
def GoMap.set {V : Type} : GoMap V → String → V → GoMap V
  | [], k, v => [(k, v)]
  | (k1, v1) :: m, k, v => if k1 = k then (k1, v) :: m else (k1, v1) :: GoMap.set m k v

/-- The statement `m[k]++` on a `map[string]int`. -/
def GoMap.incr : GoMap Nat → String → GoMap Nat
  | [], k => [(k, 1)]
  | (k1, v1) :: m, k => if k1 = k then (k1, v1 + 1) :: m else (k1, v1) :: GoMap.incr m k

/-! ## Tokenizer and scorer (rag.go) -/

/-- The loop of `tokenize` over the remaining runes, with the loop variables
`currentWord` and `words`; after the last rune a pending word is flushed. -/
def tokenizeLoop (L : GoLib) : List Char → String → List String → List String
  | [], currentWord, words =>
    if currentWord.utf8ByteSize > 0 then words ++ [currentWord] else words
  | char :: rest, currentWord, words =>
    if L.IsLetter char || L.IsDigit char then
      tokenizeLoop L rest (currentWord.push char) words
    else if currentWord.utf8ByteSize > 0 then
      tokenizeLoop L rest "" (words ++ [currentWord])
    else
      tokenizeLoop L rest currentWord words

/-- The method `RAGRetriever.tokenize`. -/
def tokenize (L : GoLib) (text : String) : List String :=
  tokenizeLoop L (L.stringsToLower text).data "" []

/-- The word-frequency loop of `calculateScore`: `contentWordSet`. -/
def contentWordSet (L : GoLib) (contentWords : List String) : GoMap Nat :=
  contentWords.foldl (fun m word => GoMap.incr m (L.stringsToLower word)) []

/-- The matching loop of `calculateScore`: the final value of `matchedCount`. -/
def matchedCount (L : GoLib) (queryWords : List String) (queryWordSet : GoMap Bool)
    (cws : GoMap Nat) : Nat :=
  queryWords.foldl
    (fun n word =>
      let lowerWord := L.stringsToLower word
      if GoMap.get false queryWordSet lowerWord && decide (GoMap.get 0 cws lowerWord > 0)
      then n + 1 else n)
    0

/-- The frequency loop of `calculateScore`: the value accumulated in
`freqScore` over the entries of `contentWordSet` before the division, each
`freqScore += float64(count)` being a float64 addition. Go ranges over a map
in an unspecified order; the entries are taken here in order of insertion.
While the counts sum to an exactly representable number every partial sum is
exact, whatever the order (`freqAccumulate_foldl`). -/
def freqAccumulate (L : GoLib) (queryWordSet : GoMap Bool) (cws : GoMap Nat) : ℚ :=
  cws.foldl
    (fun freqScore e =>
      if GoMap.get false queryWordSet e.1 then L.Round64 (freqScore + L.Round64 (e.2 : ℚ))
      else freqScore)
    0

/-- The method `RAGRetriever.calculateScore`, in float64 arithmetic: every
conversion `float64(n)`, division, multiplication and addition is rounded by
`L.Round64`. -/
def calculateScore (L : GoLib) (queryWords : List String) (queryWordSet : GoMap Bool)
    (content : String) : ℚ :=
  let contentWords := tokenize L content
  let cws := contentWordSet L contentWords
  let matched := matchedCount L queryWords queryWordSet cws
  if queryWords.length = 0 then 0
  else
    let baseScore : ℚ :=
      L.Round64 (L.Round64 (matched : ℚ) / L.Round64 (queryWords.length : ℚ))
    let freqScore0 : ℚ := freqAccumulate L queryWordSet cws
    let freqScore : ℚ :=
      if contentWords.length > 0 then
        L.Round64 (freqScore0 / L.Round64 (contentWords.length : ℚ))
      else freqScore0
    L.Round64 (L.Round64 (baseScore * float64_0_7) + L.Round64 (freqScore * float64_0_3))

/-- The first loop of `scoreDocuments`: `queryWordSet`. -/
def queryWordSet (L : GoLib) (queryWords : List String) : GoMap Bool :=
  queryWords.foldl (fun m word => GoMap.set m (L.stringsToLower word) true) []

/-- The method `RAGRetriever.scoreDocuments`. -/
def RAGRetriever.scoreDocuments (r : RAGRetriever) (L : GoLib) (query : String)
    (documents : List Document) : List Document :=
  let queryWords := tokenize L query
  let qws := queryWordSet L queryWords
  documents.foldl
    (fun scoredDocs doc =>
      let score := calculateScore L queryWords qws doc.Content
      if score ≥ r.MinScore then scoredDocs ++ [{ doc with Score := score }] else scoredDocs)
    []

/-- The comparison passed to `sort.Slice` by `selectTopDocuments`:
`documents[i].Score > documents[j].Score`. -/
def scoreGreater (a b : Document) : Bool := decide (a.Score > b.Score)

/-- The method `RAGRetriever.selectTopDocuments`; `none` is the run-time panic
of `make([]Document, 0, r.MaxResults)` on a negative capacity. The copying
loop reads `documents[0 .. MaxResults-1]`, all in range since at that point
`len(documents) > MaxResults`. -/
def RAGRetriever.selectTopDocuments (r : RAGRetriever) (L : GoLib)
    (documents : List Document) : Option (List Document) :=
  if documents.length = 0 then some documents
  else
    let sorted := L.SortSlice scoreGreater documents
    if (sorted.length : Int) ≤ r.MaxResults then some sorted
    else if r.MaxResults < 0 then none
    else some (sorted.take r.MaxResults.toNat)

/-- The bytes of a Go string value. -/
abbrev Bytes := List UInt8

/-- The bytes (UTF-8) of a text string. -/
def goBytes (s : String) : Bytes := s.data.flatMap String.utf8EncodeChar

/-- The content written by `buildContext` for one document: the whole content,
or its first 1000 bytes followed by the marker when `len(content) > 1000`. -/
def renderContent (content : String) : Bytes :=
  if content.utf8ByteSize > 1000 then (goBytes content).take 1000 ++ goBytes "..."
  else goBytes content

/-- The body of the loop of `buildContext` for the document at index `i`. -/
def renderDocument (L : GoLib) (i : Nat) (doc : Document) : Bytes :=
  goBytes ("--- 文档 " ++ toString (i + 1) ++ " (相关性: " ++ L.FormatScore doc.Score ++ ") ---\n")
    ++ goBytes ("来源: " ++ doc.Path ++ "\n")
    ++ renderContent doc.Content
    ++ goBytes "\n\n"

/-- The loop of `buildContext` from index `i` on. -/
def renderDocuments (L : GoLib) : Nat → List Document → Bytes
  | _, [] => []
  | i, doc :: rest => renderDocument L i doc ++ renderDocuments L (i + 1) rest

/-- The method `RAGRetriever.buildContext`. -/
def buildContext (L : GoLib) (documents : List Document) (query : String) : Bytes :=
  goBytes "=== 相关上下文信息（RAG检索） ===\n"
    ++ goBytes ("查询: " ++ query ++ "\n\n")
    ++ goBytes "检索到的相关内容：\n\n"
    ++ renderDocuments L 0 documents
    ++ goBytes "=== 上下文信息结束 ===\n"
    ++ goBytes "请基于以上上下文信息回答用户的问题。\n"

/-- One call of the callback by `filepath.Walk`: the path, the `err` argument,
`info.IsDir()`, and what `os.ReadFile(path)` returns if it is called. -/
structure WalkEntry where
  path : String
  err : Option String
  isDir : Bool
  readFile : Except String String

/-- The corpus as the retriever sees it: whether `os.Stat` of the root reports
that it does not exist, and the calls `filepath.Walk` makes, in order. -/
structure FileSystem where
  rootNotExist : Bool
  walk : List WalkEntry

/-- The scan of `filepath.Ext` from the end of the path (given reversed),
`acc` being the runes already passed. -/
def filepathExtLoop : List Char → List Char → String
  | [], _ => ""
  | c :: rest, acc =>
    if c = '/' then ""
    else if c = '.' then ⟨'.' :: acc⟩
    else filepathExtLoop rest (c :: acc)

/-- The function `filepath.Ext`: the suffix from the last dot of the last
path element, or the empty string. -/
def filepathExt (path : String) : String := filepathExtLoop path.data.reverse []

/-- The method `RAGRetriever.loadDocuments`: the callback run over the calls
of `filepath.Walk`, which stops at the first error the callback returns. -/
def loadDocuments (L : GoLib) : List WalkEntry → List Document → Except String (List Document)
  | [], documents => .ok documents
  | e :: rest, documents =>
    match e.err with
    | some err => .error err
    | none =>
      if e.isDir then loadDocuments L rest documents
      else
        let ext := L.stringsToLower (filepathExt e.path)
        if ext ≠ ".txt" ∧ ext ≠ ".md" ∧ ext ≠ ".go" then loadDocuments L rest documents
        else
          match e.readFile with
          | .error err => .error err
          | .ok content =>
            if content.utf8ByteSize = 0 then loadDocuments L rest documents
            else loadDocuments L rest
              (documents ++ [{ Path := e.path, Content := content, Score := 0 }])

/-- The errors `Retrieve` reports. -/
inductive RetrieveError where
  | dirNotExist (dir : String)
  | loadFailed (err : String)
  deriving DecidableEq

/-- What a call of `Retrieve` does: it returns a context and an optional
error, or it panics (inside `selectTopDocuments`). -/
inductive RetrieveResult where
  | returned (context : Bytes) (err : Option RetrieveError)
  | panicked
  deriving DecidableEq

/-- The method `RAGRetriever.Retrieve`. -/
def RAGRetriever.Retrieve (r : RAGRetriever) (L : GoLib) (fs : FileSystem)
    (query : String) : RetrieveResult :=
  if r.KnowledgeBaseDir = "" then .returned [] none
  else if fs.rootNotExist then .returned [] (some (.dirNotExist r.KnowledgeBaseDir))
  else
    match loadDocuments L fs.walk [] with
    | .error err => .returned [] (some (.loadFailed err))
    | .ok documents =>
      if documents.length = 0 then .returned [] none
      else
        let scoredDocs := r.scoreDocuments L query documents
        match r.selectTopDocuments L scoredDocs with
        | none => .panicked
        | some selectedDocs =>
          if selectedDocs.length = 0 then .returned [] none
          else .returned (buildContext L selectedDocs query) none

/-! ## Conversation state and model collaborator (chat_open_ai.go) -/

/-- The struct `ToolFunction`. -/
structure ToolFunction where
  Name : String
  Arguments : String
  deriving DecidableEq

/-- The struct `ToolCall`. -/
structure ToolCall where
  ID : String
  Function : ToolFunction
  deriving DecidableEq

/-- The fields of `ark.ToolCall` that the program reads, and its type tag. -/
structure ArkToolCall where
  ID : String
  Kind : String
  Function : ToolFunction
  deriving DecidableEq

/-- The message roles of the chat API. -/
inductive Role where
  | system
  | user
  | assistant
  | tool
  deriving DecidableEq

/-- The fields of `ark.ChatCompletionMessage` that the program uses. -/
structure ChatCompletionMessage where
  Role : Role
  Content : Bytes
  ToolCalls : List ArkToolCall
  ToolCallID : String
  deriving DecidableEq

/-- The input schema of an `mcp.Tool`; a property value is kept as its JSON text. -/
structure ToolInputSchema where
  SchemaType : String
  Properties : List (String × String)
  Required : List String
  deriving DecidableEq

/-- The fields of `mcp.Tool` that the program uses. -/
structure Tool where
  Name : String
  Description : String
  InputSchema : ToolInputSchema
  deriving DecidableEq

/-- The `params` map built by `MCPTool2ArkTool`, by key. -/
structure ArkParameters where
  type : String
  properties : List (String × String)
  required : List String
  deriving DecidableEq

/-- An `ark.Tool` of type `function` with its `ark.FunctionDefinition`. -/
structure ArkTool where
  Kind : String
  Name : String
  Description : String
  Parameters : ArkParameters
  deriving DecidableEq

/-- The function `MCPTool2ArkTool`. -/
def MCPTool2ArkTool (mcpTools : List Tool) : List ArkTool :=
  if mcpTools.length = 0 then []
  else
    mcpTools.foldl
      (fun openAITools tool =>
        let t := tool.InputSchema.SchemaType
        openAITools ++
          [{ Kind := "function", Name := tool.Name, Description := tool.Description,
             Parameters :=
               { type := if t = "" then "object" else t,
                 properties := tool.InputSchema.Properties,
                 required := tool.InputSchema.Required } }])
      []

/-- The function `ArkToolCallsToInternal`. -/
def ArkToolCallsToInternal (calls : List ArkToolCall) : List ToolCall :=
  if calls.length = 0 then []
  else
    calls.foldl
      (fun result call =>
        result ++ [{ ID := call.ID,
                     Function := { Name := call.Function.Name,
                                   Arguments := call.Function.Arguments } }])
      []

/-- The request `ark.ChatCompletionRequest` built by `Chat`. -/
structure ChatCompletionRequest where
  Model : String
  Messages : List ChatCompletionMessage
  Tools : List ArkTool
  deriving DecidableEq

/-- Modelled from the spec: the type `MCPClient`, whose source file is not part
of the sources at hand. A client is a tool provider: `Id` is its identity (the
pointer), `Tools` is what `GetTool()` returns, the signatures it advertises.
Its methods `CallTool` and `Close` talk to the provider process; their
effects are recorded as events and the result of `CallTool` is a parameter
(`Collaborators.CallTool`). -/
structure MCPClient where
  Id : Nat
  Tools : List Tool
  deriving DecidableEq

/-- Modelled from the spec: the method `MCPClient.GetTool`. -/
def MCPClient.GetTool (c : MCPClient) : List Tool := c.Tools

/-- A call made to an external collaborator. -/
inductive Event where
  | chat (req : ChatCompletionRequest)
  | callTool (client : Nat) (name : String) (arguments : String)
  | close (client : Nat)
  deriving DecidableEq

/-- The external collaborators. Each answer may depend on every call made so
far (the history) and on the call itself. `CreateChatCompletion` returns an
error or the messages of the response's choices; `CallTool` returns an error
or the result text. -/
structure Collaborators where
  CreateChatCompletion : List Event → ChatCompletionRequest →
    Except String (List ChatCompletionMessage)
  CallTool : List Event → MCPClient → String → String → Except String Bytes

/-- The struct `ChatOpenAI` (without the context and the API client). -/
structure ChatOpenAI where
  Model : String
  SystemPrompt : Bytes
  Tools : List Tool
  RagContext : Bytes
  Message : List ChatCompletionMessage
  deriving DecidableEq

/-- The method `ChatOpenAI.Chat` on the conversation `c` after history `tr`:
the conversation and history afterwards, and the returned pair, or `none`
when the call panics because the completion request failed. -/
def ChatOpenAI.Chat (E : Collaborators) (c : ChatOpenAI) (tr : List Event) (prompt : Bytes) :
    ChatOpenAI × List Event × Option (Bytes × List ToolCall) :=
  let c1 : ChatOpenAI :=
    if prompt ≠ [] then
      { c with Message := c.Message ++
          [{ Role := Role.user, Content := prompt, ToolCalls := [], ToolCallID := "" }] }
    else c
  let req : ChatCompletionRequest :=
    { Model := c1.Model, Messages := c1.Message, Tools := MCPTool2ArkTool c1.Tools }
  let tr1 := tr ++ [Event.chat req]
  match E.CreateChatCompletion tr req with
  | .error _ => (c1, tr1, none)
  | .ok [] => (c1, tr1, some ([], []))
  | .ok (assistantMsg :: _) =>
    ({ c1 with Message := c1.Message ++ [assistantMsg] }, tr1,
      some (assistantMsg.Content, ArkToolCallsToInternal assistantMsg.ToolCalls))

/-! ## Orchestration loop (agent.go) -/

/-- The struct `Agent` (without the context); `LLM` may be nil. -/
structure Agent where
  MCPClient : List MCPClient
  LLM : Option ChatOpenAI
  Model : String
  SystemPrompt : Bytes
  RAGCtx : Bytes
  RAGRetriever : Option RAGRetriever

/-- The state the loop of `Invoke` works on: the conversation `a.LLM` and the
history of collaborator calls. -/
structure Session where
  llm : ChatOpenAI
  trace : List Event

/-- The innermost loop of `Invoke`: the tools of one client against one tool
call. Every tool whose name equals the requested name triggers `CallTool`;
an error skips to the next tool, a success appends a tool-role message. -/
def dispatchTools (E : Collaborators) (toolCall : ToolCall) (mcpClient : MCPClient) :
    List Tool → Session → Session
  | [], s => s
  | mcpTool :: rest, s =>
    if mcpTool.Name = toolCall.Function.Name then
      let tr1 := s.trace ++
        [Event.callTool mcpClient.Id toolCall.Function.Name toolCall.Function.Arguments]
      match E.CallTool s.trace mcpClient toolCall.Function.Name toolCall.Function.Arguments with
      | .error _ => dispatchTools E toolCall mcpClient rest { s with trace := tr1 }
      | .ok toolText =>
        dispatchTools E toolCall mcpClient rest
          { llm := { s.llm with Message := s.llm.Message ++
              [{ Role := Role.tool, Content := toolText, ToolCalls := [],
                 ToolCallID := toolCall.ID }] },
            trace := tr1 }
    else dispatchTools E toolCall mcpClient rest s

/-- The middle loop of `Invoke`: the clients, in registration order, against
one tool call. -/
def dispatchClients (E : Collaborators) (toolCall : ToolCall) : List MCPClient → Session → Session
  | [], s => s
  | mcpClient :: rest, s =>
    dispatchClients E toolCall rest (dispatchTools E toolCall mcpClient mcpClient.GetTool s)

/-- The outer loop of `Invoke` over the tool calls of one round. -/
def dispatchAll (E : Collaborators) (clients : List MCPClient) : List ToolCall → Session → Session
  | [], s => s
  | toolCall :: rest, s => dispatchAll E clients rest (dispatchClients E toolCall clients s)

/-- The method `Agent.Close`: `Close` on every client, in order. -/
def closeAll (clients : List MCPClient) (tr : List Event) : List Event :=
  tr ++ clients.map (fun mcpClient => Event.close mcpClient.Id)

/-- How a call of `Invoke` ends: it returns the response, it panics (a model
call failed), or the model is still requesting tools when the fuel, the
number of rounds the model may take, is used up. -/
inductive Outcome where
  | returned (response : Bytes)
  | panicked
  | outOfFuel
  deriving DecidableEq

/-- The `for len(toolCalls) > 0` loop of `Invoke` and the two statements
after it, from the values `response`, `toolCalls` of the last `Chat`. -/
def invokeLoop (E : Collaborators) (clients : List MCPClient) :
    Nat → Session → Bytes → List ToolCall → Session × Outcome
  | _, s, response, [] => ({ s with trace := closeAll clients s.trace }, Outcome.returned response)
  | 0, s, _, _ :: _ => (s, Outcome.outOfFuel)
  | fuel + 1, s, _, toolCall :: rest =>
    let s1 := dispatchAll E clients (toolCall :: rest) s
    match ChatOpenAI.Chat E s1.llm s1.trace [] with
    | (c, tr, none) => ({ llm := c, trace := tr }, Outcome.panicked)
    | (c, tr, some (response, toolCalls)) =>
      invokeLoop E clients fuel { llm := c, trace := tr } response toolCalls

/-- The method `Agent.Invoke` after history `tr`: the agent and the history
afterwards, and how the call ended. -/
def Agent.Invoke (E : Collaborators) (fuel : Nat) (a : Agent) (tr : List Event) (prompt : Bytes) :
    Agent × List Event × Outcome :=
  match a.LLM with
  | none => (a, tr, Outcome.returned [])
  | some llm =>
    match ChatOpenAI.Chat E llm tr prompt with
    | (c, tr1, none) => ({ a with LLM := some c }, tr1, Outcome.panicked)
    | (c, tr1, some (response, toolCalls)) =>
      let (s, out) := invokeLoop E a.MCPClient fuel { llm := c, trace := tr1 } response toolCalls
      ({ a with LLM := some s.llm }, s.trace, out)

/-- The method `Agent.InvokeWithRAG`. -/
def Agent.InvokeWithRAG (E : Collaborators) (L : GoLib) (fs : FileSystem) (fuel : Nat)
    (a : Agent) (tr : List Event) (prompt : String) : Agent × List Event × Outcome :=
  match a.LLM with
  | none => (a, tr, Outcome.returned [])
  | some llm =>
    match a.RAGRetriever with
    | none => a.Invoke E fuel tr (goBytes prompt)
    | some r =>
      match r.Retrieve L fs prompt with
      | .panicked => (a, tr, Outcome.panicked)
      | .returned ragContext err =>
        if err.isNone ∧ ragContext ≠ [] then
          Agent.Invoke E fuel
            { a with LLM := some { llm with Message := llm.Message ++
                [{ Role := Role.user, Content := ragContext, ToolCalls := [],
                   ToolCallID := "" }] } }
            tr (goBytes prompt)
        else a.Invoke E fuel tr (goBytes prompt)

/-- Go's library restricted to ASCII: letters `a-z`, `A-Z`, digits `0-9`,
lower-casing of `A-Z`; on ASCII text it agrees with the `unicode` package.
Sorting is an insertion sort by the comparison passed, a non-negative score is
rendered as `%.2f` does, rounded to the nearest hundredth (ties to even), and
float64 results are rounded by `round64`. -/
def asciiLib : GoLib where
  IsLetter := Char.isAlpha
  IsDigit := Char.isDigit
  ToLower := Char.toLower
  SortSlice := fun less l => l.insertionSort (fun a b => less b a = false)
  FormatScore := fun q =>
    toString ((roundHalfEven (q * 100)).toNat / 100) ++ "."
      ++ toString ((roundHalfEven (q * 100)).toNat / 10 % 10)
      ++ toString ((roundHalfEven (q * 100)).toNat % 10)
  Round64 := round64

/-- The ASCII library with exact arithmetic: no result is rounded. -/
def exactLib : GoLib := { asciiLib with Round64 := fun x => x }

/-! ## Specification-side definitions -/

/-- The maximal runs of letters and digits of a rune sequence, as the
specification words it: the text is cut at every rune that is neither a letter
nor a digit, and the non-empty pieces are the runs. -/
def maximalRuns (L : GoLib) (text : List Char) : List (List Char) :=
  (text.splitOnP (fun c => !(L.IsLetter c || L.IsDigit c))).filter (fun run => run ≠ [])

/-- The decomposition of a text into maximal runs: `IsRuns L text runs` holds
when `text` is the runs in order, each non-empty and made of letters and
digits only, separated (and possibly preceded and followed) by gaps that hold
no letter and no digit, where every run is followed by a gap rune or ends
the text. -/
inductive IsRuns (L : GoLib) : List Char → List (List Char) → Prop where
  | done (gap : List Char) (hgap : ∀ c ∈ gap, (L.IsLetter c || L.IsDigit c) = false) :
      IsRuns L gap []
  | run (gap word rest : List Char) (runs : List (List Char))
      (hgap : ∀ c ∈ gap, (L.IsLetter c || L.IsDigit c) = false)
      (hne : word ≠ [])
      (hword : ∀ c ∈ word, (L.IsLetter c || L.IsDigit c) = true)
      (hrest : ∀ c, rest.head? = some c → (L.IsLetter c || L.IsDigit c) = false)
      (h : IsRuns L rest runs) :
      IsRuns L (gap ++ word ++ rest) (word :: runs)

/-- The number of distinct query tokens that occur among the document's
tokens: the specification's reading of `matched`. -/
def distinctMatched (queryWords contentWords : List String) : Nat :=
  (queryWords.dedup.filter (fun w => decide (w ∈ contentWords))).length

/-- The lower-casing of runes is idempotent, as `unicode.ToLower` is. -/
def GoLib.LowerIdempotent (L : GoLib) : Prop :=
  ∀ c, L.ToLower (L.ToLower c) = L.ToLower c

/-- The requirement of `sort.Slice` on the comparison passed to it: nothing is
before itself, "before" is transitive, and so is "not before". -/
def IsTransitiveOrdering (less : Document → Document → Bool) : Prop :=
  (∀ a, less a a = false)
  ∧ (∀ a b c, less a b = true → less b c = true → less a c = true)
  ∧ (∀ a b c, less a b = false → less b c = false → less a c = false)

/-- The contract of `sort.Slice`, for any comparison `less`: the slice
afterwards is a permutation of the slice before, and when `less` meets the
requirement the slice is sorted by it, that is, no element is followed by one
that `less` puts before it. -/
def GoLib.SortContract (L : GoLib) : Prop :=
  ∀ (less : Document → Document → Bool) (l : List Document),
    (L.SortSlice less l).Perm l
    ∧ (IsTransitiveOrdering less →
        (L.SortSlice less l).Pairwise (fun a b => less b a = false))

/-- The arithmetic is exact: no float64 result is rounded. -/
def GoLib.ExactArithmetic (L : GoLib) : Prop :=
  ∀ x : ℚ, L.Round64 x = x

/-- The arithmetic is that of IEEE 754 float64, rounding to nearest, ties to
even. -/
def GoLib.IEEEArithmetic (L : GoLib) : Prop :=
  ∀ x : ℚ, L.Round64 x = round64 x

/-- The natural numbers up to `n` are float64 values: converting or adding
them is exact (under IEEE 754 this holds up to `2 ^ 53`). -/
def GoLib.ExactNaturals (L : GoLib) (n : ℕ) : Prop :=
  ∀ k : ℕ, k ≤ n → L.Round64 (k : ℚ) = (k : ℚ)

/-- The number of query-word occurrences among the entries of
`contentWordSet`, as a natural number: what the frequency loop of
`calculateScore` accumulates when its additions are exact. -/
def freqSum (queryWordSet : GoMap Bool) (cws : GoMap Nat) : Nat :=
  cws.foldl (fun s e => if GoMap.get false queryWordSet e.1 then s + e.2 else s) 0

/-- The library agrees with Go's `unicode` package on ASCII runes. -/
def GoLib.AgreesOnAscii (L : GoLib) : Prop :=
  ∀ c : Char, c.toNat < 128 →
    L.IsLetter c = c.isAlpha ∧ L.IsDigit c = c.isDigit ∧ L.ToLower c = c.toLower

/-- Scenario A: the document of the one-document corpus. -/
def scenarioADoc : Document :=
  { Path := "kb/fox.txt", Content := "The quick brown fox", Score := 0 }

/-- Scenario A: the corpus as `filepath.Walk` presents it, the root directory
and the one file in it. -/
def scenarioAFs : FileSystem :=
  { rootNotExist := false,
    walk := [{ path := "kb", err := none, isDir := true, readFile := .error "is a directory" },
             { path := "kb/fox.txt", err := none, isDir := false,
               readFile := .ok "The quick brown fox" }] }

/-- Whether an event is a call of `Close`. -/
def Event.isClose : Event → Bool
  | Event.close _ => true
  | _ => false

/-- The provider calls that dispatching one tool call issues when no provider
is shadowed: for every client in registration order, one call per advertised
tool whose name is the requested name. -/
def expectedCalls (clients : List MCPClient) (toolCall : ToolCall) : List Event :=
  clients.flatMap (fun mcpClient =>
    (mcpClient.GetTool.filter (fun t => decide (t.Name = toolCall.Function.Name))).map
      (fun _ => Event.callTool mcpClient.Id toolCall.Function.Name toolCall.Function.Arguments))

/-- A tool signature with the given name and an empty schema. -/
def plainTool (name : String) : Tool :=
  { Name := name, Description := "", InputSchema := { SchemaType := "", Properties := [], Required := [] } }

/-- Two providers that both advertise the tool `t`. -/
def twoProviders : List MCPClient :=
  [{ Id := 1, Tools := [plainTool "t"] }, { Id := 2, Tools := [plainTool "t"] }]

/-- An agent over `twoProviders` with an empty conversation. -/
def twoProviderAgent : Agent :=
  { MCPClient := twoProviders,
    LLM := some { Model := "m", SystemPrompt := [], Tools := [plainTool "t", plainTool "t"],
                  RagContext := [], Message := [] },
    Model := "m", SystemPrompt := [], RAGCtx := [], RAGRetriever := none }

/-- Collaborators for a two-round run: the model first requests the tool `t`
(invocation id `id1`), then answers "done"; every tool call succeeds and
returns the text "ok". -/
def oneToolRound : Collaborators where
  CreateChatCompletion := fun tr _ =>
    if tr.length = 0 then
      .ok [{ Role := Role.assistant, Content := [],
             ToolCalls := [{ ID := "id1", Kind := "function",
                             Function := { Name := "t", Arguments := "x" } }],
             ToolCallID := "" }]
    else .ok [{ Role := Role.assistant, Content := goBytes "done", ToolCalls := [],
                ToolCallID := "" }]
  CallTool := fun _ _ _ _ => .ok (goBytes "ok")

/-- Collaborators whose model call fails. -/
def failingModel : Collaborators where
  CreateChatCompletion := fun _ _ => .error "request failed"
  CallTool := fun _ _ _ _ => .ok (goBytes "ok")

/-- A content of 334 runes `中` (U+4E2D, three bytes each): 334 characters,
1002 bytes. -/
def cjkContent : String := String.mk (List.replicate 334 '中')

/-- A corpus whose root does not exist. -/
def missingRootFs : FileSystem :=
  { rootNotExist := true,
    walk := [{ path := "kb", err := some "no such file or directory", isDir := false,
               readFile := .error "no such file or directory" }] }

/-- Whether an event is a call of the model service. -/
def Event.isChat : Event → Bool
  | Event.chat _ => true
  | _ => false

/-- The conversation as `Chat` submits it: the log, followed by the prompt as
a user-role message when the prompt is not empty. -/
def ChatOpenAI.submitted (c : ChatOpenAI) (prompt : Bytes) : List ChatCompletionMessage :=
  if prompt ≠ [] then
    c.Message ++ [{ Role := Role.user, Content := prompt, ToolCalls := [], ToolCallID := "" }]
  else c.Message

/-- The request that `Chat` sends for a prompt. -/
def ChatOpenAI.request (c : ChatOpenAI) (prompt : Bytes) : ChatCompletionRequest :=
  { Model := c.Model, Messages := c.submitted prompt, Tools := MCPTool2ArkTool c.Tools }

/-- A conversation that holds one user-role message. -/
def oneMessageChat : ChatOpenAI :=
  { Model := "m", SystemPrompt := [], Tools := [plainTool "t"], RagContext := [],
    Message := [{ Role := Role.user, Content := goBytes "hi", ToolCalls := [],
                  ToolCallID := "" }] }

/-- A session over `oneMessageChat` with an empty history. -/
def oneMessageSession : Session := { llm := oneMessageChat, trace := [] }

/-- A request for a tool named `missing`, which `twoProviders` do not advertise. -/
def missingToolCall : ToolCall :=
  { ID := "id9", Function := { Name := "missing", Arguments := "x" } }

/-- Collaborators whose model answers "done" at once, without requesting a
tool. -/
def directAnswer : Collaborators where
  CreateChatCompletion := fun _ _ =>
    .ok [{ Role := Role.assistant, Content := goBytes "done", ToolCalls := [],
           ToolCallID := "" }]
  CallTool := fun _ _ _ _ => .ok (goBytes "ok")

/-- One provider call for a request: the call is recorded; on success a
tool-role message with the result text and the request's id is appended to the
log, on error nothing is appended. -/
def callOnce (E : Collaborators) (toolCall : ToolCall) (mcpClient : MCPClient) (s : Session) :
    Session :=
  match E.CallTool s.trace mcpClient toolCall.Function.Name toolCall.Function.Arguments with
  | .error _ =>
    { s with trace := s.trace ++
        [Event.callTool mcpClient.Id toolCall.Function.Name toolCall.Function.Arguments] }
  | .ok toolText =>
    { llm := { s.llm with Message := s.llm.Message ++
        [{ Role := Role.tool, Content := toolText, ToolCalls := [],
           ToolCallID := toolCall.ID }] },
      trace := s.trace ++
        [Event.callTool mcpClient.Id toolCall.Function.Name toolCall.Function.Arguments] }

/-- The dispatch phase as the specification words it: the requests are taken
in the order received; each is resolved to the provider that advertises its
name and invoked once; an unresolved request is skipped. -/
def dispatchInOrder (E : Collaborators) (clients : List MCPClient) :
    List ToolCall → Session → Session
  | [], s => s
  | toolCall :: rest, s =>
    match clients.find? (fun c =>
        c.GetTool.any (fun t => decide (t.Name = toolCall.Function.Name))) with
    | none => dispatchInOrder E clients rest s
    | some mcpClient => dispatchInOrder E clients rest (callOnce E toolCall mcpClient s)

/-- Collaborators whose model requests `t` and then answers, and whose tool
calls all fail. -/
def failingTools : Collaborators where
  CreateChatCompletion := oneToolRound.CreateChatCompletion
  CallTool := fun _ _ _ _ => .error "tool failed"

/-- One provider that advertises the tools `t` and `u`. -/
def oneProvider : List MCPClient :=
  [{ Id := 1, Tools := [plainTool "t", plainTool "u"] }]

/-- Two requests, for `t` and then for `u`. -/
def twoCalls : List ToolCall :=
  [{ ID := "id1", Function := { Name := "t", Arguments := "x" } },
   { ID := "id2", Function := { Name := "u", Arguments := "y" } }]

/-- The entry `MCPTool2ArkTool` builds for one tool. -/
def arkToolOf (tool : Tool) : ArkTool :=
  { Kind := "function", Name := tool.Name, Description := tool.Description,
    Parameters :=
      { type := if tool.InputSchema.SchemaType = "" then "object" else tool.InputSchema.SchemaType,
        properties := tool.InputSchema.Properties,
        required := tool.InputSchema.Required } }

/-- The score `scoreDocuments` computes for a document against a query. -/
def docScore (L : GoLib) (query : String) (doc : Document) : ℚ :=
  calculateScore L (tokenize L query) (queryWordSet L (tokenize L query)) doc.Content

/-- A document sharing one of its ten tokens with the ten-token query
`a b c d e f g h i j`: its score is `0.1` over exact arithmetic and just below
the float64 `0.1` in float64 arithmetic. -/
def boundaryDoc : Document :=
  { Path := "kb/z.txt", Content := "a z1 z2 z3 z4 z5 z6 z7 z8 z9", Score := 0 }

/-- The providers that dispatching one request calls, in call order: every
client in registration order, once per advertised tool whose name is the
requested name. -/
def callers (clients : List MCPClient) (toolCall : ToolCall) : List MCPClient :=
  clients.flatMap (fun mcpClient =>
    (mcpClient.GetTool.filter (fun t => decide (t.Name = toolCall.Function.Name))).map
      (fun _ => mcpClient))

/-- The messages appended for a sequence of provider calls made for one
request from the history `tr`: in call order, one tool-role message per call
that succeeds, carrying the call's result text and the request's id, and
nothing for a call that fails. -/
def toolMessages (E : Collaborators) (toolCall : ToolCall) :
    List MCPClient → List Event → List ChatCompletionMessage
  | [], _ => []
  | mcpClient :: rest, tr =>
    match E.CallTool tr mcpClient toolCall.Function.Name toolCall.Function.Arguments with
    | .error _ =>
      toolMessages E toolCall rest (tr ++
        [Event.callTool mcpClient.Id toolCall.Function.Name toolCall.Function.Arguments])
    | .ok toolText =>
      { Role := Role.tool, Content := toolText, ToolCalls := [], ToolCallID := toolCall.ID } ::
        toolMessages E toolCall rest (tr ++
          [Event.callTool mcpClient.Id toolCall.Function.Name toolCall.Function.Arguments])

/-- Collaborators whose model requests `t` and then answers, and whose tool
calls fail on the provider 1 and succeed, returning "ok", on every other
provider. -/
def firstProviderFails : Collaborators where
  CreateChatCompletion := oneToolRound.CreateChatCompletion
  CallTool := fun _ mcpClient _ _ =>
    if mcpClient.Id = 1 then .error "tool failed" else .ok (goBytes "ok")

/-- The agent over `twoProviders` whose conversation already holds one
message, with the default retriever on `kb`. -/
def loggedRagAgent : Agent :=
  { twoProviderAgent with LLM := some oneMessageChat,
                          RAGRetriever := some (NewRAGRetriever "kb") }

/-- The agent over `twoProviders` with the default retriever on `kb`. -/
def ragAgent : Agent :=
  { twoProviderAgent with RAGRetriever := some (NewRAGRetriever "kb") }

/-- The type `LLMOption`: a function that updates the `ChatOpenAI` under
construction. -/
abbrev LLMOption := ChatOpenAI → ChatOpenAI

/-- The option `WithSystemPrompt`. -/
def WithSystemPrompt (prompt : Bytes) : LLMOption :=
  fun ai => { ai with SystemPrompt := prompt }

/-- The option `WithRagContext`. -/
def WithRagContext (ragPrompt : Bytes) : LLMOption :=
  fun ai => { ai with RagContext := ragPrompt }

/-- The option `WithMessage`. -/
def WithMessage (message : List ChatCompletionMessage) : LLMOption :=
  fun ai => { ai with Message := message }

/-- The option `WithLLMTools`. -/
def WithLLMTools (tools : List Tool) : LLMOption :=
  fun ai => { ai with Tools := tools }

/-- The conversation of `NewChatOpenAI` after the options have run, before the
system prompt and the RAG context are appended. -/
def afterOptions (model : String) (opts : List LLMOption) : ChatOpenAI :=
  opts.foldl (fun llm opt => opt llm)
    { Model := model, SystemPrompt := [], Tools := [], RagContext := [], Message := [] }

/-- The constructor `NewChatOpenAI`; `apiKey` is the value of the environment
variable read for the API key, and `none` is the panic on an empty model name
or a missing key. -/
def NewChatOpenAI (model : String) (apiKey : String) (opts : List LLMOption) :
    Option ChatOpenAI :=
  if model = "" then none
  else if apiKey = "" then none
  else
    let llm := afterOptions model opts
    let llm1 : ChatOpenAI :=
      if llm.SystemPrompt ≠ [] then
        { llm with Message := llm.Message ++
            [{ Role := Role.system, Content := llm.SystemPrompt, ToolCalls := [],
               ToolCallID := "" }] }
      else llm
    let llm2 : ChatOpenAI :=
      if llm1.RagContext ≠ [] then
        { llm1 with Message := llm1.Message ++
            [{ Role := Role.user, Content := llm1.RagContext, ToolCalls := [],
               ToolCallID := "" }] }
      else llm1
    some llm2

/-- The system-role messages of a log. -/
def systemMessages (log : List ChatCompletionMessage) : List ChatCompletionMessage :=
  log.filter (fun m => decide (m.Role = Role.system))

/-! ## Theorems -/

/-! ### float64 rounding -/

theorem roundHalfEven_eq (t : ℚ) (m : ℤ) (h : |t - m| < 1 / 2) : roundHalfEven t = m := by
  have h1 := abs_lt.1 h
  unfold roundHalfEven
  by_cases hle : (m : ℚ) ≤ t
  · have hf : ⌊t⌋ = m := by
      rw [Int.floor_eq_iff]
      constructor
      · exact hle
      · linarith [h1.2]
    rw [hf, if_pos (by linarith [h1.2])]
  · have hlt : t < m := not_le.1 hle
    have hf : ⌊t⌋ = m - 1 := by
      rw [Int.floor_eq_iff]
      push_cast
      constructor
      · linarith [h1.1]
      · linarith
    rw [hf]
    push_cast
    rw [if_neg (by linarith [h1.1]), if_pos (by linarith [h1.1])]
    ring

/-- The value of `round64` at a positive `x` in the binade of exponent `e`,
when `x` is nearer to the multiple `m` of the spacing than to any other. -/
theorem round64_eval (x : ℚ) (e m : ℤ) (hx : 0 < x) (hlo : (2 : ℚ) ^ e ≤ x)
    (hhi : x < (2 : ℚ) ^ (e + 1)) (he : -1022 ≤ e)
    (hm : |x / (2 : ℚ) ^ (e - 52) - m| < 1 / 2) :
    round64 x = m * (2 : ℚ) ^ (e - 52) := by
  have hlog : Int.log 2 |x| = e := by
    rw [abs_of_pos hx]
    apply le_antisymm
    · have h1 := (Int.lt_zpow_iff_log_lt (R := ℚ) (b := 2) (by norm_num) hx (x := e + 1)).1
        (by exact_mod_cast hhi)
      omega
    · exact (Int.zpow_le_iff_le_log (R := ℚ) (b := 2) (by norm_num) hx).1
        (by exact_mod_cast hlo)
  unfold round64
  rw [if_neg (ne_of_gt hx), hlog, max_eq_left he, roundHalfEven_eq _ m hm]

theorem round64_zero : round64 0 = 0 := by
  simp [round64]

/-- Every natural number below `2 ^ 53` is a float64 value. -/
theorem round64_natCast (k : ℕ) (hk : k < 2 ^ 53) : round64 (k : ℚ) = (k : ℚ) := by
  rcases Nat.eq_zero_or_pos k with h0 | hpos
  · subst h0
    simpa using round64_zero
  · have hk0 : k ≠ 0 := Nat.pos_iff_ne_zero.1 hpos
    have hlo : 2 ^ Nat.log 2 k ≤ k := Nat.pow_log_le_self 2 hk0
    have hhi : k < 2 ^ (Nat.log 2 k + 1) := Nat.lt_pow_succ_log_self (by norm_num) k
    have he : Nat.log 2 k < 53 := by
      by_contra hcon
      have h53 : 2 ^ 53 ≤ 2 ^ Nat.log 2 k := Nat.pow_le_pow_right (by norm_num) (by omega)
      omega
    have hpow : (2 : ℚ) ^ ((Nat.log 2 k : ℤ) - 52) = ((2 : ℚ) ^ (52 - Nat.log 2 k))⁻¹ := by
      rw [← zpow_natCast, ← zpow_neg]
      congr 1
      omega
    have hne : ((2 : ℚ) ^ (52 - Nat.log 2 k)) ≠ 0 := pow_ne_zero _ (by norm_num)
    rw [round64_eval (k : ℚ) (Nat.log 2 k) ((k * 2 ^ (52 - Nat.log 2 k) : ℕ) : ℤ)
      (by exact_mod_cast hpos)
      (by rw [zpow_natCast]; exact_mod_cast hlo)
      (by
        have h1 : ((Nat.log 2 k : ℤ) + 1) = ((Nat.log 2 k + 1 : ℕ) : ℤ) := by push_cast; ring
        rw [h1, zpow_natCast]
        exact_mod_cast hhi)
      (by omega)
      (by
        rw [hpow]
        push_cast
        rw [div_inv_eq_mul, sub_self, abs_zero]
        norm_num)]
    rw [hpow]
    push_cast
    field_simp

/-- The float64 value of `0.7`. -/
theorem round64_seven_tenths :
    round64 (7 / 10) = 3152519739159347 / 4503599627370496 := by
  rw [round64_eval (7 / 10) (-1) 6305039478318694
    (by norm_num) (by norm_num) (by norm_num) (by norm_num) (by norm_num [abs_lt])]
  norm_num

/-- The float64 value of `0.3`. -/
theorem round64_three_tenths :
    round64 (3 / 10) = 5404319552844595 / 18014398509481984 := by
  rw [round64_eval (3 / 10) (-2) 5404319552844595
    (by norm_num) (by norm_num) (by norm_num) (by norm_num) (by norm_num [abs_lt])]
  norm_num

/-- The float64 value of `0.1`, also the quotient `1 / 10`. -/
theorem round64_one_tenth :
    round64 (1 / 10) = 3602879701896397 / 36028797018963968 := by
  rw [round64_eval (1 / 10) (-4) 7205759403792794
    (by norm_num) (by norm_num) (by norm_num) (by norm_num) (by norm_num [abs_lt])]
  norm_num

/-- The quotient `2 / 4`. -/
theorem round64_one_half :
    round64 (1 / 2) = 1 / 2 := by
  rw [round64_eval (1 / 2) (-1) 4503599627370496
    (by norm_num) (by norm_num) (by norm_num) (by norm_num) (by norm_num [abs_lt])]
  norm_num

/-- The quotient `1 / 1`. -/
theorem round64_one :
    round64 (1) = 1 := by
  rw [round64_eval (1) 0 4503599627370496
    (by norm_num) (by norm_num) (by norm_num) (by norm_num) (by norm_num [abs_lt])]
  norm_num

/-- The product `1 * 0.7`. -/
theorem round64_c07 :
    round64 (1 * (3152519739159347 / 4503599627370496)) = 3152519739159347 / 4503599627370496 := by
  rw [round64_eval (1 * (3152519739159347 / 4503599627370496)) (-1) 6305039478318694
    (by norm_num) (by norm_num) (by norm_num) (by norm_num) (by norm_num [abs_lt])]
  norm_num

/-- The product `0.5 * 0.3`. -/
theorem round64_half_c03 :
    round64 (1 / 2 * (5404319552844595 / 18014398509481984)) = 5404319552844595 / 36028797018963968 := by
  rw [round64_eval (1 / 2 * (5404319552844595 / 18014398509481984)) (-3) 5404319552844595
    (by norm_num) (by norm_num) (by norm_num) (by norm_num) (by norm_num [abs_lt])]
  norm_num

/-- The sum `0.7 + 0.15`: the float64 printed as 0.85. -/
theorem round64_scenarioA :
    round64 (3152519739159347 / 4503599627370496 + 5404319552844595 / 36028797018963968) = 7656119366529843 / 9007199254740992 := by
  rw [round64_eval (3152519739159347 / 4503599627370496 + 5404319552844595 / 36028797018963968) (-1) 7656119366529843
    (by norm_num) (by norm_num) (by norm_num) (by norm_num) (by norm_num [abs_lt])]
  norm_num

/-- The quotient `1 / 3`. -/
theorem round64_one_third :
    round64 (1 / 3) = 6004799503160661 / 18014398509481984 := by
  rw [round64_eval (1 / 3) (-2) 6004799503160661
    (by norm_num) (by norm_num) (by norm_num) (by norm_num) (by norm_num [abs_lt])]
  norm_num

/-- The product of the float64 `1 / 3` and `0.3`. -/
theorem round64_third_c03 :
    round64 (6004799503160661 / 18014398509481984 * (5404319552844595 / 18014398509481984)) = 7205759403792793 / 72057594037927936 := by
  rw [round64_eval (6004799503160661 / 18014398509481984 * (5404319552844595 / 18014398509481984)) (-4) 7205759403792793
    (by norm_num) (by norm_num) (by norm_num) (by norm_num) (by norm_num [abs_lt])]
  norm_num

/-- The sum printed as 0.7999999999999999. -/
theorem round64_fox :
    round64 (3152519739159347 / 4503599627370496 + 7205759403792793 / 72057594037927936) = 7205759403792793 / 9007199254740992 := by
  rw [round64_eval (3152519739159347 / 4503599627370496 + 7205759403792793 / 72057594037927936) (-1) 7205759403792793
    (by norm_num) (by norm_num) (by norm_num) (by norm_num) (by norm_num [abs_lt])]
  norm_num

/-- The product `0.1 * 0.7`. -/
theorem round64_tenth_c07 :
    round64 (3602879701896397 / 36028797018963968 * (3152519739159347 / 4503599627370496)) = 5044031582654955 / 72057594037927936 := by
  rw [round64_eval (3602879701896397 / 36028797018963968 * (3152519739159347 / 4503599627370496)) (-4) 5044031582654955
    (by norm_num) (by norm_num) (by norm_num) (by norm_num) (by norm_num [abs_lt])]
  norm_num

/-- The product `0.1 * 0.3`. -/
theorem round64_tenth_c03 :
    round64 (3602879701896397 / 36028797018963968 * (5404319552844595 / 18014398509481984)) = 1080863910568919 / 36028797018963968 := by
  rw [round64_eval (3602879701896397 / 36028797018963968 * (5404319552844595 / 18014398509481984)) (-6) 8646911284551352
    (by norm_num) (by norm_num) (by norm_num) (by norm_num) (by norm_num [abs_lt])]
  norm_num

/-- The sum printed as 0.09999999999999999. -/
theorem round64_boundary :
    round64 (5044031582654955 / 72057594037927936 + 1080863910568919 / 36028797018963968) = 7205759403792793 / 72057594037927936 := by
  rw [round64_eval (5044031582654955 / 72057594037927936 + 1080863910568919 / 36028797018963968) (-4) 7205759403792793
    (by norm_num) (by norm_num) (by norm_num) (by norm_num) (by norm_num [abs_lt])]
  norm_num

/-- The float64 value of `0.85`: the constant `float64_0_85`. -/
theorem round64_0_85 :
    round64 (17 / 20) = 7656119366529843 / 9007199254740992 := by
  rw [round64_eval (17 / 20) (-1) 7656119366529843
    (by norm_num) (by norm_num) (by norm_num) (by norm_num) (by norm_num [abs_lt])]
  norm_num

theorem asciiLib_ieee : asciiLib.IEEEArithmetic := fun _ => rfl

theorem exactLib_exact : exactLib.ExactArithmetic := fun _ => rfl

theorem exactNaturals_of_ieee (L : GoLib) (hI : L.IEEEArithmetic) (n : ℕ) (hn : n < 2 ^ 53) :
    L.ExactNaturals n := by
  intro k hk
  rw [hI]
  exact round64_natCast k (lt_of_le_of_lt hk hn)

theorem exactNaturals_of_exact (L : GoLib) (hE : L.ExactArithmetic) (n : ℕ) :
    L.ExactNaturals n := fun k _ => hE k

/-! ### Strings and the tokenizer -/

theorem utf8ByteSize_go_pos (c : Char) (cs : List Char) :
    0 < String.utf8ByteSize.go (c :: cs) := by
  have h := Char.utf8Size_pos c
  simp only [String.utf8ByteSize.go]
  omega

theorem utf8ByteSize_pos_iff (s : String) : s.utf8ByteSize > 0 ↔ s.data ≠ [] := by
  cases s with
  | mk l =>
    cases l with
    | nil => simp [String.utf8ByteSize, String.utf8ByteSize.go]
    | cons c cs =>
      have h := utf8ByteSize_go_pos c cs
      simp only [String.utf8ByteSize]
      constructor
      · intro _; simp
      · intro _; exact h

theorem push_data (s : String) (c : Char) : (s.push c).data = s.data ++ [c] := by
  cases s; rfl

/-- The loop of `tokenize`, started with a pending word made of letters and
digits, appends to `words` the maximal runs of the pending word followed by
the remaining runes. -/
theorem tokenizeLoop_eq (L : GoLib) (rest : List Char) :
    ∀ (currentWord : String) (words : List String),
      (∀ c ∈ currentWord.data, (L.IsLetter c || L.IsDigit c) = true) →
      tokenizeLoop L rest currentWord words
        = words ++ (maximalRuns L (currentWord.data ++ rest)).map String.mk := by
  induction rest with
  | nil =>
    intro cur words hcur
    have hsplit : List.splitOnP (fun c => !(L.IsLetter c || L.IsDigit c)) cur.data = [cur.data] :=
      List.splitOnP_eq_single _ _ (by intro x hx; simp [hcur x hx])
    simp only [tokenizeLoop, maximalRuns, List.append_nil, hsplit]
    by_cases h : cur.utf8ByteSize > 0
    · have h2 := (utf8ByteSize_pos_iff cur).1 h
      simp [h, h2]
    · have h2 : cur.data = [] := by
        by_contra hne; exact h ((utf8ByteSize_pos_iff cur).2 hne)
      simp [h, h2]
  | cons c rest ih =>
    intro cur words hcur
    by_cases hc : (L.IsLetter c || L.IsDigit c) = true
    · have hcur2 : ∀ x ∈ (cur.push c).data, (L.IsLetter x || L.IsDigit x) = true := by
        intro x hx
        rw [push_data] at hx
        rcases List.mem_append.1 hx with h | h
        · exact hcur x h
        · simp at h; subst h; exact hc
      simp only [tokenizeLoop, hc, if_true]
      rw [ih (cur.push c) words hcur2, push_data]
      simp
    · have hsep : (fun c => !(L.IsLetter c || L.IsDigit c)) c = true := by simpa using hc
      have hsplit := List.splitOnP_first (fun c => !(L.IsLetter c || L.IsDigit c))
        cur.data (by intro x hx; simp [hcur x hx]) c hsep rest
      simp only [tokenizeLoop, hc, if_false, maximalRuns, hsplit]
      by_cases h : cur.utf8ByteSize > 0
      · have h2 := (utf8ByteSize_pos_iff cur).1 h
        have hnil : ∀ x ∈ ("" : String).data, (L.IsLetter x || L.IsDigit x) = true := by
          intro x hx; simp at hx
        simp only [h, if_true]
        rw [ih "" (words ++ [cur]) hnil]
        simp [maximalRuns, h2]
      · have h2 : cur.data = [] := by
          by_contra hne; exact h ((utf8ByteSize_pos_iff cur).2 hne)
        simp only [h, if_false]
        rw [ih cur words hcur]
        simp [maximalRuns, h2]

theorem tokenize_eq_maximalRuns (L : GoLib) (text : String) :
    tokenize L text = (maximalRuns L (text.data.map L.ToLower)).map String.mk := by
  unfold tokenize
  rw [tokenizeLoop_eq L _ "" [] (by intro c hc; simp at hc)]
  simp [GoLib.stringsToLower]

theorem IsRuns.cons_gap (L : GoLib) (c : Char)
    (hc : (L.IsLetter c || L.IsDigit c) = false) :
    ∀ (text : List Char) (runs : List (List Char)), IsRuns L text runs →
      IsRuns L (c :: text) runs := by
  intro text runs h
  cases h with
  | done gap hgap =>
    refine IsRuns.done (c :: text) ?_
    intro x hx
    rcases List.mem_cons.1 hx with h1 | h1
    · subst h1; exact hc
    · exact hgap x h1
  | run gap word rest runs hgap hne hword hrest h =>
    have hgap2 : ∀ x ∈ c :: gap, (L.IsLetter x || L.IsDigit x) = false := by
      intro x hx
      rcases List.mem_cons.1 hx with h1 | h1
      · subst h1; exact hc
      · exact hgap x h1
    have := IsRuns.run (c :: gap) word rest runs hgap2 hne hword hrest h
    simpa using this

theorem IsRuns.mem_props (L : GoLib) (text : List Char) (runs : List (List Char))
    (h : IsRuns L text runs) :
    ∀ w ∈ runs, w ≠ [] ∧ ∀ c ∈ w, (L.IsLetter c || L.IsDigit c) = true ∧ c ∈ text := by
  induction h with
  | done gap hgap => intro w hw; simp at hw
  | run gap word rest runs hgap hne hword hrest h ih =>
    intro w hw
    rcases List.mem_cons.1 hw with h1 | h1
    · subst h1
      refine ⟨hne, fun c hc => ⟨hword c hc, ?_⟩⟩
      simp [hc]
    · obtain ⟨h2, h3⟩ := ih w h1
      refine ⟨h2, fun c hc => ⟨(h3 c hc).1, ?_⟩⟩
      have := (h3 c hc).2
      simp [this]

/-- The words the loop of `tokenize` appends are a decomposition into maximal
runs of the pending word followed by the remaining runes. -/
theorem tokenizeLoop_isRuns (L : GoLib) (rest : List Char) :
    ∀ (currentWord : String),
      (∀ c ∈ currentWord.data, (L.IsLetter c || L.IsDigit c) = true) →
      IsRuns L (currentWord.data ++ rest) (maximalRuns L (currentWord.data ++ rest)) := by
  induction rest with
  | nil =>
    intro cur hcur
    have hsplit : List.splitOnP (fun c => !(L.IsLetter c || L.IsDigit c)) cur.data = [cur.data] :=
      List.splitOnP_eq_single _ _ (by intro x hx; simp [hcur x hx])
    simp only [maximalRuns, List.append_nil, hsplit]
    by_cases h2 : cur.data = []
    · simp only [h2]
      exact IsRuns.done [] (by intro c hc; simp at hc)
    · have := IsRuns.run [] cur.data [] [] (by intro c hc; simp at hc) h2 hcur
        (by intro c hc; simp at hc) (IsRuns.done [] (by intro c hc; simp at hc))
      simpa [h2] using this
  | cons c rest ih =>
    intro cur hcur
    by_cases hc : (L.IsLetter c || L.IsDigit c) = true
    · have hcur2 : ∀ x ∈ (cur.push c).data, (L.IsLetter x || L.IsDigit x) = true := by
        intro x hx
        rw [push_data] at hx
        rcases List.mem_append.1 hx with h | h
        · exact hcur x h
        · simp at h; subst h; exact hc
      have := ih (cur.push c) hcur2
      rw [push_data] at this
      simpa using this
    · have hc2 : (L.IsLetter c || L.IsDigit c) = false := by simpa using hc
      have hsep : (fun c => !(L.IsLetter c || L.IsDigit c)) c = true := by simpa using hc
      have hsplit := List.splitOnP_first (fun c => !(L.IsLetter c || L.IsDigit c))
        cur.data (by intro x hx; simp [hcur x hx]) c hsep rest
      have hrest : IsRuns L (c :: rest) (maximalRuns L rest) := by
        have := ih "" (by intro x hx; simp at hx)
        exact IsRuns.cons_gap L c hc2 _ _ (by simpa using this)
      by_cases h2 : cur.data = []
      · simp only [maximalRuns, hsplit]
        rw [h2]
        simpa [maximalRuns] using hrest
      · have := IsRuns.run [] cur.data (c :: rest) (maximalRuns L rest)
          (by intro x hx; simp at hx) h2 hcur
          (by intro x hx; simp at hx; subst hx; exact hc2) hrest
        simp only [maximalRuns, hsplit]
        simpa [maximalRuns, h2] using this

theorem tokenize_isRuns (L : GoLib) (text : String) :
    IsRuns L (text.data.map L.ToLower) ((tokenize L text).map String.data) := by
  have h := tokenizeLoop_isRuns L (text.data.map L.ToLower) "" (by intro c hc; simp at hc)
  rw [tokenize_eq_maximalRuns]
  have hmap : ((maximalRuns L (text.data.map L.ToLower)).map String.mk).map String.data
      = maximalRuns L (text.data.map L.ToLower) := by
    rw [List.map_map]
    exact List.map_id _
  rw [hmap]
  simpa using h

/-- Under idempotent lower-casing, a token is its own lower-case form. -/
theorem stringsToLower_token (L : GoLib) (hL : L.LowerIdempotent) (text : String) :
    ∀ w ∈ tokenize L text, L.stringsToLower w = w := by
  intro w hw
  have hprops := IsRuns.mem_props L _ _ (tokenize_isRuns L text) w.data
    (List.mem_map_of_mem String.data hw)
  have hfix : w.data.map L.ToLower = w.data := by
    conv_rhs => rw [← List.map_id w.data]
    apply List.map_congr_left
    intro c hc
    obtain ⟨c0, _, hc0⟩ := List.mem_map.1 (hprops.2 c hc).2
    rw [← hc0]
    exact hL c0
  cases w with
  | mk l => simp only [GoLib.stringsToLower] at hfix ⊢; rw [hfix]

/-! ### Go maps and the loops of the scorer -/

theorem GoMap.get_incr (m : GoMap Nat) (k k' : String) :
    GoMap.get 0 (GoMap.incr m k) k' = GoMap.get 0 m k' + (if k = k' then 1 else 0) := by
  induction m with
  | nil => by_cases h : k = k' <;> simp [GoMap.incr, GoMap.get, h]
  | cons e m ih =>
    obtain ⟨k1, v1⟩ := e
    simp only [GoMap.incr]
    by_cases h1 : k1 = k
    · subst h1
      by_cases h2 : k1 = k' <;> simp [GoMap.get, h2]
    · by_cases h2 : k1 = k'
      · subst h2
        have h3 : ¬ k = k1 := fun h => h1 h.symm
        simp [GoMap.get, h1, h3]
      · simp [GoMap.get, h1, h2, ih]

theorem GoMap.get_set_true (m : GoMap Bool) (k k' : String) :
    GoMap.get false (GoMap.set m k true) k' = (decide (k = k') || GoMap.get false m k') := by
  induction m with
  | nil => by_cases h : k = k' <;> simp [GoMap.set, GoMap.get, h]
  | cons e m ih =>
    obtain ⟨k1, v1⟩ := e
    simp only [GoMap.set]
    by_cases h1 : k1 = k
    · subst h1
      by_cases h2 : k1 = k' <;> simp [GoMap.get, h2]
    · by_cases h2 : k1 = k'
      · subst h2
        have h3 : ¬ k = k1 := fun h => h1 h.symm
        simp [GoMap.get, h1, h3]
      · simp [GoMap.get, h1, h2, ih]

theorem get_foldl_incr (L : GoLib) (ws : List String) :
    ∀ (m : GoMap Nat) (k : String),
      GoMap.get 0 (ws.foldl (fun m word => GoMap.incr m (L.stringsToLower word)) m) k
        = GoMap.get 0 m k + (ws.map L.stringsToLower).count k := by
  induction ws with
  | nil => intro m k; simp
  | cons w ws ih =>
    intro m k
    rw [List.foldl_cons, ih, GoMap.get_incr, List.map_cons, List.count_cons]
    by_cases h : L.stringsToLower w = k <;> simp [h]
    omega

theorem get_contentWordSet (L : GoLib) (ws : List String) (k : String) :
    GoMap.get 0 (contentWordSet L ws) k = (ws.map L.stringsToLower).count k := by
  unfold contentWordSet
  rw [get_foldl_incr]
  simp [GoMap.get]

theorem get_foldl_set (L : GoLib) (ws : List String) :
    ∀ (m : GoMap Bool) (k : String),
      GoMap.get false (ws.foldl (fun m word => GoMap.set m (L.stringsToLower word) true) m) k
        = (GoMap.get false m k || decide (k ∈ ws.map L.stringsToLower)) := by
  induction ws with
  | nil => intro m k; simp
  | cons w ws ih =>
    intro m k
    rw [List.foldl_cons, ih, GoMap.get_set_true]
    by_cases h : L.stringsToLower w = k
    · subst h; simp
    · have h2 : ¬ k = L.stringsToLower w := fun e => h e.symm
      simp [h, h2]

theorem get_queryWordSet (L : GoLib) (ws : List String) (k : String) :
    GoMap.get false (queryWordSet L ws) k = decide (k ∈ ws.map L.stringsToLower) := by
  unfold queryWordSet
  rw [get_foldl_set]
  simp [GoMap.get]

theorem foldl_freq (P : String → Bool) (cws : GoMap Nat) :
    ∀ s : Nat, cws.foldl (fun s e => if P e.1 then s + e.2 else s) s
      = s + (cws.map (fun e => if P e.1 then e.2 else 0)).sum := by
  induction cws with
  | nil => intro s; simp
  | cons e cws ih =>
    intro s
    rw [List.foldl_cons, ih]
    by_cases h : P e.1 = true <;> simp [h]
    omega

theorem sum_incr (P : String → Bool) (m : GoMap Nat) (k : String) :
    ((GoMap.incr m k).map (fun e => if P e.1 then e.2 else 0)).sum
      = (m.map (fun e => if P e.1 then e.2 else 0)).sum + (if P k then 1 else 0) := by
  induction m with
  | nil => simp [GoMap.incr]
  | cons e m ih =>
    obtain ⟨k1, v1⟩ := e
    simp only [GoMap.incr]
    by_cases h1 : k1 = k
    · subst h1
      by_cases h2 : P k1 = true <;> simp [h2]
      omega
    · simp only [h1, if_false, List.map_cons, List.sum_cons, ih]
      omega

theorem sum_foldl_incr (L : GoLib) (P : String → Bool) (ws : List String) :
    ∀ m : GoMap Nat,
      ((ws.foldl (fun m word => GoMap.incr m (L.stringsToLower word)) m).map
          (fun e => if P e.1 then e.2 else 0)).sum
        = (m.map (fun e => if P e.1 then e.2 else 0)).sum
          + (ws.map L.stringsToLower).countP P := by
  induction ws with
  | nil => intro m; simp
  | cons w ws ih =>
    intro m
    rw [List.foldl_cons, ih, sum_incr, List.map_cons, List.countP_cons]
    by_cases h : P (L.stringsToLower w) = true <;> simp [h]
    omega

/-- The sum accumulated by the frequency loop is the number of document
words whose lower-case form is a key of `queryWordSet`. -/
theorem freqSum_contentWordSet (L : GoLib) (qws : GoMap Bool) (ws : List String) :
    freqSum qws (contentWordSet L ws)
      = (ws.map L.stringsToLower).countP (fun w => GoMap.get false qws w) := by
  unfold freqSum contentWordSet
  rw [foldl_freq (fun w => GoMap.get false qws w), sum_foldl_incr]
  simp

theorem foldl_matched (c : String → Bool) (ws : List String) :
    ∀ n : Nat, ws.foldl (fun n word => if c word then n + 1 else n) n = n + ws.countP c := by
  induction ws with
  | nil => intro n; simp
  | cons w ws ih =>
    intro n
    rw [List.foldl_cons, ih, List.countP_cons]
    by_cases h : c w = true <;> simp [h]
    omega

/-- The matching loop counts the query words, each occurrence separately,
that pass the test of the loop body. -/
theorem matchedCount_eq_countP (L : GoLib) (queryWords : List String) (qws : GoMap Bool)
    (cws : GoMap Nat) :
    matchedCount L queryWords qws cws
      = queryWords.countP (fun word =>
          GoMap.get false qws (L.stringsToLower word)
            && decide (GoMap.get 0 cws (L.stringsToLower word) > 0)) := by
  unfold matchedCount
  have h := foldl_matched (fun word =>
      GoMap.get false qws (L.stringsToLower word)
        && decide (GoMap.get 0 cws (L.stringsToLower word) > 0)) queryWords 0
  simpa using h

theorem matchedCount_le (L : GoLib) (queryWords : List String) (qws : GoMap Bool)
    (cws : GoMap Nat) : matchedCount L queryWords qws cws ≤ queryWords.length := by
  rw [matchedCount_eq_countP]
  exact List.countP_le_length _

theorem freqSum_le (L : GoLib) (qws : GoMap Bool) (ws : List String) :
    freqSum qws (contentWordSet L ws) ≤ ws.length := by
  rw [freqSum_contentWordSet]
  have h := List.countP_le_length (fun w => GoMap.get false qws w) (l := ws.map L.stringsToLower)
  simpa using h

/-! ### The ASCII library -/

theorem char_toLower_toLower (c : Char) : Char.toLower (Char.toLower c) = Char.toLower c := by
  by_cases h : c.toNat ≥ 65 ∧ c.toNat ≤ 90
  · have h1 : Char.toLower c = Char.ofNat (c.toNat + 32) := by simp [Char.toLower, h]
    have hv : (c.toNat + 32).isValidChar := by
      left; omega
    have h2 : (Char.ofNat (c.toNat + 32)).toNat = c.toNat + 32 := by
      unfold Char.ofNat
      rw [dif_pos hv]
      simp only [Char.ofNatAux, Char.toNat]
      show (BitVec.ofNatLt (c.toNat + 32) _).toNat = _
      simp
      rfl
    rw [h1]
    have h3 : ¬ ((Char.ofNat (c.toNat + 32)).toNat ≥ 65 ∧
        (Char.ofNat (c.toNat + 32)).toNat ≤ 90) := by
      rw [h2]; omega
    simp only [Char.toLower]
    rw [if_neg h3]
  · simp only [Char.toLower]
    rw [if_neg h, if_neg h]

theorem asciiLib_lowerIdempotent : asciiLib.LowerIdempotent := by
  intro c
  exact char_toLower_toLower c

/-! ### The scorer on tokenized input -/

theorem map_stringsToLower_tokenize (L : GoLib) (hL : L.LowerIdempotent) (text : String) :
    (tokenize L text).map L.stringsToLower = tokenize L text := by
  conv_rhs => rw [← List.map_id (tokenize L text)]
  apply List.map_congr_left
  intro w hw
  simpa using stringsToLower_token L hL text w hw

/-- On tokenized input the matching loop counts the occurrences of query
tokens that are document tokens. -/
theorem matchedCount_tokens (L : GoLib) (hL : L.LowerIdempotent) (query content : String) :
    matchedCount L (tokenize L query) (queryWordSet L (tokenize L query))
        (contentWordSet L (tokenize L content))
      = (tokenize L query).countP (fun w => decide (w ∈ tokenize L content)) := by
  rw [matchedCount_eq_countP]
  apply List.countP_congr
  intro w hw
  have hw2 : L.stringsToLower w = w := stringsToLower_token L hL query w hw
  rw [hw2, get_queryWordSet, get_contentWordSet, map_stringsToLower_tokenize L hL query,
    map_stringsToLower_tokenize L hL content]
  simp [hw, List.count_pos_iff]

/-- On tokenized input the frequency loop counts the occurrences of document
tokens that are query tokens. -/
theorem freqSum_tokens (L : GoLib) (hL : L.LowerIdempotent) (query content : String) :
    freqSum (queryWordSet L (tokenize L query)) (contentWordSet L (tokenize L content))
      = (tokenize L content).countP (fun w => decide (w ∈ tokenize L query)) := by
  rw [freqSum_contentWordSet, map_stringsToLower_tokenize L hL content]
  apply List.countP_congr
  intro w _
  rw [get_queryWordSet, map_stringsToLower_tokenize L hL query]

theorem freqAccumulate_foldl (L : GoLib) (n : ℕ) (hN : L.ExactNaturals n) (P : String → Bool)
    (cws : GoMap Nat) :
    ∀ acc : ℕ, acc + (cws.map (fun e => e.2)).sum ≤ n →
      cws.foldl (fun s e => if P e.1 then L.Round64 (s + L.Round64 (e.2 : ℚ)) else s) (acc : ℚ)
        = ((cws.foldl (fun s e => if P e.1 then s + e.2 else s) acc : ℕ) : ℚ) := by
  induction cws with
  | nil => intro acc _; rfl
  | cons e cws ih =>
    intro acc hacc
    simp only [List.map_cons, List.sum_cons] at hacc
    rw [List.foldl_cons, List.foldl_cons]
    by_cases hp : P e.1 = true
    · have h1 : L.Round64 (e.2 : ℚ) = (e.2 : ℚ) := hN e.2 (by omega)
      have h2 : L.Round64 ((acc : ℚ) + (e.2 : ℚ)) = ((acc + e.2 : ℕ) : ℚ) := by
        have h3 := hN (acc + e.2) (by omega)
        push_cast at h3 ⊢
        exact h3
      rw [if_pos hp, if_pos hp, h1, h2]
      exact ih (acc + e.2) (by omega)
    · rw [if_neg hp, if_neg hp]
      exact ih acc (by omega)

theorem sum_counts_contentWordSet (L : GoLib) (ws : List String) :
    ((contentWordSet L ws).map (fun e => e.2)).sum = ws.length := by
  have h := sum_foldl_incr L (fun _ => true) ws []
  simp only [if_true, List.map_nil, List.sum_nil, Nat.zero_add, List.countP_true,
    List.length_map] at h
  exact h

/-- When the natural numbers up to the document's token count are float64
values, the frequency loop accumulates the exact count. -/
theorem freqAccumulate_exact (L : GoLib) (n : ℕ) (hN : L.ExactNaturals n) (qws : GoMap Bool)
    (ws : List String) (hlen : ws.length ≤ n) :
    freqAccumulate L qws (contentWordSet L ws) = (freqSum qws (contentWordSet L ws) : ℚ) := by
  have h := freqAccumulate_foldl L n hN (fun w => GoMap.get false qws w) (contentWordSet L ws) 0
    (by rw [sum_counts_contentWordSet]; omega)
  unfold freqAccumulate freqSum
  simpa using h

theorem calculateScore_unfold (L : GoLib) (queryWords : List String) (qws : GoMap Bool)
    (content : String) (hne : queryWords ≠ []) :
    calculateScore L queryWords qws content
      = L.Round64
          (L.Round64
              (L.Round64
                  (L.Round64
                      (matchedCount L queryWords qws (contentWordSet L (tokenize L content)) : ℚ)
                    / L.Round64 (queryWords.length : ℚ))
                * float64_0_7)
            + L.Round64
                ((if (tokenize L content).length > 0 then
                    L.Round64
                      (freqAccumulate L qws (contentWordSet L (tokenize L content))
                        / L.Round64 ((tokenize L content).length : ℚ))
                  else freqAccumulate L qws (contentWordSet L (tokenize L content)))
                * float64_0_3)) := by
  have hlen : ¬ queryWords.length = 0 := by
    intro h; exact hne (List.length_eq_zero.1 h)
  simp only [calculateScore, hlen, if_false]

/-- Over exact arithmetic the score is the weighted sum of the two ratios. -/
theorem calculateScore_exact (L : GoLib) (hE : L.ExactArithmetic) (queryWords : List String)
    (qws : GoMap Bool) (content : String) (hne : queryWords ≠ []) :
    calculateScore L queryWords qws content
      = (matchedCount L queryWords qws (contentWordSet L (tokenize L content)) : ℚ)
          / (queryWords.length : ℚ) * float64_0_7
        + (freqSum qws (contentWordSet L (tokenize L content)) : ℚ)
          / ((tokenize L content).length : ℚ) * float64_0_3 := by
  have hf := freqAccumulate_exact L _ (exactNaturals_of_exact L hE (tokenize L content).length)
    qws (tokenize L content) (le_refl _)
  have hE2 : ∀ x : ℚ, L.Round64 x = x := hE
  rw [calculateScore_unfold L queryWords qws content hne, hf]
  simp only [hE2]
  by_cases hd : (tokenize L content).length > 0
  · simp [hd]
  · have hd0 : (tokenize L content).length = 0 := by omega
    have hle := freqSum_le L qws (tokenize L content)
    have hf0 : freqSum qws (contentWordSet L (tokenize L content)) = 0 := by omega
    simp [hd0, hf0]

/-! ### Claims on the scorer and the tokenizer -/

/-- C1 (counterexample). For the query "fox fox" and the document "fox" the
loop of `calculateScore` ends with `matchedCount = 2`, while one distinct
query token occurs in the document. -/
theorem C1_counterexample :
    matchedCount asciiLib (tokenize asciiLib "fox fox")
        (queryWordSet asciiLib (tokenize asciiLib "fox fox"))
        (contentWordSet asciiLib (tokenize asciiLib "fox")) = 2
      ∧ distinctMatched (tokenize asciiLib "fox fox") (tokenize asciiLib "fox") = 1
      ∧ matchedCount asciiLib (tokenize asciiLib "fox fox")
          (queryWordSet asciiLib (tokenize asciiLib "fox fox"))
          (contentWordSet asciiLib (tokenize asciiLib "fox"))
        ≠ distinctMatched (tokenize asciiLib "fox fox") (tokenize asciiLib "fox") := by
  decide

/-- C1 (amended). For every query and document, the value `matchedCount` that
`calculateScore` uses for `baseScore` is the number of query-token
occurrences (a token repeated in the query counts once per repetition) that
occur at least once among the document's tokens; it is the number of distinct
matching tokens when the query's tokens are pairwise distinct. -/
theorem C1_matched_counts_occurrences (L : GoLib) (hL : L.LowerIdempotent)
    (query content : String) :
    matchedCount L (tokenize L query) (queryWordSet L (tokenize L query))
        (contentWordSet L (tokenize L content))
      = ((tokenize L query).filter (fun w => decide (w ∈ tokenize L content))).length
    ∧ ((tokenize L query).Nodup →
        matchedCount L (tokenize L query) (queryWordSet L (tokenize L query))
          (contentWordSet L (tokenize L content))
        = distinctMatched (tokenize L query) (tokenize L content)) := by
  have h := matchedCount_tokens L hL query content
  rw [List.countP_eq_length_filter] at h
  refine ⟨h, fun hnd => ?_⟩
  rw [h, distinctMatched, hnd.dedup]

/-- C1 (witness): the amended statement at the query "fox fox" and the
document "fox" under the ASCII library. -/
theorem C1_matched_counts_occurrences_witness :
    asciiLib.LowerIdempotent ∧
    matchedCount asciiLib (tokenize asciiLib "fox fox")
        (queryWordSet asciiLib (tokenize asciiLib "fox fox"))
        (contentWordSet asciiLib (tokenize asciiLib "fox"))
      = ((tokenize asciiLib "fox fox").filter
          (fun w => decide (w ∈ tokenize asciiLib "fox"))).length :=
  ⟨asciiLib_lowerIdempotent,
    (C1_matched_counts_occurrences asciiLib asciiLib_lowerIdempotent "fox fox" "fox").1⟩

/-- C4. For every query-word list, query-word set and document, the score of
`calculateScore`, computed over exact rational arithmetic, lies between 0 and
1; the matched count is at most the number of query words and the summed
frequency of query words in the document, which is the value the frequency
loop accumulates, is at most the document's token count. -/
theorem C4_score_bounds (L : GoLib) (hE : L.ExactArithmetic) (queryWords : List String)
    (qws : GoMap Bool) (content : String) :
    0 ≤ calculateScore L queryWords qws content
    ∧ calculateScore L queryWords qws content ≤ 1
    ∧ matchedCount L queryWords qws (contentWordSet L (tokenize L content)) ≤ queryWords.length
    ∧ freqSum qws (contentWordSet L (tokenize L content)) ≤ (tokenize L content).length
    ∧ freqAccumulate L qws (contentWordSet L (tokenize L content))
        = (freqSum qws (contentWordSet L (tokenize L content)) : ℚ)
    ∧ freqAccumulate L qws (contentWordSet L (tokenize L content))
        ≤ ((tokenize L content).length : ℚ) := by
  have hm := matchedCount_le L queryWords qws (contentWordSet L (tokenize L content))
  have hf := freqSum_le L qws (tokenize L content)
  have hacc := freqAccumulate_exact L _
    (exactNaturals_of_exact L hE (tokenize L content).length) qws (tokenize L content)
    (le_refl _)
  have h7 : (0 : ℚ) ≤ float64_0_7 := by unfold float64_0_7; norm_num
  have h3 : (0 : ℚ) ≤ float64_0_3 := by unfold float64_0_3; norm_num
  have h73 : float64_0_7 + float64_0_3 ≤ 1 := by unfold float64_0_7 float64_0_3; norm_num
  refine ⟨?_, ?_, hm, hf, hacc, by rw [hacc]; exact_mod_cast hf⟩
  · by_cases hne : queryWords = []
    · simp [calculateScore, hne]
    · rw [calculateScore_exact L hE queryWords qws content hne]
      positivity
  · by_cases hne : queryWords = []
    · simp [calculateScore, hne]
    · rw [calculateScore_exact L hE queryWords qws content hne]
      have hmq : (matchedCount L queryWords qws (contentWordSet L (tokenize L content)) : ℚ)
          ≤ (queryWords.length : ℚ) := by exact_mod_cast hm
      have hfq : (freqSum qws (contentWordSet L (tokenize L content)) : ℚ)
          ≤ ((tokenize L content).length : ℚ) := by exact_mod_cast hf
      have h1 : (matchedCount L queryWords qws (contentWordSet L (tokenize L content)) : ℚ)
          / (queryWords.length : ℚ) ≤ 1 :=
        div_le_one_of_le₀ hmq (by positivity)
      have h2 : (freqSum qws (contentWordSet L (tokenize L content)) : ℚ)
          / ((tokenize L content).length : ℚ) ≤ 1 :=
        div_le_one_of_le₀ hfq (by positivity)
      have h4 := mul_le_of_le_one_left h7 h1
      have h5 := mul_le_of_le_one_left h3 h2
      linarith

/-- C4 (witness): over the exact-arithmetic library the score of the document
"The quick brown fox" for the query "quick fox" lies between 0 and 1. -/
theorem C4_score_bounds_witness :
    exactLib.ExactArithmetic
    ∧ 0 ≤ calculateScore exactLib (tokenize exactLib "quick fox")
        (queryWordSet exactLib (tokenize exactLib "quick fox")) "The quick brown fox"
    ∧ calculateScore exactLib (tokenize exactLib "quick fox")
        (queryWordSet exactLib (tokenize exactLib "quick fox")) "The quick brown fox" ≤ 1 :=
  ⟨exactLib_exact,
    (C4_score_bounds exactLib exactLib_exact (tokenize exactLib "quick fox")
      (queryWordSet exactLib (tokenize exactLib "quick fox")) "The quick brown fox").1,
    (C4_score_bounds exactLib exactLib_exact (tokenize exactLib "quick fox")
      (queryWordSet exactLib (tokenize exactLib "quick fox")) "The quick brown fox").2.1⟩

/-- C6. For every query whose tokens are pairwise distinct and at least one
in number, and every document, `calculateScore` is the float64 evaluation of
`0.7 * (matched / |Q|) + 0.3 * freqScore` (each quotient, product and sum
rounded to float64, the literals 0.7 and 0.3 being their float64 values),
where `matched` is the number of query tokens that occur in the document and
`freqScore` is the number of document-token occurrences that are query tokens
divided by the document's token count, and 0 for a document without tokens.
The token counts are taken to be exactly representable (below 2^53 for
float64). -/
theorem C6_score_formula (L : GoLib) (hL : L.LowerIdempotent) (n : ℕ) (hN : L.ExactNaturals n)
    (query content : String)
    (hne : tokenize L query ≠ []) (hnd : (tokenize L query).Nodup)
    (hq : (tokenize L query).length ≤ n) (hd : (tokenize L content).length ≤ n) :
    calculateScore L (tokenize L query) (queryWordSet L (tokenize L query)) content
      = L.Round64
          (L.Round64
              (L.Round64 ((distinctMatched (tokenize L query) (tokenize L content) : ℚ)
                  / ((tokenize L query).length : ℚ))
                * float64_0_7)
            + L.Round64
                ((if (tokenize L content).length = 0 then 0
                  else L.Round64
                    ((((tokenize L content).countP
                        (fun w => decide (w ∈ tokenize L query)) : ℕ) : ℚ)
                      / ((tokenize L content).length : ℚ)))
                * float64_0_3)) := by
  have hfs := freqSum_tokens L hL query content
  have hcnt : (tokenize L content).countP (fun w => decide (w ∈ tokenize L query))
      ≤ (tokenize L content).length := List.countP_le_length _
  have hmc : List.countP (fun w => decide (w ∈ tokenize L content)) (tokenize L query)
      ≤ (tokenize L query).length := List.countP_le_length _
  rw [calculateScore_unfold L _ _ content hne, matchedCount_tokens L hL,
    freqAccumulate_exact L n hN _ _ hd, hfs, hN _ hq, hN _ hd, hN _ (le_trans hmc hq),
    distinctMatched, hnd.dedup, List.countP_eq_length_filter]
  by_cases h0 : (tokenize L content).length = 0
  · have hc0 : (tokenize L content).countP (fun w => decide (w ∈ tokenize L query)) = 0 := by
      omega
    simp only [h0, hc0, if_true, gt_iff_lt, lt_self_iff_false, if_false, Nat.cast_zero]
  · have hpos : (tokenize L content).length > 0 := Nat.pos_of_ne_zero h0
    simp only [h0, hpos, if_true, if_false]

/-- C6 (witness): the formula at the query "fox" and the document "fox a b"
under the ASCII library with IEEE 754 rounding; the float64 value of the score
is 7205759403792793 / 2^53 (printed 0.7999999999999999), not 4 / 5. -/
theorem C6_score_formula_witness :
    asciiLib.LowerIdempotent ∧ asciiLib.ExactNaturals 3
    ∧ tokenize asciiLib "fox" ≠ [] ∧ (tokenize asciiLib "fox").Nodup
    ∧ (tokenize asciiLib "fox").length ≤ 3 ∧ (tokenize asciiLib "fox a b").length ≤ 3
    ∧ calculateScore asciiLib (tokenize asciiLib "fox")
        (queryWordSet asciiLib (tokenize asciiLib "fox")) "fox a b"
      = 7205759403792793 / 9007199254740992 := by
  have hN : asciiLib.ExactNaturals 3 := exactNaturals_of_ieee asciiLib asciiLib_ieee 3 (by norm_num)
  refine ⟨asciiLib_lowerIdempotent, hN, by decide, by decide, by decide, by decide, ?_⟩
  rw [C6_score_formula asciiLib asciiLib_lowerIdempotent 3 hN "fox" "fox a b"
    (by decide) (by decide) (by decide) (by decide)]
  have h1 : distinctMatched (tokenize asciiLib "fox") (tokenize asciiLib "fox a b") = 1 := by
    decide
  have h2 : (tokenize asciiLib "fox").length = 1 := by decide
  have h3 : (tokenize asciiLib "fox a b").length = 3 := by decide
  have h4 : (tokenize asciiLib "fox a b").countP
      (fun w => decide (w ∈ tokenize asciiLib "fox")) = 1 := by decide
  rw [h1, h2, h3, h4]
  show round64 (round64 (round64 (((1 : ℕ) : ℚ) / ((1 : ℕ) : ℚ)) * float64_0_7)
    + round64 ((if 3 = 0 then 0 else round64 (((1 : ℕ) : ℚ) / ((3 : ℕ) : ℚ))) * float64_0_3))
      = 7205759403792793 / 9007199254740992
  rw [show (((1 : ℕ) : ℚ) / ((1 : ℕ) : ℚ)) = 1 by norm_num,
    show (((1 : ℕ) : ℚ) / ((3 : ℕ) : ℚ)) = 1 / 3 by norm_num, if_neg (by norm_num),
    round64_one, round64_one_third]
  unfold float64_0_7 float64_0_3
  rw [round64_c07, round64_third_c03, round64_fox]

/-- C7. The result of `tokenize` is, in order of occurrence, the list of
maximal runs of letters and digits of the lower-cased text: it is the list
`maximalRuns` of the specification, it decomposes the lower-cased text into
runs separated by gaps without letters and digits (so no run is split), and
every token is non-empty and holds letters and digits only. -/
theorem C7_tokenize_maximal_runs (L : GoLib) (text : String) :
    tokenize L text = (maximalRuns L (text.data.map L.ToLower)).map String.mk
    ∧ IsRuns L (text.data.map L.ToLower) ((tokenize L text).map String.data)
    ∧ ∀ w ∈ tokenize L text,
        w.data ≠ [] ∧ ∀ c ∈ w.data, (L.IsLetter c || L.IsDigit c) = true := by
  refine ⟨tokenize_eq_maximalRuns L text, tokenize_isRuns L text, ?_⟩
  intro w hw
  have h := IsRuns.mem_props L _ _ (tokenize_isRuns L text) w.data
    (List.mem_map_of_mem String.data hw)
  exact ⟨h.1, fun c hc => (h.2 c hc).1⟩

/-! ### Claims on filtering and selection -/

theorem scoreDocuments_foldl_nil (L : GoLib) (r : RAGRetriever) (queryWords : List String)
    (qws : GoMap Bool) (hq : queryWords = []) (hmin : 0 < r.MinScore)
    (documents : List Document) :
    ∀ acc : List Document,
      documents.foldl
        (fun scoredDocs doc =>
          if calculateScore L queryWords qws doc.Content ≥ r.MinScore
          then scoredDocs ++ [{ doc with Score := calculateScore L queryWords qws doc.Content }]
          else scoredDocs)
        acc = acc := by
  induction documents with
  | nil => intro acc; rfl
  | cons d ds ih =>
    intro acc
    have h0 : calculateScore L queryWords qws d.Content = 0 := by
      simp [calculateScore, hq]
    have hlt : ¬ (calculateScore L queryWords qws d.Content ≥ r.MinScore) := by
      rw [h0]; exact not_le.2 hmin
    rw [List.foldl_cons, if_neg hlt]
    exact ih acc

/-- C5. For every query whose tokenization is empty and every document,
`calculateScore` is exactly 0; a retriever with the default minimum score 0.1
retains no document, and `Retrieve` returns the empty context with no error
whenever the corpus was read. -/
theorem C5_empty_query (L : GoLib) (r : RAGRetriever) (query : String)
    (hq : tokenize L query = []) (hmin : r.MinScore = float64_0_1) :
    (∀ (qws : GoMap Bool) (content : String),
        calculateScore L (tokenize L query) qws content = 0)
    ∧ (∀ documents : List Document, r.scoreDocuments L query documents = [])
    ∧ (∀ (fs : FileSystem) (documents : List Document),
        fs.rootNotExist = false → loadDocuments L fs.walk [] = .ok documents →
        r.Retrieve L fs query = .returned [] none) := by
  have hpos : 0 < r.MinScore := by rw [hmin]; unfold float64_0_1; norm_num
  have hscore : ∀ documents : List Document, r.scoreDocuments L query documents = [] := by
    intro documents
    unfold RAGRetriever.scoreDocuments
    exact scoreDocuments_foldl_nil L r (tokenize L query) (queryWordSet L (tokenize L query))
      hq hpos documents []
  refine ⟨?_, hscore, ?_⟩
  · intro qws content
    simp [calculateScore, hq]
  · intro fs documents hroot hload
    unfold RAGRetriever.Retrieve
    by_cases hdir : r.KnowledgeBaseDir = ""
    · simp [hdir]
    · simp only [hdir, if_false, hroot, hload, hscore documents]
      by_cases hlen : documents.length = 0
      · simp [hlen]
      · simp [hlen, RAGRetriever.selectTopDocuments]

/-- C5 (witness): the query "?!" has no token under the ASCII library, and
the default retriever over a corpus of one file returns the empty context. -/
theorem C5_empty_query_witness :
    tokenize asciiLib "?!" = [] ∧ (NewRAGRetriever "kb").MinScore = float64_0_1
    ∧ (NewRAGRetriever "kb").Retrieve asciiLib
        { rootNotExist := false,
          walk := [{ path := "kb/a.txt", err := none, isDir := false,
                     readFile := .ok "The quick brown fox" }] } "?!"
      = .returned [] none :=
  ⟨by decide, rfl,
    (C5_empty_query asciiLib (NewRAGRetriever "kb") "?!" (by decide) rfl).2.2
      { rootNotExist := false,
        walk := [{ path := "kb/a.txt", err := none, isDir := false,
                   readFile := .ok "The quick brown fox" }] }
      [{ Path := "kb/a.txt", Content := "The quick brown fox", Score := 0 }]
      rfl (by rfl)⟩

theorem selectTopDocuments_isSome (L : GoLib) (r : RAGRetriever) (hmax : 0 ≤ r.MaxResults)
    (documents : List Document) : (r.selectTopDocuments L documents).isSome = true := by
  have h2 : ¬ r.MaxResults < 0 := not_lt.2 hmax
  unfold RAGRetriever.selectTopDocuments
  by_cases h0 : documents.length = 0
  · simp [h0]
  · by_cases h1 : ((L.SortSlice scoreGreater documents).length : Int) ≤ r.MaxResults
    · simp [h0, h1]
    · simp [h0, h1, h2]

/-- C8. For every retriever with `MaxResults >= 0` and every list of scored
documents, `selectTopDocuments` returns a list of length at most
`MaxResults`. -/
theorem C8_select_at_most_max (L : GoLib) (r : RAGRetriever) (hmax : 0 ≤ r.MaxResults)
    (documents : List Document) :
    ∃ top, r.selectTopDocuments L documents = some top ∧ (top.length : Int) ≤ r.MaxResults := by
  unfold RAGRetriever.selectTopDocuments
  by_cases h0 : documents.length = 0
  · refine ⟨documents, by simp [h0], ?_⟩
    rw [h0]; exact_mod_cast hmax
  · by_cases h1 : ((L.SortSlice scoreGreater documents).length : Int) ≤ r.MaxResults
    · exact ⟨L.SortSlice scoreGreater documents, by simp [h0, h1], h1⟩
    · refine ⟨(L.SortSlice scoreGreater documents).take r.MaxResults.toNat, ?_, ?_⟩
      · have h2 : ¬ r.MaxResults < 0 := not_lt.2 hmax
        simp [h0, h1, h2]
      · rw [List.length_take]
        have h3 : ((r.MaxResults.toNat : Nat) : Int) = r.MaxResults := Int.toNat_of_nonneg hmax
        omega

/-- C8 (witness): the default retriever (`MaxResults = 3`) on four documents. -/
theorem C8_select_at_most_max_witness :
    (0 : Int) ≤ (NewRAGRetriever "kb").MaxResults
    ∧ ∃ top, (NewRAGRetriever "kb").selectTopDocuments asciiLib
          [{ Path := "a", Content := "a", Score := 1 / 2 },
           { Path := "b", Content := "b", Score := 1 },
           { Path := "c", Content := "c", Score := 1 / 5 },
           { Path := "d", Content := "d", Score := 1 / 2 }] = some top
        ∧ (top.length : Int) ≤ (NewRAGRetriever "kb").MaxResults :=
  ⟨by decide, C8_select_at_most_max asciiLib (NewRAGRetriever "kb") (by decide) _⟩

/-- The comparison `docs[i].Score > docs[j].Score` that `selectTopDocuments`
passes to `sort.Slice` is a transitive ordering. -/
theorem scoreGreater_ordering : IsTransitiveOrdering scoreGreater := by
  refine ⟨fun a => ?_, fun a b c hab hbc => ?_, fun a b c hab hbc => ?_⟩
  · simp [scoreGreater]
  · simp only [scoreGreater, decide_eq_true_eq, gt_iff_lt] at hab hbc ⊢
    exact lt_trans hbc hab
  · simp only [scoreGreater, decide_eq_false_iff_not, gt_iff_lt, not_lt] at hab hbc ⊢
    exact le_trans hab hbc

theorem asciiLib_sortContract : asciiLib.SortContract := by
  intro less l
  refine ⟨List.perm_insertionSort _ l, fun hless => ?_⟩
  obtain ⟨hirr, htr, hneg⟩ := hless
  have htotal : IsTotal Document (fun a b => less b a = false) :=
    ⟨fun a b => by
      cases hba : less b a with
      | false => exact Or.inl rfl
      | true =>
        cases hab : less a b with
        | false => exact Or.inr rfl
        | true =>
          have haa := htr a b a hab hba
          rw [hirr a] at haa
          exact absurd haa (by decide)⟩
  have htrans : IsTrans Document (fun a b => less b a = false) :=
    ⟨fun a b c hab hbc => hneg c b a hbc hab⟩
  exact @List.sorted_insertionSort Document (fun a b => less b a = false) _ htotal htrans l

/-- C9. Under the contract of `sort.Slice` (for every comparison, the result
is a permutation of the input, and it is ordered by the comparison when the
comparison is a transitive ordering), `selectTopDocuments` returns (and it
does return when `MaxResults >= 0`) documents in non-increasing score order,
an order that follows from the comparison `Score >` that the function passes;
the result is the first `min(MaxResults, n)` elements of a permutation
of the input, and every document left out has a score no greater than every
document returned. -/
theorem C9_select_top_k (L : GoLib) (hS : L.SortContract) (r : RAGRetriever)
    (documents : List Document) :
    (0 ≤ r.MaxResults → (r.selectTopDocuments L documents).isSome = true)
    ∧ ∀ top, r.selectTopDocuments L documents = some top →
        top.Pairwise (fun a b => a.Score ≥ b.Score)
        ∧ ∃ p : List Document, p.Perm documents
            ∧ top = p.take (min r.MaxResults (documents.length : Int)).toNat
            ∧ ∀ d ∈ p.drop (min r.MaxResults (documents.length : Int)).toNat,
                ∀ e ∈ top, d.Score ≤ e.Score := by
  constructor
  · intro hmax
    exact selectTopDocuments_isSome L r hmax documents
  · intro top htop
    obtain ⟨hperm, hless⟩ := hS scoreGreater documents
    have hsorted : (L.SortSlice scoreGreater documents).Pairwise
        (fun a b => a.Score ≥ b.Score) :=
      List.Pairwise.imp (fun {a b} h => by simpa [scoreGreater] using h)
        (hless scoreGreater_ordering)
    have hlen : (L.SortSlice scoreGreater documents).length = documents.length := hperm.length_eq
    unfold RAGRetriever.selectTopDocuments at htop
    by_cases h0 : documents.length = 0
    · have hnil : documents = [] := List.length_eq_zero.1 h0
      simp only [h0, if_true, Option.some.injEq] at htop
      subst htop
      subst hnil
      exact ⟨List.Pairwise.nil, [], List.Perm.refl _, by simp, by simp⟩
    · simp only [h0, if_false] at htop
      by_cases h1 : ((L.SortSlice scoreGreater documents).length : Int) ≤ r.MaxResults
      · simp only [h1, if_true, Option.some.injEq] at htop
        subst htop
        have hmin : (min r.MaxResults (documents.length : Int)).toNat
            = (L.SortSlice scoreGreater documents).length := by
          rw [hlen] at h1 ⊢
          rw [min_eq_right h1]
          simp
        refine ⟨hsorted, L.SortSlice scoreGreater documents, hperm, ?_, ?_⟩
        · rw [hmin, List.take_length]
        · rw [hmin, List.drop_length]
          intro d hd
          simp at hd
      · simp only [h1, if_false] at htop
        by_cases h2 : r.MaxResults < 0
        · simp [h2] at htop
        · simp only [h2, if_false, Option.some.injEq] at htop
          subst htop
          have hmin : (min r.MaxResults (documents.length : Int)).toNat
              = r.MaxResults.toNat := by
            rw [hlen] at h1
            rw [min_eq_left (by omega)]
          refine ⟨hsorted.sublist (List.take_sublist _ _),
            L.SortSlice scoreGreater documents, hperm, ?_, ?_⟩
          · rw [hmin]
          · rw [hmin]
            intro d hd e he
            have hsplit := hsorted
            rw [← List.take_append_drop r.MaxResults.toNat
              (L.SortSlice scoreGreater documents), List.pairwise_append] at hsplit
            exact hsplit.2.2 e he d hd

/-- C9 (witness): the ASCII library's sort meets the contract, and the default
retriever selects the top three of four documents, in non-increasing score
order. -/
theorem C9_select_top_k_witness :
    asciiLib.SortContract
    ∧ (NewRAGRetriever "kb").selectTopDocuments asciiLib
        [{ Path := "a", Content := "a", Score := 1 / 2 },
         { Path := "b", Content := "b", Score := 1 },
         { Path := "c", Content := "c", Score := 1 / 5 },
         { Path := "d", Content := "d", Score := 3 / 4 }]
      = some [{ Path := "b", Content := "b", Score := 1 },
              { Path := "d", Content := "d", Score := 3 / 4 },
              { Path := "a", Content := "a", Score := 1 / 2 }]
    ∧ List.Pairwise (fun a b : Document => a.Score ≥ b.Score)
        [{ Path := "b", Content := "b", Score := 1 },
         { Path := "d", Content := "d", Score := 3 / 4 },
         { Path := "a", Content := "a", Score := 1 / 2 }]
    ∧ ((0 : Int) ≤ (NewRAGRetriever "kb").MaxResults →
        ((NewRAGRetriever "kb").selectTopDocuments asciiLib
          [{ Path := "a", Content := "a", Score := 1 / 2 },
           { Path := "b", Content := "b", Score := 1 },
           { Path := "c", Content := "c", Score := 1 / 5 },
           { Path := "d", Content := "d", Score := 3 / 4 }]).isSome = true) := by
  have hsel : (NewRAGRetriever "kb").selectTopDocuments asciiLib
      [{ Path := "a", Content := "a", Score := 1 / 2 },
       { Path := "b", Content := "b", Score := 1 },
       { Path := "c", Content := "c", Score := 1 / 5 },
       { Path := "d", Content := "d", Score := 3 / 4 }]
      = some [{ Path := "b", Content := "b", Score := 1 },
              { Path := "d", Content := "d", Score := 3 / 4 },
              { Path := "a", Content := "a", Score := 1 / 2 }] := by
    simp only [RAGRetriever.selectTopDocuments, NewRAGRetriever, asciiLib, scoreGreater,
      List.insertionSort, List.orderedInsert]
    norm_num
    rfl
  exact ⟨asciiLib_sortContract, hsel,
    ((C9_select_top_k asciiLib asciiLib_sortContract (NewRAGRetriever "kb") _).2 _ hsel).1,
    (C9_select_top_k asciiLib asciiLib_sortContract (NewRAGRetriever "kb") _).1⟩

/-! ### Context assembly -/

theorem goBytes_append (a b : String) : goBytes (a ++ b) = goBytes a ++ goBytes b := by
  simp [goBytes]

theorem goBytes_ne_nil (s : String) (h : s.data ≠ []) : goBytes s ≠ [] := by
  cases hd : s.data with
  | nil => exact absurd hd h
  | cons c cs =>
    intro hnil
    have hlen : (goBytes s).length = 0 := by rw [hnil]; rfl
    have hpos := Char.utf8Size_pos c
    simp [goBytes, hd] at hlen
    omega

theorem renderDocuments_cites (L : GoLib) (documents : List Document) :
    ∀ (i : Nat), ∀ doc ∈ documents,
      List.IsInfix (goBytes doc.Path) (renderDocuments L i documents) := by
  induction documents with
  | nil => intro i doc hdoc; simp at hdoc
  | cons d ds ih =>
    intro i doc hdoc
    rcases List.mem_cons.1 hdoc with h | h
    · subst h
      refine ⟨goBytes ("--- 文档 " ++ toString (i + 1) ++ " (相关性: "
          ++ L.FormatScore doc.Score ++ ") ---\n") ++ goBytes "来源: ",
        goBytes "\n" ++ renderContent doc.Content ++ goBytes "\n\n"
          ++ renderDocuments L (i + 1) ds, ?_⟩
      simp only [renderDocuments, renderDocument, goBytes_append, List.append_assoc]
    · obtain ⟨pre, post, hpp⟩ := ih (i + 1) doc h
      refine ⟨renderDocument L i d ++ pre, post, ?_⟩
      simp only [renderDocuments, List.append_assoc] at hpp ⊢
      rw [hpp]

/-- The rendered context is never empty and cites the path of every document
it is built from. -/
theorem buildContext_cites (L : GoLib) (documents : List Document) (query : String) :
    buildContext L documents query ≠ []
    ∧ ∀ doc ∈ documents, List.IsInfix (goBytes doc.Path) (buildContext L documents query) := by
  constructor
  · intro h
    have hhead : goBytes "=== 相关上下文信息（RAG检索） ===\n" ≠ [] :=
      goBytes_ne_nil _ (by decide)
    unfold buildContext at h
    simp only [List.append_assoc, List.append_eq_nil] at h
    exact hhead h.1
  · intro doc hdoc
    obtain ⟨pre, post, hpp⟩ := renderDocuments_cites L documents 0 doc hdoc
    refine ⟨goBytes "=== 相关上下文信息（RAG检索） ===\n" ++ goBytes ("查询: " ++ query ++ "\n\n")
        ++ goBytes "检索到的相关内容：\n\n" ++ pre,
      post ++ goBytes "=== 上下文信息结束 ===\n"
        ++ goBytes "请基于以上上下文信息回答用户的问题。\n", ?_⟩
    unfold buildContext
    rw [← hpp]
    simp only [List.append_assoc]

/-! ### Libraries that agree with Go on ASCII -/

theorem asciiLib_agreesOnAscii : asciiLib.AgreesOnAscii := by
  intro c _
  exact ⟨rfl, rfl, rfl⟩

theorem stringsToLower_ascii (L : GoLib) (hA : L.AgreesOnAscii) (s : String)
    (hs : ∀ c ∈ s.data, c.toNat < 128) :
    L.stringsToLower s = asciiLib.stringsToLower s := by
  unfold GoLib.stringsToLower
  congr 1
  apply List.map_congr_left
  intro c hc
  exact (hA c (hs c hc)).2.2

theorem tokenizeLoop_ascii (L : GoLib) (hA : L.AgreesOnAscii) (rest : List Char) :
    (∀ c ∈ rest, c.toNat < 128) →
    ∀ (currentWord : String) (words : List String),
      tokenizeLoop L rest currentWord words = tokenizeLoop asciiLib rest currentWord words := by
  induction rest with
  | nil => intro _ cur words; rfl
  | cons c rest ih =>
    intro h cur words
    have hc := hA c (h c (List.mem_cons_self _ _))
    have hrest : ∀ x ∈ rest, x.toNat < 128 := fun x hx => h x (List.mem_cons_of_mem _ hx)
    have hl : asciiLib.IsLetter c = c.isAlpha := rfl
    have hd : asciiLib.IsDigit c = c.isDigit := rfl
    simp only [tokenizeLoop, hc.1, hc.2.1, hl, hd, ih hrest]

theorem tokenize_ascii (L : GoLib) (hA : L.AgreesOnAscii) (text : String)
    (h1 : ∀ c ∈ text.data, c.toNat < 128)
    (h2 : ∀ c ∈ (asciiLib.stringsToLower text).data, c.toNat < 128) :
    tokenize L text = tokenize asciiLib text := by
  unfold tokenize
  rw [stringsToLower_ascii L hA text h1]
  exact tokenizeLoop_ascii L hA _ h2 "" []

theorem contentWordSet_ascii (L : GoLib) (hA : L.AgreesOnAscii) (ws : List String)
    (hws : ∀ w ∈ ws, ∀ c ∈ w.data, c.toNat < 128) :
    contentWordSet L ws = contentWordSet asciiLib ws := by
  unfold contentWordSet
  apply List.foldl_ext
  intro m w hw
  rw [stringsToLower_ascii L hA w (hws w hw)]

theorem queryWordSet_ascii (L : GoLib) (hA : L.AgreesOnAscii) (ws : List String)
    (hws : ∀ w ∈ ws, ∀ c ∈ w.data, c.toNat < 128) :
    queryWordSet L ws = queryWordSet asciiLib ws := by
  unfold queryWordSet
  apply List.foldl_ext
  intro m w hw
  rw [stringsToLower_ascii L hA w (hws w hw)]

theorem matchedCount_ascii (L : GoLib) (hA : L.AgreesOnAscii) (ws : List String)
    (hws : ∀ w ∈ ws, ∀ c ∈ w.data, c.toNat < 128) (qws : GoMap Bool) (cws : GoMap Nat) :
    matchedCount L ws qws cws = matchedCount asciiLib ws qws cws := by
  unfold matchedCount
  apply List.foldl_ext
  intro n w hw
  simp only [stringsToLower_ascii L hA w (hws w hw)]

/-- On ASCII input, a library that agrees with Go on ASCII and rounds as IEEE
754 does computes the score the ASCII library computes. -/
theorem calculateScore_ascii (L : GoLib) (hA : L.AgreesOnAscii) (hI : L.IEEEArithmetic)
    (queryWords : List String)
    (qws : GoMap Bool) (content : String)
    (hq : ∀ w ∈ queryWords, ∀ c ∈ w.data, c.toNat < 128)
    (h1 : ∀ c ∈ content.data, c.toNat < 128)
    (h2 : ∀ c ∈ (asciiLib.stringsToLower content).data, c.toNat < 128)
    (h3 : ∀ w ∈ tokenize asciiLib content, ∀ c ∈ w.data, c.toNat < 128) :
    calculateScore L queryWords qws content = calculateScore asciiLib queryWords qws content := by
  have hR : L.Round64 = asciiLib.Round64 := funext (fun x => by rw [hI x]; rfl)
  simp only [calculateScore, freqAccumulate]
  rw [tokenize_ascii L hA content h1 h2, contentWordSet_ascii L hA _ h3,
    matchedCount_ascii L hA queryWords hq, hR]

/-! ### Scenario A -/

theorem scenarioA_tokens (L : GoLib) (hA : L.AgreesOnAscii) :
    tokenize L "quick fox" = ["quick", "fox"]
    ∧ tokenize L "The quick brown fox" = ["the", "quick", "brown", "fox"] := by
  constructor
  · rw [tokenize_ascii L hA "quick fox" (by decide) (by decide)]
    decide
  · rw [tokenize_ascii L hA "The quick brown fox" (by decide) (by decide)]
    decide

theorem scenarioA_matched (L : GoLib) (hA : L.AgreesOnAscii) :
    matchedCount L (tokenize L "quick fox") (queryWordSet L (tokenize L "quick fox"))
      (contentWordSet L (tokenize L "The quick brown fox")) = 2 := by
  obtain ⟨hq, hd⟩ := scenarioA_tokens L hA
  rw [hq, hd, matchedCount_ascii L hA _ (by decide), queryWordSet_ascii L hA _ (by decide),
    contentWordSet_ascii L hA _ (by decide)]
  decide

theorem scenarioA_score (L : GoLib) (hA : L.AgreesOnAscii) (hI : L.IEEEArithmetic) :
    calculateScore L (tokenize L "quick fox") (queryWordSet L (tokenize L "quick fox"))
      "The quick brown fox" = float64_0_85 := by
  have hm := scenarioA_matched L hA
  obtain ⟨hq, hd⟩ := scenarioA_tokens L hA
  have hf : freqSum (queryWordSet L (tokenize L "quick fox"))
      (contentWordSet L (tokenize L "The quick brown fox")) = 2 := by
    rw [hq, hd, queryWordSet_ascii L hA _ (by decide), contentWordSet_ascii L hA _ (by decide)]
    decide
  have hN : L.ExactNaturals 4 := exactNaturals_of_ieee L hI 4 (by norm_num)
  have hI2 : ∀ x : ℚ, L.Round64 x = round64 x := hI
  have hlq : (tokenize L "quick fox").length = 2 := by rw [hq]; rfl
  have hld : (tokenize L "The quick brown fox").length = 4 := by rw [hd]; rfl
  rw [calculateScore_unfold L _ _ _ (by rw [hq]; simp), hm,
    freqAccumulate_exact L 4 hN _ _ (by rw [hld]), hf, hlq, hld]
  rw [hN 2 (by norm_num), hN 4 (by norm_num), if_pos (by norm_num)]
  simp only [hI2]
  rw [show (((2 : ℕ) : ℚ) / ((2 : ℕ) : ℚ)) = 1 by norm_num,
    show (((2 : ℕ) : ℚ) / ((4 : ℕ) : ℚ)) = 1 / 2 by norm_num,
    round64_one, round64_one_half]
  unfold float64_0_7 float64_0_3 float64_0_85
  rw [round64_c07, round64_half_c03, round64_scenarioA]

theorem scenarioA_load (L : GoLib) (hA : L.AgreesOnAscii) :
    loadDocuments L scenarioAFs.walk [] = .ok [scenarioADoc] := by
  have hext : filepathExt "kb/fox.txt" = ".txt" := by decide
  have hlow : L.stringsToLower ".txt" = ".txt" := by
    rw [stringsToLower_ascii L hA ".txt" (by decide)]
    decide
  have hsize : ¬ ("The quick brown fox" : String).utf8ByteSize = 0 := by decide
  simp [scenarioAFs, scenarioADoc, loadDocuments, hext, hlow, hsize]

theorem scenarioA_min : float64_0_85 ≥ (NewRAGRetriever "kb").MinScore := by
  simp only [NewRAGRetriever, float64_0_85, float64_0_1]
  norm_num

theorem scenarioA_scored (L : GoLib) (hA : L.AgreesOnAscii) (hI : L.IEEEArithmetic) :
    (NewRAGRetriever "kb").scoreDocuments L "quick fox" [scenarioADoc]
      = [{ scenarioADoc with Score := float64_0_85 }] := by
  have hsc := scenarioA_score L hA hI
  have hc : scenarioADoc.Content = "The quick brown fox" := rfl
  simp only [RAGRetriever.scoreDocuments, List.foldl_cons, List.foldl_nil, hc, hsc,
    if_pos scenarioA_min, List.nil_append]

theorem scenarioA_selected (L : GoLib) (hS : L.SortContract) :
    (NewRAGRetriever "kb").selectTopDocuments L [{ scenarioADoc with Score := float64_0_85 }]
      = some [{ scenarioADoc with Score := float64_0_85 }] := by
  have hperm := (hS scoreGreater [{ scenarioADoc with Score := float64_0_85 }]).1
  rw [List.perm_singleton] at hperm
  simp [RAGRetriever.selectTopDocuments, hperm, NewRAGRetriever]

theorem scenarioA_retrieve (L : GoLib) (hA : L.AgreesOnAscii) (hI : L.IEEEArithmetic)
    (hS : L.SortContract) :
    (NewRAGRetriever "kb").Retrieve L scenarioAFs "quick fox"
      = .returned (buildContext L [{ scenarioADoc with Score := float64_0_85 }] "quick fox")
          none := by
  have hdir : ¬ (NewRAGRetriever "kb").KnowledgeBaseDir = "" := by decide
  have hroot : scenarioAFs.rootNotExist = false := rfl
  simp only [RAGRetriever.Retrieve, hdir, if_false, hroot, scenarioA_load L hA,
    scenarioA_scored L hA hI, scenarioA_selected L hS]
  simp

/-- C10. Scenario A: for the one-document corpus with content
"The quick brown fox" and the query "quick fox" under the default thresholds,
`matched = 2`, `baseScore = 1`, the score is the float64 evaluation of
`0.7 * 1 + 0.3 * (2 / 4)`, which is the float64 `0.85` and is at least
`MinScore`, the document is retained and selected, and `Retrieve` returns
without error a context that is non-empty and contains the document's path. -/
theorem C10_scenario_A (L : GoLib) (hA : L.AgreesOnAscii) (hI : L.IEEEArithmetic)
    (hS : L.SortContract) :
    matchedCount L (tokenize L "quick fox") (queryWordSet L (tokenize L "quick fox"))
        (contentWordSet L (tokenize L "The quick brown fox")) = 2
    ∧ ((matchedCount L (tokenize L "quick fox") (queryWordSet L (tokenize L "quick fox"))
          (contentWordSet L (tokenize L "The quick brown fox")) : ℚ)
        / ((tokenize L "quick fox").length : ℚ) = 1)
    ∧ L.Round64
        (L.Round64 (matchedCount L (tokenize L "quick fox")
            (queryWordSet L (tokenize L "quick fox"))
            (contentWordSet L (tokenize L "The quick brown fox")) : ℚ)
          / L.Round64 ((tokenize L "quick fox").length : ℚ)) = 1
    ∧ calculateScore L (tokenize L "quick fox") (queryWordSet L (tokenize L "quick fox"))
        "The quick brown fox"
      = round64 (round64 (1 * float64_0_7) + round64 (round64 (2 / 4) * float64_0_3))
    ∧ calculateScore L (tokenize L "quick fox") (queryWordSet L (tokenize L "quick fox"))
        "The quick brown fox" = float64_0_85
    ∧ float64_0_85 = round64 (17 / 20)
    ∧ float64_0_85 ≥ (NewRAGRetriever "kb").MinScore
    ∧ (NewRAGRetriever "kb").scoreDocuments L "quick fox" [scenarioADoc]
        = [{ scenarioADoc with Score := float64_0_85 }]
    ∧ (NewRAGRetriever "kb").selectTopDocuments L [{ scenarioADoc with Score := float64_0_85 }]
        = some [{ scenarioADoc with Score := float64_0_85 }]
    ∧ (NewRAGRetriever "kb").Retrieve L scenarioAFs "quick fox"
        = .returned (buildContext L [{ scenarioADoc with Score := float64_0_85 }] "quick fox")
            none
    ∧ buildContext L [{ scenarioADoc with Score := float64_0_85 }] "quick fox" ≠ []
    ∧ List.IsInfix (goBytes "kb/fox.txt")
        (buildContext L [{ scenarioADoc with Score := float64_0_85 }] "quick fox") := by
  have hm := scenarioA_matched L hA
  have hsc := scenarioA_score L hA hI
  obtain ⟨hq, _⟩ := scenarioA_tokens L hA
  have hN : L.ExactNaturals 2 := exactNaturals_of_ieee L hI 2 (by norm_num)
  have hctx := buildContext_cites L [{ scenarioADoc with Score := float64_0_85 }] "quick fox"
  refine ⟨hm, ?_, ?_, ?_, hsc, ?_, scenarioA_min, scenarioA_scored L hA hI,
    scenarioA_selected L hS, scenarioA_retrieve L hA hI hS, hctx.1, ?_⟩
  · rw [hm, hq]; norm_num
  · have hlq : (tokenize L "quick fox").length = 2 := by rw [hq]; rfl
    rw [hm, hlq, hN 2 (by norm_num), hI]
    rw [show (((2 : ℕ) : ℚ) / ((2 : ℕ) : ℚ)) = 1 by norm_num, round64_one]
  · rw [hsc, show ((2 : ℚ) / 4) = 1 / 2 by norm_num, round64_one_half]
    unfold float64_0_7 float64_0_3 float64_0_85
    rw [round64_c07, round64_half_c03, round64_scenarioA]
  · unfold float64_0_85
    rw [round64_0_85]
  · exact hctx.2 _ (List.mem_singleton_self _)

/-- C10 (witness): scenario A under the ASCII library, which rounds as IEEE 754
does and whose sort meets the contract of `sort.Slice`. -/
theorem C10_scenario_A_witness :
    asciiLib.AgreesOnAscii ∧ asciiLib.IEEEArithmetic ∧ asciiLib.SortContract
    ∧ (NewRAGRetriever "kb").Retrieve asciiLib scenarioAFs "quick fox"
        = .returned
            (buildContext asciiLib [{ scenarioADoc with Score := float64_0_85 }] "quick fox")
            none :=
  ⟨asciiLib_agreesOnAscii, asciiLib_ieee, asciiLib_sortContract,
    (C10_scenario_A asciiLib asciiLib_agreesOnAscii asciiLib_ieee
      asciiLib_sortContract).2.2.2.2.2.2.2.2.2.1⟩

/-! ### Tool dispatch (agent.go) -/

theorem dispatchTools_trace (E : Collaborators) (toolCall : ToolCall) (mcpClient : MCPClient)
    (tools : List Tool) :
    ∀ s : Session,
      (dispatchTools E toolCall mcpClient tools s).trace
        = s.trace ++ (tools.filter (fun t => decide (t.Name = toolCall.Function.Name))).map
            (fun _ => Event.callTool mcpClient.Id toolCall.Function.Name
              toolCall.Function.Arguments) := by
  induction tools with
  | nil => intro s; simp [dispatchTools]
  | cons t ts ih =>
    intro s
    by_cases hname : t.Name = toolCall.Function.Name
    · cases hcall : E.CallTool s.trace mcpClient toolCall.Function.Name
          toolCall.Function.Arguments with
      | error err => simp [dispatchTools, hname, hcall, ih]
      | ok toolText => simp [dispatchTools, hname, hcall, ih]
    · simp [dispatchTools, hname, ih]

theorem dispatchClients_trace (E : Collaborators) (toolCall : ToolCall)
    (clients : List MCPClient) :
    ∀ s : Session,
      (dispatchClients E toolCall clients s).trace = s.trace ++ expectedCalls clients toolCall := by
  induction clients with
  | nil => intro s; simp [dispatchClients, expectedCalls]
  | cons c cs ih =>
    intro s
    simp only [dispatchClients]
    rw [ih, dispatchTools_trace]
    simp [expectedCalls, List.append_assoc]

theorem dispatchTools_messages (E : Collaborators) (toolCall : ToolCall) (mcpClient : MCPClient)
    (tools : List Tool) :
    ∀ s : Session, ∃ msgs : List ChatCompletionMessage,
      (dispatchTools E toolCall mcpClient tools s).llm.Message = s.llm.Message ++ msgs
      ∧ (∀ m ∈ msgs, m.Role = Role.tool ∧ m.ToolCallID = toolCall.ID)
      ∧ msgs.length
          ≤ (tools.filter (fun t => decide (t.Name = toolCall.Function.Name))).length
      ∧ ((∀ tr c n a, ∃ t, E.CallTool tr c n a = .ok t) →
          msgs.length
            = (tools.filter (fun t => decide (t.Name = toolCall.Function.Name))).length) := by
  induction tools with
  | nil => intro s; exact ⟨[], by simp [dispatchTools]⟩
  | cons t ts ih =>
    intro s
    by_cases hname : t.Name = toolCall.Function.Name
    · cases hcall : E.CallTool s.trace mcpClient toolCall.Function.Name
          toolCall.Function.Arguments with
      | error err =>
        obtain ⟨msgs, h1, h2, h3, _⟩ := ih { s with trace := s.trace ++
          [Event.callTool mcpClient.Id toolCall.Function.Name toolCall.Function.Arguments] }
        refine ⟨msgs, ?_, h2, ?_, ?_⟩
        · simpa [dispatchTools, hname, hcall] using h1
        · simp only [List.filter_cons, hname, decide_True, if_true, List.length_cons]
          omega
        · intro hall
          obtain ⟨t0, ht0⟩ := hall s.trace mcpClient toolCall.Function.Name
            toolCall.Function.Arguments
          rw [hcall] at ht0
          cases ht0
      | ok toolText =>
        obtain ⟨msgs, h1, h2, h3, h4⟩ := ih
          { llm := { s.llm with Message := s.llm.Message ++
              [{ Role := Role.tool, Content := toolText, ToolCalls := [],
                 ToolCallID := toolCall.ID }] },
            trace := s.trace ++
              [Event.callTool mcpClient.Id toolCall.Function.Name toolCall.Function.Arguments] }
        refine ⟨{ Role := Role.tool, Content := toolText, ToolCalls := [],
                  ToolCallID := toolCall.ID } :: msgs, ?_, ?_, ?_, ?_⟩
        · simpa [dispatchTools, hname, hcall] using h1
        · intro m hm
          rcases List.mem_cons.1 hm with h | h
          · subst h; exact ⟨rfl, rfl⟩
          · exact h2 m h
        · simp only [List.filter_cons, hname, decide_True, if_true, List.length_cons]
          omega
        · intro hall
          simp only [List.filter_cons, hname, decide_True, if_true, List.length_cons]
          rw [h4 hall]
    · obtain ⟨msgs, h1, h2, h3, h4⟩ := ih s
      refine ⟨msgs, ?_, h2, ?_, ?_⟩
      · simpa [dispatchTools, hname] using h1
      · simpa [List.filter_cons, hname] using h3
      · intro hall
        simpa [List.filter_cons, hname] using h4 hall

theorem dispatchClients_messages (E : Collaborators) (toolCall : ToolCall)
    (clients : List MCPClient) :
    ∀ s : Session, ∃ msgs : List ChatCompletionMessage,
      (dispatchClients E toolCall clients s).llm.Message = s.llm.Message ++ msgs
      ∧ (∀ m ∈ msgs, m.Role = Role.tool ∧ m.ToolCallID = toolCall.ID)
      ∧ msgs.length ≤ (expectedCalls clients toolCall).length
      ∧ ((∀ tr c n a, ∃ t, E.CallTool tr c n a = .ok t) →
          msgs.length = (expectedCalls clients toolCall).length) := by
  induction clients with
  | nil => intro s; exact ⟨[], by simp [dispatchClients, expectedCalls]⟩
  | cons c cs ih =>
    intro s
    obtain ⟨m1, a1, a2, a3, a4⟩ := dispatchTools_messages E toolCall c c.GetTool s
    obtain ⟨m2, b1, b2, b3, b4⟩ := ih (dispatchTools E toolCall c c.GetTool s)
    refine ⟨m1 ++ m2, ?_, ?_, ?_, ?_⟩
    · simp only [dispatchClients]
      rw [b1, a1, List.append_assoc]
    · intro m hm
      rcases List.mem_append.1 hm with h | h
      · exact a2 m h
      · exact b2 m h
    · simp only [expectedCalls, List.flatMap_cons, List.length_append, List.length_map] at b3 ⊢
      omega
    · intro hall
      have e1 := a4 hall
      have e2 := b4 hall
      simp only [expectedCalls, List.flatMap_cons, List.length_append, List.length_map] at e2 ⊢
      omega

theorem mem_expectedCalls (clients : List MCPClient) (toolCall : ToolCall) :
    ∀ c ∈ clients, (∃ t ∈ c.GetTool, t.Name = toolCall.Function.Name) →
      Event.callTool c.Id toolCall.Function.Name toolCall.Function.Arguments
        ∈ expectedCalls clients toolCall := by
  intro c hc ht
  obtain ⟨t, ht1, ht2⟩ := ht
  simp only [expectedCalls, List.mem_flatMap, List.mem_map, List.mem_filter]
  exact ⟨c, hc, t, ⟨ht1, by simpa using ht2⟩, rfl⟩

/-- C2 (counterexample). With two providers that both advertise the tool `t`
and one request for `t`, `Invoke` calls the first provider and also the second
one, and appends two tool-role messages for the request. -/
theorem C2_counterexample :
    (twoProviderAgent.Invoke oneToolRound 5 [] (goBytes "hi")).2.2
        = Outcome.returned (goBytes "done")
    ∧ Event.callTool 1 "t" "x" ∈ (twoProviderAgent.Invoke oneToolRound 5 [] (goBytes "hi")).2.1
    ∧ Event.callTool 2 "t" "x" ∈ (twoProviderAgent.Invoke oneToolRound 5 [] (goBytes "hi")).2.1
    ∧ (twoProviderAgent.Invoke oneToolRound 5 [] (goBytes "hi")).1.LLM.map
        (fun llm => (llm.Message.filter
          (fun m => decide (m.Role = Role.tool ∧ m.ToolCallID = "id1"))).length) = some 2 := by
  decide

theorem toolMessages_append (E : Collaborators) (toolCall : ToolCall)
    (xs ys : List MCPClient) :
    ∀ tr : List Event,
      toolMessages E toolCall (xs ++ ys) tr
        = toolMessages E toolCall xs tr
          ++ toolMessages E toolCall ys (tr ++ xs.map (fun c =>
              Event.callTool c.Id toolCall.Function.Name toolCall.Function.Arguments)) := by
  induction xs with
  | nil => intro tr; simp [toolMessages]
  | cons x xs ih =>
    intro tr
    simp only [List.cons_append, toolMessages, List.map_cons]
    cases E.CallTool tr x toolCall.Function.Name toolCall.Function.Arguments with
    | error err => simp [ih, List.append_assoc]
    | ok toolText => simp [ih, List.append_assoc]

theorem dispatchTools_log (E : Collaborators) (toolCall : ToolCall) (mcpClient : MCPClient)
    (tools : List Tool) :
    ∀ s : Session,
      (dispatchTools E toolCall mcpClient tools s).llm.Message
        = s.llm.Message ++ toolMessages E toolCall
            ((tools.filter (fun t => decide (t.Name = toolCall.Function.Name))).map
              (fun _ => mcpClient)) s.trace := by
  induction tools with
  | nil => intro s; simp [dispatchTools, toolMessages]
  | cons t ts ih =>
    intro s
    by_cases hname : t.Name = toolCall.Function.Name
    · cases hcall : E.CallTool s.trace mcpClient toolCall.Function.Name
          toolCall.Function.Arguments with
      | error err => simp [dispatchTools, hname, hcall, ih, toolMessages]
      | ok toolText => simp [dispatchTools, hname, hcall, ih, toolMessages]
    · simp [dispatchTools, hname, ih]

theorem dispatchClients_log (E : Collaborators) (toolCall : ToolCall)
    (clients : List MCPClient) :
    ∀ s : Session,
      (dispatchClients E toolCall clients s).llm.Message
        = s.llm.Message ++ toolMessages E toolCall (callers clients toolCall) s.trace := by
  induction clients with
  | nil => intro s; simp [dispatchClients, callers, toolMessages]
  | cons c cs ih =>
    intro s
    simp only [dispatchClients]
    rw [ih, dispatchTools_log, dispatchTools_trace]
    simp only [callers, List.flatMap_cons]
    rw [toolMessages_append, List.append_assoc, List.map_map]
    rfl

theorem expectedCalls_eq_callers (clients : List MCPClient) (toolCall : ToolCall) :
    expectedCalls clients toolCall
      = (callers clients toolCall).map (fun c =>
          Event.callTool c.Id toolCall.Function.Name toolCall.Function.Arguments) := by
  induction clients with
  | nil => rfl
  | cons c cs ih =>
    simp only [expectedCalls, callers, List.flatMap_cons, List.map_append, List.map_map] at ih ⊢
    rw [ih]
    rfl

/-- C2 (amended). For every list of providers and every tool-invocation
request, the dispatch of `Invoke` invokes every provider that advertises the
requested name, in registration order and once per advertised entry of that
name (no provider is shadowed). The messages it appends are, in call order,
exactly one tool-role message per call that succeeds, carrying that call's
result and the request's id, and none for a call that fails; so they are at
most one per call, and exactly one per call when every call succeeds. -/
theorem C2_dispatch_invokes_every_provider (E : Collaborators) (clients : List MCPClient)
    (toolCall : ToolCall) (s : Session) :
    (dispatchClients E toolCall clients s).trace = s.trace ++ expectedCalls clients toolCall
    ∧ (∀ c ∈ clients, (∃ t ∈ c.GetTool, t.Name = toolCall.Function.Name) →
        Event.callTool c.Id toolCall.Function.Name toolCall.Function.Arguments
          ∈ expectedCalls clients toolCall)
    ∧ expectedCalls clients toolCall
        = (callers clients toolCall).map (fun c =>
            Event.callTool c.Id toolCall.Function.Name toolCall.Function.Arguments)
    ∧ (dispatchClients E toolCall clients s).llm.Message
        = s.llm.Message ++ toolMessages E toolCall (callers clients toolCall) s.trace
    ∧ ∃ msgs : List ChatCompletionMessage,
        (dispatchClients E toolCall clients s).llm.Message = s.llm.Message ++ msgs
        ∧ (∀ m ∈ msgs, m.Role = Role.tool ∧ m.ToolCallID = toolCall.ID)
        ∧ msgs.length ≤ (expectedCalls clients toolCall).length
        ∧ ((∀ tr c n a, ∃ t, E.CallTool tr c n a = .ok t) →
            msgs.length = (expectedCalls clients toolCall).length) :=
  ⟨dispatchClients_trace E toolCall clients s, mem_expectedCalls clients toolCall,
    expectedCalls_eq_callers clients toolCall, dispatchClients_log E toolCall clients s,
    dispatchClients_messages E toolCall clients s⟩

/-- C2 (witness): the amended statement at the two providers advertising `t`.
When the call to provider 1 fails and the call to provider 2 succeeds, both
providers are called and one message, carrying the result of provider 2, is
appended; when both calls succeed, two messages are appended. -/
theorem C2_dispatch_invokes_every_provider_witness :
    (∃ t ∈ (MCPClient.mk 2 [plainTool "t"]).GetTool, t.Name = "t")
    ∧ Event.callTool 2 "t" "x"
        ∈ expectedCalls twoProviders { ID := "id1", Function := { Name := "t", Arguments := "x" } }
    ∧ (dispatchClients firstProviderFails
          { ID := "id1", Function := { Name := "t", Arguments := "x" } } twoProviders
          { llm := { Model := "m", SystemPrompt := [], Tools := [], RagContext := [],
                     Message := [] },
            trace := [] }).trace
        = [Event.callTool 1 "t" "x", Event.callTool 2 "t" "x"]
    ∧ (dispatchClients firstProviderFails
          { ID := "id1", Function := { Name := "t", Arguments := "x" } } twoProviders
          { llm := { Model := "m", SystemPrompt := [], Tools := [], RagContext := [],
                     Message := [] },
            trace := [] }).llm.Message
        = [{ Role := Role.tool, Content := goBytes "ok", ToolCalls := [], ToolCallID := "id1" }]
    ∧ (dispatchClients oneToolRound
          { ID := "id1", Function := { Name := "t", Arguments := "x" } } twoProviders
          { llm := { Model := "m", SystemPrompt := [], Tools := [], RagContext := [],
                     Message := [] },
            trace := [] }).llm.Message
        = [{ Role := Role.tool, Content := goBytes "ok", ToolCalls := [], ToolCallID := "id1" },
           { Role := Role.tool, Content := goBytes "ok", ToolCalls := [], ToolCallID := "id1" }]
    := by
  have hadv : ∃ t ∈ (MCPClient.mk 2 [plainTool "t"]).GetTool, t.Name = "t" :=
    ⟨plainTool "t", by simp [MCPClient.GetTool], rfl⟩
  have h := C2_dispatch_invokes_every_provider firstProviderFails twoProviders
    { ID := "id1", Function := { Name := "t", Arguments := "x" } }
    { llm := { Model := "m", SystemPrompt := [], Tools := [], RagContext := [], Message := [] },
      trace := [] }
  have h2 := C2_dispatch_invokes_every_provider oneToolRound twoProviders
    { ID := "id1", Function := { Name := "t", Arguments := "x" } }
    { llm := { Model := "m", SystemPrompt := [], Tools := [], RagContext := [], Message := [] },
      trace := [] }
  obtain ⟨htrace, hmem, _, hlog, _⟩ := h
  refine ⟨hadv, hmem (MCPClient.mk 2 [plainTool "t"]) (by simp [twoProviders]) hadv,
    ?_, ?_, ?_⟩
  · rw [htrace]; decide
  · rw [hlog]; decide
  · rw [h2.2.2.2.1]; decide

/-! ### Provider teardown (agent.go) -/

theorem chat_trace (E : Collaborators) (c : ChatOpenAI) (tr : List Event) (prompt : Bytes) :
    ∃ e : Event, (ChatOpenAI.Chat E c tr prompt).2.1 = tr ++ [e] ∧ e.isClose = false := by
  unfold ChatOpenAI.Chat
  simp only
  split <;> exact ⟨_, rfl, rfl⟩

theorem expectedCalls_not_close (clients : List MCPClient) (toolCall : ToolCall) :
    ∀ e ∈ expectedCalls clients toolCall, e.isClose = false := by
  intro e he
  simp only [expectedCalls, List.mem_flatMap, List.mem_map] at he
  obtain ⟨c, _, t, _, hte⟩ := he
  rw [← hte]
  rfl

theorem dispatchAll_trace (E : Collaborators) (clients : List MCPClient)
    (toolCalls : List ToolCall) :
    ∀ s : Session, ∃ evs : List Event,
      (dispatchAll E clients toolCalls s).trace = s.trace ++ evs
      ∧ ∀ e ∈ evs, e.isClose = false := by
  induction toolCalls with
  | nil => intro s; exact ⟨[], by simp [dispatchAll]⟩
  | cons tc tcs ih =>
    intro s
    obtain ⟨evs, h1, h2⟩ := ih (dispatchClients E tc clients s)
    refine ⟨expectedCalls clients tc ++ evs, ?_, ?_⟩
    · simp only [dispatchAll]
      rw [h1, dispatchClients_trace, List.append_assoc]
    · intro e he
      rcases List.mem_append.1 he with h | h
      · exact expectedCalls_not_close clients tc e h
      · exact h2 e h

/-- Along the loop of `Invoke` no provider is closed before the loop ends; on
the normal exit every client is closed, in registration order, and on the
other exits none is. -/
theorem invokeLoop_trace (E : Collaborators) (clients : List MCPClient) (fuel : Nat) :
    ∀ (s : Session) (response : Bytes) (toolCalls : List ToolCall),
      ∃ evs : List Event, (∀ e ∈ evs, e.isClose = false)
        ∧ ((∃ r, (invokeLoop E clients fuel s response toolCalls).2 = Outcome.returned r)
            → (invokeLoop E clients fuel s response toolCalls).1.trace
                = s.trace ++ evs ++ clients.map (fun c => Event.close c.Id))
        ∧ ((invokeLoop E clients fuel s response toolCalls).2 = Outcome.panicked
            → (invokeLoop E clients fuel s response toolCalls).1.trace = s.trace ++ evs) := by
  induction fuel with
  | zero =>
    intro s response toolCalls
    cases toolCalls with
    | nil =>
      refine ⟨[], by simp, ?_, ?_⟩
      · intro _; simp [invokeLoop, closeAll]
      · intro h; simp [invokeLoop] at h
    | cons tc tcs =>
      refine ⟨[], by simp, ?_, ?_⟩
      · intro h; simp [invokeLoop] at h
      · intro h; simp [invokeLoop] at h
  | succ n ih =>
    intro s response toolCalls
    cases toolCalls with
    | nil =>
      refine ⟨[], by simp, ?_, ?_⟩
      · intro _; simp [invokeLoop, closeAll]
      · intro h; simp [invokeLoop] at h
    | cons tc tcs =>
      obtain ⟨evs1, hd1, hd2⟩ := dispatchAll_trace E clients (tc :: tcs) s
      obtain ⟨e, hc1, hc2⟩ := chat_trace E (dispatchAll E clients (tc :: tcs) s).llm
        (dispatchAll E clients (tc :: tcs) s).trace []
      rcases hchat : ChatOpenAI.Chat E (dispatchAll E clients (tc :: tcs) s).llm
          (dispatchAll E clients (tc :: tcs) s).trace [] with ⟨c, tr, _ | ⟨resp2, tcs2⟩⟩
      · rw [hchat] at hc1
        simp only at hc1
        refine ⟨evs1 ++ [e], ?_, ?_, ?_⟩
        · intro x hx
          rcases List.mem_append.1 hx with h | h
          · exact hd2 x h
          · simp at h; subst h; exact hc2
        · intro h; simp [invokeLoop, hchat] at h
        · intro _
          simp only [invokeLoop, hchat]
          rw [hc1, hd1, List.append_assoc]
      · rw [hchat] at hc1
        simp only at hc1
        obtain ⟨evs2, hi1, hi2, hi3⟩ := ih { llm := c, trace := tr } resp2 tcs2
        refine ⟨evs1 ++ [e] ++ evs2, ?_, ?_, ?_⟩
        · intro x hx
          rcases List.mem_append.1 hx with h | h
          · rcases List.mem_append.1 h with h | h
            · exact hd2 x h
            · simp at h; subst h; exact hc2
          · exact hi1 x h
        · intro h
          simp only [invokeLoop, hchat] at h ⊢
          rw [hi2 h]
          simp only [hc1, hd1, List.append_assoc]
        · intro h
          simp only [invokeLoop, hchat] at h ⊢
          rw [hi3 h]
          simp only [hc1, hd1, List.append_assoc]

theorem invoke_trace (E : Collaborators) (fuel : Nat) (a : Agent) (llm : ChatOpenAI)
    (tr : List Event) (prompt : Bytes) (hllm : a.LLM = some llm) :
    ∃ evs : List Event, (∀ e ∈ evs, e.isClose = false)
      ∧ ((∃ r, (a.Invoke E fuel tr prompt).2.2 = Outcome.returned r)
          → (a.Invoke E fuel tr prompt).2.1
              = tr ++ evs ++ a.MCPClient.map (fun c => Event.close c.Id))
      ∧ ((a.Invoke E fuel tr prompt).2.2 = Outcome.panicked
          → (a.Invoke E fuel tr prompt).2.1 = tr ++ evs) := by
  obtain ⟨e, hc1, hc2⟩ := chat_trace E llm tr prompt
  rcases hchat : ChatOpenAI.Chat E llm tr prompt with ⟨c, tr1, _ | ⟨resp, tcs⟩⟩
  · rw [hchat] at hc1
    simp only at hc1
    refine ⟨[e], ?_, ?_, ?_⟩
    · intro x hx; simp at hx; subst hx; exact hc2
    · intro h; simp [Agent.Invoke, hllm, hchat] at h
    · intro _; simp only [Agent.Invoke, hllm, hchat]; exact hc1
  · rw [hchat] at hc1
    simp only at hc1
    obtain ⟨evs2, hi1, hi2, hi3⟩ := invokeLoop_trace E a.MCPClient fuel
      { llm := c, trace := tr1 } resp tcs
    have hout : (a.Invoke E fuel tr prompt).2.2
        = (invokeLoop E a.MCPClient fuel { llm := c, trace := tr1 } resp tcs).2 := by
      simp only [Agent.Invoke, hllm, hchat]
    have htr : (a.Invoke E fuel tr prompt).2.1
        = (invokeLoop E a.MCPClient fuel { llm := c, trace := tr1 } resp tcs).1.trace := by
      simp only [Agent.Invoke, hllm, hchat]
    refine ⟨[e] ++ evs2, ?_, ?_, ?_⟩
    · intro x hx
      rcases List.mem_append.1 hx with h | h
      · simp at h; subst h; exact hc2
      · exact hi1 x h
    · intro h
      rw [hout] at h
      rw [htr, hi2 h]
      simp only [hc1, List.append_assoc]
    · intro h
      rw [hout] at h
      rw [htr, hi3 h]
      simp only [hc1, List.append_assoc]

theorem count_close_eq_one (clients : List MCPClient)
    (hnd : (clients.map (fun c => c.Id)).Nodup) (evs : List Event)
    (hevs : ∀ e ∈ evs, e.isClose = false) :
    ∀ c ∈ clients,
      (evs ++ clients.map (fun c => Event.close c.Id)).count (Event.close c.Id) = 1 := by
  intro c hc
  have h0 : evs.count (Event.close c.Id) = 0 := by
    apply List.count_eq_zero_of_not_mem
    intro hmem
    have := hevs _ hmem
    simp [Event.isClose] at this
  have hmap : clients.map (fun c => Event.close c.Id)
      = (clients.map (fun c => c.Id)).map Event.close := by
    rw [List.map_map]; rfl
  have hinj : Function.Injective Event.close := by
    intro x y hxy
    cases hxy
    rfl
  have hnd2 : (clients.map (fun c => Event.close c.Id)).Nodup := by
    rw [hmap]
    exact hnd.map hinj
  have h1 : (clients.map (fun c => Event.close c.Id)).count (Event.close c.Id) = 1 :=
    List.count_eq_one_of_mem hnd2 (List.mem_map_of_mem (fun c => Event.close c.Id) hc)
  rw [List.count_append, h0, h1]

/-- C3 (counterexample). When the first model call fails, `Chat` panics and
`Invoke` is abandoned: no `Close` is called, although two providers are
registered. -/
theorem C3_counterexample :
    (twoProviderAgent.Invoke failingModel 5 [] (goBytes "hi")).2.2 = Outcome.panicked
    ∧ ((twoProviderAgent.Invoke failingModel 5 [] (goBytes "hi")).2.1.filter
        Event.isClose).length = 0
    ∧ twoProviderAgent.MCPClient.length = 2 := by
  decide

/-- C3 (amended). When `Invoke` leaves its loop normally, `Close` has been
called on every registered provider, in registration order and once per
registration, so exactly once on each provider when the registered providers
are distinct, and never before the exit; when a model call fails, `Chat`
panics and `Invoke` is abandoned without any call of `Close`. -/
theorem C3_close_once_on_normal_exit (E : Collaborators) (fuel : Nat) (a : Agent)
    (llm : ChatOpenAI) (tr : List Event) (prompt : Bytes) (hllm : a.LLM = some llm) :
    ∃ evs : List Event, (∀ e ∈ evs, e.isClose = false)
      ∧ ((∃ r, (a.Invoke E fuel tr prompt).2.2 = Outcome.returned r)
          → (a.Invoke E fuel tr prompt).2.1
                = tr ++ evs ++ a.MCPClient.map (fun c => Event.close c.Id)
            ∧ ((a.MCPClient.map (fun c => c.Id)).Nodup →
                ∀ c ∈ a.MCPClient,
                  (((a.Invoke E fuel tr prompt).2.1).drop tr.length).count
                    (Event.close c.Id) = 1))
      ∧ ((a.Invoke E fuel tr prompt).2.2 = Outcome.panicked
          → (a.Invoke E fuel tr prompt).2.1 = tr ++ evs) := by
  obtain ⟨evs, h1, h2, h3⟩ := invoke_trace E fuel a llm tr prompt hllm
  refine ⟨evs, h1, ?_, h3⟩
  intro hret
  refine ⟨h2 hret, ?_⟩
  intro hnd c hc
  rw [h2 hret, List.append_assoc, List.drop_left]
  exact count_close_eq_one a.MCPClient hnd evs h1 c hc

/-- C3 (witness): the two-round run over two distinct providers returns
"done", and each provider is closed exactly once. -/
theorem C3_close_once_on_normal_exit_witness :
    (∃ r, (twoProviderAgent.Invoke oneToolRound 5 [] (goBytes "hi")).2.2 = Outcome.returned r)
    ∧ (twoProviderAgent.MCPClient.map (fun c => c.Id)).Nodup
    ∧ ∀ c ∈ twoProviderAgent.MCPClient,
        (((twoProviderAgent.Invoke oneToolRound 5 [] (goBytes "hi")).2.1).drop
          ([] : List Event).length).count (Event.close c.Id) = 1 := by
  have hret : ∃ r, (twoProviderAgent.Invoke oneToolRound 5 [] (goBytes "hi")).2.2
      = Outcome.returned r := ⟨goBytes "done", by decide⟩
  have hnd : (twoProviderAgent.MCPClient.map (fun c => c.Id)).Nodup := by decide
  obtain ⟨_, _, h2, _⟩ := C3_close_once_on_normal_exit oneToolRound 5 twoProviderAgent
    { Model := "m", SystemPrompt := [], Tools := [plainTool "t", plainTool "t"],
      RagContext := [], Message := [] } [] (goBytes "hi") rfl
  exact ⟨hret, hnd, (h2 hret).2 hnd⟩

/-! ### Truncation of rendered content (rag.go) -/

theorem goBytes_replicate (c : Char) (n : Nat) :
    goBytes (String.mk (List.replicate n c))
      = (List.replicate n (String.utf8EncodeChar c)).flatten := by
  induction n with
  | zero => rfl
  | succ n ih =>
    simp only [goBytes] at ih
    simp [goBytes, List.replicate_succ, ih]

theorem utf8ByteSize_eq_length_goBytes (s : String) :
    s.utf8ByteSize = (goBytes s).length := by
  cases s with
  | mk l =>
    simp only [String.utf8ByteSize, goBytes]
    induction l with
    | nil => rfl
    | cons c cs ih =>
      simp only [String.utf8ByteSize.go, List.flatMap_cons, List.length_append,
        String.length_utf8EncodeChar, ih]
      omega

theorem utf8EncodeChar_cjk : String.utf8EncodeChar '中' = [0xE4, 0xB8, 0xAD] := by
  decide

theorem goBytes_cjk (n : Nat) :
    (goBytes (String.mk (List.replicate n '中'))).length = 3 * n := by
  rw [goBytes_replicate, utf8EncodeChar_cjk]
  induction n with
  | zero => rfl
  | succ n ih => simp [List.replicate_succ, ih]; omega

/-- C11 (failing input). The content of 334 runes `中` has at most 1000
characters and 1002 bytes; `buildContext` cuts it, after 1000 bytes: it renders
the first 333 runes, then the lone first byte `0xE4` of the 334th rune, then
the marker. -/
theorem C11_truncation_counts_bytes :
    cjkContent.length = 334
    ∧ cjkContent.utf8ByteSize = 1002
    ∧ renderContent cjkContent
        = goBytes (String.mk (List.replicate 333 '中')) ++ [0xE4] ++ goBytes "..."
    ∧ renderContent cjkContent ≠ goBytes cjkContent := by
  have hlen : cjkContent.length = 334 := by
    show (List.replicate 334 '中').length = 334
    exact List.length_replicate 334 '中'
  have hsize : cjkContent.utf8ByteSize = 1002 := by
    rw [utf8ByteSize_eq_length_goBytes, cjkContent, goBytes_cjk]
  have hsplit : goBytes cjkContent
      = goBytes (String.mk (List.replicate 333 '中')) ++ [0xE4, 0xB8, 0xAD] := by
    rw [cjkContent, goBytes_replicate, goBytes_replicate, utf8EncodeChar_cjk,
      show (334 : Nat) = 333 + 1 from rfl, List.replicate_succ', List.flatten_append]
    simp only [List.flatten_cons, List.flatten_nil, List.append_nil]
  have hrender : renderContent cjkContent
      = goBytes (String.mk (List.replicate 333 '中')) ++ [0xE4] ++ goBytes "..." := by
    have h333 := goBytes_cjk 333
    have hle : (goBytes (String.mk (List.replicate 333 '中'))).length ≤ 1000 := by
      rw [h333]; decide
    rw [renderContent, if_pos (by rw [hsize]; decide), hsplit,
      List.take_append_eq_append_take, List.take_of_length_le hle, h333]
    rfl
  refine ⟨hlen, hsize, hrender, ?_⟩
  intro h
  have h1 : (renderContent cjkContent).length = (goBytes cjkContent).length := by rw [h]
  rw [hrender, hsplit] at h1
  have h3 : (goBytes "...").length = 3 := by decide
  simp only [List.length_append, List.length_cons, List.length_nil, h3] at h1
  omega

/-! ### Failure modes of `Retrieve` (rag.go) -/

theorem chat_unfold (E : Collaborators) (c : ChatOpenAI) (tr : List Event) (prompt : Bytes) :
    ChatOpenAI.Chat E c tr prompt
      = match E.CreateChatCompletion tr (c.request prompt) with
        | .error _ =>
          ({ c with Message := c.submitted prompt }, tr ++ [Event.chat (c.request prompt)], none)
        | .ok [] =>
          ({ c with Message := c.submitted prompt }, tr ++ [Event.chat (c.request prompt)],
            some ([], []))
        | .ok (assistantMsg :: _) =>
          ({ c with Message := c.submitted prompt ++ [assistantMsg] },
            tr ++ [Event.chat (c.request prompt)],
            some (assistantMsg.Content, ArkToolCallsToInternal assistantMsg.ToolCalls)) := by
  unfold ChatOpenAI.Chat ChatOpenAI.request ChatOpenAI.submitted
  by_cases hp : prompt = []
  · subst hp
    simp
  · simp [hp]

theorem chat_trace_eq (E : Collaborators) (c : ChatOpenAI) (tr : List Event) (prompt : Bytes) :
    (ChatOpenAI.Chat E c tr prompt).2.1 = tr ++ [Event.chat (c.request prompt)] := by
  rw [chat_unfold]
  split <;> rfl

theorem dispatchTools_unmatched (E : Collaborators) (toolCall : ToolCall)
    (mcpClient : MCPClient) (tools : List Tool)
    (h : ∀ t ∈ tools, t.Name ≠ toolCall.Function.Name) :
    ∀ s : Session, dispatchTools E toolCall mcpClient tools s = s := by
  induction tools with
  | nil => intro s; rfl
  | cons t ts ih =>
    intro s
    have ht := h t (List.mem_cons_self _ _)
    simp only [dispatchTools, ht, if_false]
    exact ih (fun x hx => h x (List.mem_cons_of_mem _ hx)) s

theorem dispatchClients_unmatched (E : Collaborators) (toolCall : ToolCall)
    (clients : List MCPClient)
    (h : ∀ c ∈ clients, ∀ t ∈ c.GetTool, t.Name ≠ toolCall.Function.Name) :
    ∀ s : Session, dispatchClients E toolCall clients s = s := by
  induction clients with
  | nil => intro s; rfl
  | cons c cs ih =>
    intro s
    simp only [dispatchClients]
    rw [dispatchTools_unmatched E toolCall c c.GetTool (h c (List.mem_cons_self _ _)) s]
    exact ih (fun x hx => h x (List.mem_cons_of_mem _ hx)) s

theorem invokeLoop_trace_extends (E : Collaborators) (clients : List MCPClient) (fuel : Nat) :
    ∀ (s : Session) (response : Bytes) (toolCalls : List ToolCall),
      ∃ evs : List Event,
        (invokeLoop E clients fuel s response toolCalls).1.trace = s.trace ++ evs := by
  induction fuel with
  | zero =>
    intro s response toolCalls
    cases toolCalls with
    | nil => exact ⟨clients.map (fun c => Event.close c.Id), by simp [invokeLoop, closeAll]⟩
    | cons tc tcs => exact ⟨[], by simp [invokeLoop]⟩
  | succ n ih =>
    intro s response toolCalls
    cases toolCalls with
    | nil => exact ⟨clients.map (fun c => Event.close c.Id), by simp [invokeLoop, closeAll]⟩
    | cons tc tcs =>
      obtain ⟨evs1, hd1, _⟩ := dispatchAll_trace E clients (tc :: tcs) s
      have hc1 := chat_trace_eq E (dispatchAll E clients (tc :: tcs) s).llm
        (dispatchAll E clients (tc :: tcs) s).trace []
      rcases hchat : ChatOpenAI.Chat E (dispatchAll E clients (tc :: tcs) s).llm
          (dispatchAll E clients (tc :: tcs) s).trace [] with ⟨c, tr, _ | ⟨resp2, tcs2⟩⟩
      · rw [hchat] at hc1
        simp only at hc1
        refine ⟨evs1 ++ [Event.chat ((dispatchAll E clients (tc :: tcs) s).llm.request [])], ?_⟩
        simp only [invokeLoop, hchat]
        rw [hc1, hd1, List.append_assoc]
      · rw [hchat] at hc1
        simp only at hc1
        obtain ⟨evs2, hi⟩ := ih { llm := c, trace := tr } resp2 tcs2
        refine ⟨evs1 ++ [Event.chat ((dispatchAll E clients (tc :: tcs) s).llm.request [])]
          ++ evs2, ?_⟩
        simp only [invokeLoop, hchat]
        rw [hi]
        simp only [hc1, hd1, List.append_assoc]

/-- C13. When a tool-invocation request names a tool that no registered
provider advertises, dispatching it invokes no provider and leaves the
conversation and the history unchanged; a round made of such a request goes on
with a model call that submits the unchanged log, the prompt being empty. -/
theorem C13_unresolved_tool_is_noop (E : Collaborators) (clients : List MCPClient)
    (toolCall : ToolCall) (s : Session)
    (hun : ∀ c ∈ clients, ∀ t ∈ c.GetTool, t.Name ≠ toolCall.Function.Name) :
    dispatchClients E toolCall clients s = s
    ∧ expectedCalls clients toolCall = []
    ∧ (s.llm.request []).Messages = s.llm.Message
    ∧ ∀ (fuel : Nat) (response : Bytes), ∃ evs : List Event,
        (invokeLoop E clients (fuel + 1) s response [toolCall]).1.trace
          = s.trace ++ Event.chat (s.llm.request []) :: evs := by
  have hnoop := dispatchClients_unmatched E toolCall clients hun s
  have hcalls : expectedCalls clients toolCall = [] := by
    have h := dispatchClients_trace E toolCall clients s
    rw [hnoop] at h
    exact List.append_right_eq_self.1 h.symm
  refine ⟨hnoop, hcalls, by simp [ChatOpenAI.request, ChatOpenAI.submitted], ?_⟩
  intro fuel response
  have hall : dispatchAll E clients [toolCall] s = s := by
    simp only [dispatchAll, hnoop]
  have hc1 := chat_trace_eq E s.llm s.trace []
  rcases hchat : ChatOpenAI.Chat E s.llm s.trace [] with ⟨c, tr, _ | ⟨resp2, tcs2⟩⟩
  · rw [hchat] at hc1
    simp only at hc1
    refine ⟨[], ?_⟩
    simp only [invokeLoop, hall, hchat]
    exact hc1
  · rw [hchat] at hc1
    simp only at hc1
    obtain ⟨evs2, hi⟩ := invokeLoop_trace_extends E clients fuel { llm := c, trace := tr }
      resp2 tcs2
    refine ⟨evs2, ?_⟩
    simp only [invokeLoop, hall, hchat]
    rw [hi]
    simp only [hc1, List.append_assoc, List.singleton_append]

/-- C13 (witness): a request for the tool `missing` against two providers that
advertise only `t`. -/
theorem C13_unresolved_tool_is_noop_witness :
    (∀ c ∈ twoProviders, ∀ t ∈ c.GetTool, t.Name ≠ missingToolCall.Function.Name)
    ∧ dispatchClients oneToolRound missingToolCall twoProviders oneMessageSession
        = oneMessageSession
    ∧ expectedCalls twoProviders missingToolCall = [] := by
  have hun : ∀ c ∈ twoProviders, ∀ t ∈ c.GetTool, t.Name ≠ missingToolCall.Function.Name := by
    decide
  have h := C13_unresolved_tool_is_noop oneToolRound twoProviders missingToolCall
    oneMessageSession hun
  exact ⟨hun, h.1, h.2.1⟩

theorem chat_no_tool_calls (E : Collaborators) (c : ChatOpenAI) (tr : List Event)
    (prompt : Bytes) (msg : ChatCompletionMessage) (rest : List ChatCompletionMessage)
    (hreply : E.CreateChatCompletion tr (c.request prompt) = .ok (msg :: rest))
    (hno : msg.ToolCalls = []) :
    ChatOpenAI.Chat E c tr prompt
      = ({ c with Message := c.submitted prompt ++ [msg] },
          tr ++ [Event.chat (c.request prompt)], some (msg.Content, [])) := by
  rw [chat_unfold, hreply]
  simp [hno, ArkToolCallsToInternal]

theorem filter_isChat_closes (clients : List MCPClient) :
    (clients.map (fun c => Event.close c.Id)).filter Event.isChat = [] := by
  induction clients with
  | nil => rfl
  | cons c cs ih => simp [List.filter_cons, Event.isChat, ih]

/-- C14. When the model's reply to a submission carries no tool-invocation
request, `Invoke` makes no further model call and returns the text of that
reply: the loop exits as soon as the list of tool calls is empty, in any
round, and when the first reply carries none, exactly one model call is made. -/
theorem C14_no_tool_calls_terminates (E : Collaborators) :
    (∀ (clients : List MCPClient) (fuel : Nat) (s : Session) (response : Bytes),
        invokeLoop E clients fuel s response []
          = ({ s with trace := s.trace ++ clients.map (fun c => Event.close c.Id) },
              Outcome.returned response))
    ∧ (∀ (clients : List MCPClient) (fuel : Nat) (s : Session) (response : Bytes)
        (toolCall : ToolCall) (toolCalls : List ToolCall) (msg : ChatCompletionMessage)
        (rest : List ChatCompletionMessage),
        E.CreateChatCompletion (dispatchAll E clients (toolCall :: toolCalls) s).trace
            ((dispatchAll E clients (toolCall :: toolCalls) s).llm.request []) = .ok (msg :: rest) →
        msg.ToolCalls = [] →
        (invokeLoop E clients (fuel + 1) s response (toolCall :: toolCalls)).2
            = Outcome.returned msg.Content
        ∧ (invokeLoop E clients (fuel + 1) s response (toolCall :: toolCalls)).1.trace
            = (dispatchAll E clients (toolCall :: toolCalls) s).trace
              ++ [Event.chat ((dispatchAll E clients (toolCall :: toolCalls) s).llm.request [])]
              ++ clients.map (fun c => Event.close c.Id))
    ∧ (∀ (fuel : Nat) (a : Agent) (llm : ChatOpenAI) (tr : List Event) (prompt : Bytes)
        (msg : ChatCompletionMessage) (rest : List ChatCompletionMessage),
        a.LLM = some llm →
        E.CreateChatCompletion tr (llm.request prompt) = .ok (msg :: rest) →
        msg.ToolCalls = [] →
        (a.Invoke E fuel tr prompt).2.2 = Outcome.returned msg.Content
        ∧ (a.Invoke E fuel tr prompt).2.1
            = tr ++ [Event.chat (llm.request prompt)]
              ++ a.MCPClient.map (fun c => Event.close c.Id)
        ∧ (((a.Invoke E fuel tr prompt).2.1.drop tr.length).filter Event.isChat).length = 1) := by
  have hexit : ∀ (clients : List MCPClient) (fuel : Nat) (s : Session) (response : Bytes),
      invokeLoop E clients fuel s response []
        = ({ s with trace := s.trace ++ clients.map (fun c => Event.close c.Id) },
            Outcome.returned response) := by
    intro clients fuel s response
    cases fuel <;> simp [invokeLoop, closeAll]
  refine ⟨hexit, ?_, ?_⟩
  · intro clients fuel s response toolCall toolCalls msg rest hreply hno
    have hchat := chat_no_tool_calls E _ _ [] msg rest hreply hno
    refine ⟨?_, ?_⟩ <;> simp only [invokeLoop, hchat, hexit]
  · intro fuel a llm tr prompt msg rest hllm hreply hno
    have hchat := chat_no_tool_calls E llm tr prompt msg rest hreply hno
    have htr : (a.Invoke E fuel tr prompt).2.1
        = tr ++ [Event.chat (llm.request prompt)]
          ++ a.MCPClient.map (fun c => Event.close c.Id) := by
      simp only [Agent.Invoke, hllm, hchat, hexit]
    refine ⟨?_, htr, ?_⟩
    · simp only [Agent.Invoke, hllm, hchat, hexit]
    · rw [htr, List.append_assoc, List.drop_left, List.filter_append, filter_isChat_closes]
      simp [Event.isChat]

/-- C14 (witness): the model answers "done" to the first submission; `Invoke`
returns "done" after one model call. -/
theorem C14_no_tool_calls_terminates_witness :
    (twoProviderAgent.Invoke directAnswer 0 [] (goBytes "hi")).2.2
        = Outcome.returned (goBytes "done")
    ∧ (((twoProviderAgent.Invoke directAnswer 0 [] (goBytes "hi")).2.1.drop
          ([] : List Event).length).filter Event.isChat).length = 1 := by
  have h := (C14_no_tool_calls_terminates directAnswer).2.2 0 twoProviderAgent
    { Model := "m", SystemPrompt := [], Tools := [plainTool "t", plainTool "t"],
      RagContext := [], Message := [] } [] (goBytes "hi")
    { Role := Role.assistant, Content := goBytes "done", ToolCalls := [], ToolCallID := "" }
    [] rfl rfl rfl
  exact ⟨h.1, h.2.2⟩

/-! ### The message log is append-only -/

theorem chat_log_grows (E : Collaborators) (c : ChatOpenAI) (tr : List Event)
    (prompt : Bytes) : List.IsPrefix c.Message (ChatOpenAI.Chat E c tr prompt).1.Message := by
  have hsub : List.IsPrefix c.Message (c.submitted prompt) := by
    unfold ChatOpenAI.submitted
    by_cases hp : prompt = []
    · simp [hp]
    · simp [hp]
  rw [chat_unfold]
  split
  · exact hsub
  · exact hsub
  · exact hsub.trans (List.prefix_append _ _)

theorem dispatchAll_log_grows (E : Collaborators) (clients : List MCPClient)
    (toolCalls : List ToolCall) :
    ∀ s : Session, List.IsPrefix s.llm.Message (dispatchAll E clients toolCalls s).llm.Message := by
  induction toolCalls with
  | nil => intro s; exact List.prefix_refl _
  | cons tc tcs ih =>
    intro s
    obtain ⟨msgs, h1, _⟩ := dispatchClients_messages E tc clients s
    have h2 := ih (dispatchClients E tc clients s)
    rw [h1] at h2
    simp only [dispatchAll]
    exact (List.prefix_append _ _).trans h2

theorem invokeLoop_log_grows (E : Collaborators) (clients : List MCPClient) (fuel : Nat) :
    ∀ (s : Session) (response : Bytes) (toolCalls : List ToolCall),
      List.IsPrefix s.llm.Message
        (invokeLoop E clients fuel s response toolCalls).1.llm.Message := by
  induction fuel with
  | zero =>
    intro s response toolCalls
    cases toolCalls with
    | nil => simp [invokeLoop]
    | cons tc tcs => simp [invokeLoop]
  | succ n ih =>
    intro s response toolCalls
    cases toolCalls with
    | nil => simp [invokeLoop]
    | cons tc tcs =>
      have hd := dispatchAll_log_grows E clients (tc :: tcs) s
      have hc := chat_log_grows E (dispatchAll E clients (tc :: tcs) s).llm
        (dispatchAll E clients (tc :: tcs) s).trace []
      rcases hchat : ChatOpenAI.Chat E (dispatchAll E clients (tc :: tcs) s).llm
          (dispatchAll E clients (tc :: tcs) s).trace [] with ⟨c, tr, _ | ⟨resp2, tcs2⟩⟩
      · rw [hchat] at hc
        simp only [invokeLoop, hchat]
        exact hd.trans hc
      · rw [hchat] at hc
        simp only [invokeLoop, hchat]
        exact (hd.trans hc).trans (ih { llm := c, trace := tr } resp2 tcs2)

theorem invoke_log_grows (E : Collaborators) (fuel : Nat) (a : Agent) (llm : ChatOpenAI)
    (tr : List Event) (prompt : Bytes) (hllm : a.LLM = some llm) :
    ∃ llm2, (a.Invoke E fuel tr prompt).1.LLM = some llm2
      ∧ List.IsPrefix llm.Message llm2.Message := by
  have hc := chat_log_grows E llm tr prompt
  rcases hchat : ChatOpenAI.Chat E llm tr prompt with ⟨c, tr1, _ | ⟨resp, tcs⟩⟩
  · rw [hchat] at hc
    exact ⟨c, by simp only [Agent.Invoke, hllm, hchat], hc⟩
  · rw [hchat] at hc
    refine ⟨(invokeLoop E a.MCPClient fuel { llm := c, trace := tr1 } resp tcs).1.llm, ?_, ?_⟩
    · simp only [Agent.Invoke, hllm, hchat]
    · exact hc.trans (invokeLoop_log_grows E a.MCPClient fuel { llm := c, trace := tr1 }
        resp tcs)

theorem invokeWithRAG_log_grows (E : Collaborators) (L : GoLib) (fs : FileSystem)
    (fuel : Nat) (a : Agent) (llm : ChatOpenAI) (tr : List Event) (prompt : String)
    (hllm : a.LLM = some llm) :
    ∃ llm2, (a.InvokeWithRAG E L fs fuel tr prompt).1.LLM = some llm2
      ∧ List.IsPrefix llm.Message llm2.Message := by
  unfold Agent.InvokeWithRAG
  simp only [hllm]
  cases hr : a.RAGRetriever with
  | none => exact invoke_log_grows E fuel a llm tr (goBytes prompt) hllm
  | some r =>
    simp only
    cases hret : r.Retrieve L fs prompt with
    | panicked => exact ⟨llm, hllm, List.prefix_refl _⟩
    | returned ragContext err =>
      simp only
      by_cases hinj : err.isNone = true ∧ ragContext ≠ []
      · rw [if_pos hinj]
        obtain ⟨llm2, h1, h2⟩ := invoke_log_grows E fuel
          { a with LLM := some { llm with Message := llm.Message ++
              [{ Role := Role.user, Content := ragContext, ToolCalls := [],
                 ToolCallID := "" }] } }
          { llm with Message := llm.Message ++
              [{ Role := Role.user, Content := ragContext, ToolCalls := [],
                 ToolCallID := "" }] } tr (goBytes prompt) rfl
        rw [hr] at h1
        exact ⟨llm2, h1, (List.prefix_append _ _).trans h2⟩
      · rw [if_neg hinj]
        exact invoke_log_grows E fuel a llm tr (goBytes prompt) hllm

theorem invoke_first_chat (E : Collaborators) (fuel : Nat) (a : Agent) (llm : ChatOpenAI)
    (tr : List Event) (prompt : Bytes) (hllm : a.LLM = some llm) :
    ∃ evs : List Event,
      (a.Invoke E fuel tr prompt).2.1 = tr ++ Event.chat (llm.request prompt) :: evs := by
  have hc := chat_trace_eq E llm tr prompt
  rcases hchat : ChatOpenAI.Chat E llm tr prompt with ⟨c, tr1, _ | ⟨resp, tcs⟩⟩
  · rw [hchat] at hc
    simp only at hc
    exact ⟨[], by simp only [Agent.Invoke, hllm, hchat]; exact hc⟩
  · rw [hchat] at hc
    simp only at hc
    obtain ⟨evs, hi⟩ := invokeLoop_trace_extends E a.MCPClient fuel
      { llm := c, trace := tr1 } resp tcs
    refine ⟨evs, ?_⟩
    simp only [Agent.Invoke, hllm, hchat]
    rw [hi]
    simp only [hc, List.append_assoc, List.singleton_append]

theorem goBytes_ne_nil_of_ne_empty (s : String) (h : s ≠ "") : goBytes s ≠ [] := by
  apply goBytes_ne_nil
  intro hd
  apply h
  cases s with
  | mk l =>
    simp only at hd
    subst hd
    rfl

theorem invokeWithRAG_first_chat (E : Collaborators) (L : GoLib) (fs : FileSystem)
    (fuel : Nat) (a : Agent) (llm : ChatOpenAI) (r : RAGRetriever) (tr : List Event)
    (prompt : String) (hllm : a.LLM = some llm) (hr : a.RAGRetriever = some r)
    (hp : prompt ≠ "") (ctx : Bytes) (hret : r.Retrieve L fs prompt = .returned ctx none)
    (hctx : ctx ≠ []) :
    ∃ evs : List Event,
      (a.InvokeWithRAG E L fs fuel tr prompt).2.1
        = tr ++ Event.chat
            { Model := llm.Model,
              Messages := llm.Message ++
                [{ Role := Role.user, Content := ctx, ToolCalls := [], ToolCallID := "" },
                 { Role := Role.user, Content := goBytes prompt, ToolCalls := [],
                   ToolCallID := "" }],
              Tools := MCPTool2ArkTool llm.Tools } :: evs := by
  have hbytes : goBytes prompt ≠ [] := goBytes_ne_nil_of_ne_empty prompt hp
  obtain ⟨evs, hev⟩ := invoke_first_chat E fuel
    { a with LLM := some { llm with Message := llm.Message ++
        [{ Role := Role.user, Content := ctx, ToolCalls := [], ToolCallID := "" }] } }
    { llm with Message := llm.Message ++
        [{ Role := Role.user, Content := ctx, ToolCalls := [], ToolCallID := "" }] }
    tr (goBytes prompt) rfl
  refine ⟨evs, ?_⟩
  have hinj : (none : Option RetrieveError).isNone = true ∧ ctx ≠ [] := ⟨rfl, hctx⟩
  simp only [Agent.InvokeWithRAG, hllm, hr, hret, if_pos hinj]
  rw [hr] at hev
  rw [hev]
  simp [ChatOpenAI.request, ChatOpenAI.submitted, hbytes]

/-- C15. The message log is append-only: the log before a call of `Chat`, before
the tool-dispatch phase of a round of `Invoke`, and before `InvokeWithRAG`
(with its context injection) or `Invoke` as a whole is a prefix of the log
afterwards. -/
theorem C15_log_append_only (E : Collaborators) :
    (∀ (c : ChatOpenAI) (tr : List Event) (prompt : Bytes),
        List.IsPrefix c.Message (ChatOpenAI.Chat E c tr prompt).1.Message)
    ∧ (∀ (clients : List MCPClient) (toolCalls : List ToolCall) (s : Session),
        List.IsPrefix s.llm.Message (dispatchAll E clients toolCalls s).llm.Message)
    ∧ (∀ (L : GoLib) (fs : FileSystem) (fuel : Nat) (a : Agent) (llm : ChatOpenAI)
        (tr : List Event) (prompt : String), a.LLM = some llm →
        ∃ llm2, (a.InvokeWithRAG E L fs fuel tr prompt).1.LLM = some llm2
          ∧ List.IsPrefix llm.Message llm2.Message)
    ∧ (∀ (fuel : Nat) (a : Agent) (llm : ChatOpenAI) (tr : List Event) (prompt : Bytes),
        a.LLM = some llm →
        ∃ llm2, (a.Invoke E fuel tr prompt).1.LLM = some llm2
          ∧ List.IsPrefix llm.Message llm2.Message) :=
  ⟨chat_log_grows E, dispatchAll_log_grows E,
    fun L fs fuel a llm tr prompt h => invokeWithRAG_log_grows E L fs fuel a llm tr prompt h,
    fun fuel a llm tr prompt h => invoke_log_grows E fuel a llm tr prompt h⟩

/-- C15 (witness): an agent whose log already holds one message, with the
default retriever over the corpus of scenario A and the prompt "quick fox".
Retrieval succeeds with a non-empty context, so the context is injected: the
first request to the model holds the prior log, then the context message, then
the prompt. The prior log is a prefix of the log after `InvokeWithRAG`. -/
theorem C15_log_append_only_witness :
    loggedRagAgent.LLM = some oneMessageChat
    ∧ oneMessageChat.Message
        = [{ Role := Role.user, Content := goBytes "hi", ToolCalls := [], ToolCallID := "" }]
    ∧ (NewRAGRetriever "kb").Retrieve asciiLib scenarioAFs "quick fox"
        = .returned
            (buildContext asciiLib [{ scenarioADoc with Score := float64_0_85 }] "quick fox")
            none
    ∧ buildContext asciiLib [{ scenarioADoc with Score := float64_0_85 }] "quick fox" ≠ []
    ∧ (∃ evs : List Event,
        (loggedRagAgent.InvokeWithRAG oneToolRound asciiLib scenarioAFs 5 [] "quick fox").2.1
          = [] ++ Event.chat
              { Model := "m",
                Messages := oneMessageChat.Message ++
                  [{ Role := Role.user,
                     Content := buildContext asciiLib
                       [{ scenarioADoc with Score := float64_0_85 }] "quick fox",
                     ToolCalls := [], ToolCallID := "" },
                   { Role := Role.user, Content := goBytes "quick fox", ToolCalls := [],
                     ToolCallID := "" }],
                Tools := MCPTool2ArkTool [plainTool "t"] } :: evs)
    ∧ ∃ llm2,
        (loggedRagAgent.InvokeWithRAG oneToolRound asciiLib scenarioAFs 5 [] "quick fox").1.LLM
          = some llm2
        ∧ List.IsPrefix oneMessageChat.Message llm2.Message :=
  ⟨rfl, rfl,
    scenarioA_retrieve asciiLib asciiLib_agreesOnAscii asciiLib_ieee asciiLib_sortContract,
    (buildContext_cites asciiLib [{ scenarioADoc with Score := float64_0_85 }] "quick fox").1,
    invokeWithRAG_first_chat oneToolRound asciiLib scenarioAFs 5 loggedRagAgent oneMessageChat
      (NewRAGRetriever "kb") [] "quick fox" rfl rfl (by decide) _
      (scenarioA_retrieve asciiLib asciiLib_agreesOnAscii asciiLib_ieee asciiLib_sortContract)
      (buildContext_cites asciiLib [{ scenarioADoc with Score := float64_0_85 }]
        "quick fox").1,
    (C15_log_append_only oneToolRound).2.2.1 asciiLib scenarioAFs 5 loggedRagAgent
      oneMessageChat [] "quick fox" rfl⟩

/-! ### Dispatch when every requested name is advertised once -/

theorem dispatchTools_single (E : Collaborators) (toolCall : ToolCall) (mcpClient : MCPClient)
    (tools : List Tool)
    (h : (tools.filter (fun t => decide (t.Name = toolCall.Function.Name))).length = 1) :
    ∀ s : Session, dispatchTools E toolCall mcpClient tools s = callOnce E toolCall mcpClient s := by
  induction tools with
  | nil => simp at h
  | cons t ts ih =>
    intro s
    by_cases hname : t.Name = toolCall.Function.Name
    · have hrest : ∀ x ∈ ts, x.Name ≠ toolCall.Function.Name := by
        simp only [List.filter_cons, hname, decide_True, if_true, List.length_cons,
          Nat.add_left_eq_self, List.length_eq_zero, List.filter_eq_nil_iff] at h
        intro x hx
        simpa using h x hx
      simp only [dispatchTools, hname, if_true, callOnce]
      cases E.CallTool s.trace mcpClient toolCall.Function.Name toolCall.Function.Arguments with
      | error err => exact dispatchTools_unmatched E toolCall mcpClient ts hrest _
      | ok toolText => exact dispatchTools_unmatched E toolCall mcpClient ts hrest _
    · have h2 : (ts.filter (fun t => decide (t.Name = toolCall.Function.Name))).length = 1 := by
        simpa [List.filter_cons, hname] using h
      simp only [dispatchTools, hname, if_false]
      exact ih h2 s

theorem expectedCalls_cons (c : MCPClient) (cs : List MCPClient) (toolCall : ToolCall) :
    (expectedCalls (c :: cs) toolCall).length
      = (c.GetTool.filter (fun t => decide (t.Name = toolCall.Function.Name))).length
        + (expectedCalls cs toolCall).length := by
  simp [expectedCalls]

theorem unmatched_of_expectedCalls_nil (clients : List MCPClient) (toolCall : ToolCall)
    (h : (expectedCalls clients toolCall).length = 0) :
    ∀ c ∈ clients, ∀ t ∈ c.GetTool, t.Name ≠ toolCall.Function.Name := by
  induction clients with
  | nil => intro c hc; simp at hc
  | cons c0 cs ih =>
    rw [expectedCalls_cons] at h
    have h1 : (c0.GetTool.filter (fun t => decide (t.Name = toolCall.Function.Name))).length
        = 0 := by omega
    have h2 : (expectedCalls cs toolCall).length = 0 := by omega
    intro c hc
    rcases List.mem_cons.1 hc with hc1 | hc1
    · subst hc1
      simp only [List.length_eq_zero, List.filter_eq_nil_iff] at h1
      intro t ht
      simpa using h1 t ht
    · exact ih h2 c hc1

theorem dispatchClients_single (E : Collaborators) (toolCall : ToolCall)
    (clients : List MCPClient) (h : (expectedCalls clients toolCall).length = 1) :
    ∀ s : Session, ∃ c,
      clients.find? (fun c =>
          c.GetTool.any (fun t => decide (t.Name = toolCall.Function.Name))) = some c
      ∧ dispatchClients E toolCall clients s = callOnce E toolCall c s := by
  induction clients with
  | nil => simp [expectedCalls] at h
  | cons c0 cs ih =>
    intro s
    rw [expectedCalls_cons] at h
    by_cases hk : (c0.GetTool.filter (fun t => decide (t.Name = toolCall.Function.Name))).length
        = 0
    · have hno : ∀ t ∈ c0.GetTool, t.Name ≠ toolCall.Function.Name := by
        simp only [List.length_eq_zero, List.filter_eq_nil_iff] at hk
        intro t ht
        simpa using hk t ht
      have hany : c0.GetTool.any (fun t => decide (t.Name = toolCall.Function.Name)) = false := by
        rw [List.any_eq_false]
        intro t ht
        simpa using hno t ht
      obtain ⟨c, hf, hd⟩ := ih (by omega) s
      refine ⟨c, ?_, ?_⟩
      · rw [List.find?_cons, hany]
        exact hf
      · simp only [dispatchClients]
        rw [dispatchTools_unmatched E toolCall c0 c0.GetTool hno s]
        exact hd
    · have hk1 : (c0.GetTool.filter (fun t => decide (t.Name = toolCall.Function.Name))).length
          = 1 := by omega
      have hrest : (expectedCalls cs toolCall).length = 0 := by omega
      have hany : c0.GetTool.any (fun t => decide (t.Name = toolCall.Function.Name)) = true := by
        rw [List.any_eq_true]
        have hne : c0.GetTool.filter (fun t => decide (t.Name = toolCall.Function.Name)) ≠ [] := by
          intro hnil
          rw [hnil] at hk1
          simp at hk1
        obtain ⟨t, ht⟩ := List.exists_mem_of_ne_nil _ hne
        rw [List.mem_filter] at ht
        exact ⟨t, ht.1, ht.2⟩
      refine ⟨c0, ?_, ?_⟩
      · rw [List.find?_cons, hany]
      · simp only [dispatchClients]
        rw [dispatchTools_single E toolCall c0 c0.GetTool hk1 s]
        exact dispatchClients_unmatched E toolCall cs
          (unmatched_of_expectedCalls_nil cs toolCall hrest) _

theorem dispatchAll_eq_dispatchInOrder (E : Collaborators) (clients : List MCPClient)
    (toolCalls : List ToolCall)
    (h : ∀ tc ∈ toolCalls, (expectedCalls clients tc).length = 1) :
    ∀ s : Session, dispatchAll E clients toolCalls s = dispatchInOrder E clients toolCalls s := by
  induction toolCalls with
  | nil => intro s; rfl
  | cons tc tcs ih =>
    intro s
    obtain ⟨c, hf, hd⟩ := dispatchClients_single E tc clients (h tc (List.mem_cons_self _ _)) s
    simp only [dispatchAll, dispatchInOrder, hf, hd]
    exact ih (fun x hx => h x (List.mem_cons_of_mem _ hx)) _

theorem dispatchAll_trace_eq (E : Collaborators) (clients : List MCPClient)
    (toolCalls : List ToolCall) :
    ∀ s : Session,
      (dispatchAll E clients toolCalls s).trace
        = s.trace ++ toolCalls.flatMap (expectedCalls clients) := by
  induction toolCalls with
  | nil => intro s; simp [dispatchAll]
  | cons tc tcs ih =>
    intro s
    simp only [dispatchAll]
    rw [ih, dispatchClients_trace]
    simp [List.append_assoc]

theorem flatMap_expectedCalls_length (clients : List MCPClient) (toolCalls : List ToolCall)
    (h : ∀ tc ∈ toolCalls, (expectedCalls clients tc).length = 1) :
    (toolCalls.flatMap (expectedCalls clients)).length = toolCalls.length := by
  induction toolCalls with
  | nil => rfl
  | cons tc tcs ih =>
    have h1 := h tc (List.mem_cons_self _ _)
    have h2 := ih (fun x hx => h x (List.mem_cons_of_mem _ hx))
    simp only [List.flatMap_cons, List.length_append, List.length_cons, h1, h2]
    omega

theorem dispatchAll_ids (E : Collaborators) (clients : List MCPClient)
    (toolCalls : List ToolCall)
    (h : ∀ tc ∈ toolCalls, (expectedCalls clients tc).length = 1) :
    ∀ s : Session, ∃ msgs : List ChatCompletionMessage,
      (dispatchAll E clients toolCalls s).llm.Message = s.llm.Message ++ msgs
      ∧ (∀ m ∈ msgs, m.Role = Role.tool)
      ∧ List.Sublist (msgs.map (fun m => m.ToolCallID)) (toolCalls.map (fun tc => tc.ID))
      ∧ ((∀ tr c n a, ∃ t, E.CallTool tr c n a = .ok t) →
          msgs.map (fun m => m.ToolCallID) = toolCalls.map (fun tc => tc.ID)) := by
  induction toolCalls with
  | nil => intro s; exact ⟨[], by simp [dispatchAll]⟩
  | cons tc tcs ih =>
    intro s
    have h1 := h tc (List.mem_cons_self _ _)
    obtain ⟨m1, a1, a2, a3, a4⟩ := dispatchClients_messages E tc clients s
    obtain ⟨m2, b1, b2, b3, b4⟩ := ih (fun x hx => h x (List.mem_cons_of_mem _ hx))
      (dispatchClients E tc clients s)
    rw [h1] at a3 a4
    have hids : ∀ m ∈ m1, m.ToolCallID = tc.ID := fun m hm => (a2 m hm).2
    refine ⟨m1 ++ m2, ?_, ?_, ?_, ?_⟩
    · simp only [dispatchAll]
      rw [b1, a1, List.append_assoc]
    · intro m hm
      rcases List.mem_append.1 hm with hm1 | hm1
      · exact (a2 m hm1).1
      · exact b2 m hm1
    · cases m1 with
      | nil => simpa using List.Sublist.cons _ b3
      | cons x xs =>
        have hxs : xs = [] := by
          simp only [List.length_cons] at a3
          exact List.length_eq_zero.1 (by omega)
        subst hxs
        have hx := hids x (List.mem_cons_self _ _)
        simp only [List.singleton_append, List.map_cons, hx]
        exact List.Sublist.cons₂ _ b3
    · intro hall
      have e1 := a4 hall
      have e2 := b4 hall
      cases m1 with
      | nil => simp at e1
      | cons x xs =>
        have hxs : xs = [] := by
          simp only [List.length_cons] at e1
          exact List.length_eq_zero.1 (by omega)
        subst hxs
        have hx := hids x (List.mem_cons_self _ _)
        simp only [List.singleton_append, List.map_cons, hx, e2]

theorem arkToolCallsToInternal_eq_map (calls : List ArkToolCall) :
    ArkToolCallsToInternal calls
      = calls.map (fun call =>
          { ID := call.ID,
            Function := { Name := call.Function.Name,
                          Arguments := call.Function.Arguments } }) := by
  have hfold : ∀ (l : List ArkToolCall) (acc : List ToolCall),
      l.foldl (fun result call =>
          result ++ [{ ID := call.ID,
                       Function := { Name := call.Function.Name,
                                     Arguments := call.Function.Arguments } }]) acc
        = acc ++ l.map (fun call =>
            { ID := call.ID,
              Function := { Name := call.Function.Name,
                            Arguments := call.Function.Arguments } }) := by
    intro l
    induction l with
    | nil => intro acc; simp
    | cons x xs ih => intro acc; simp [ih]
  unfold ArkToolCallsToInternal
  by_cases h0 : calls.length = 0
  · have hnil : calls = [] := List.length_eq_zero.1 h0
    subst hnil
    rfl
  · rw [if_neg h0, hfold]
    simp

/-- C16. In a round in which each requested tool name is advertised exactly
once across the providers, the dispatch phase handles the requests in the
order received (`ArkToolCallsToInternal` keeps order and ids), issuing one
provider call per request; it appends one tool-role message per request whose
call succeeded, with the returned text as content and the request's id, and
none for a request whose call failed, the remaining requests still being
processed. -/
theorem C16_dispatch_one_message_per_success (E : Collaborators) (clients : List MCPClient)
    (toolCalls : List ToolCall) (s : Session)
    (hone : ∀ tc ∈ toolCalls, (expectedCalls clients tc).length = 1) :
    dispatchAll E clients toolCalls s = dispatchInOrder E clients toolCalls s
    ∧ (dispatchAll E clients toolCalls s).trace
        = s.trace ++ toolCalls.flatMap (expectedCalls clients)
    ∧ (toolCalls.flatMap (expectedCalls clients)).length = toolCalls.length
    ∧ (∃ msgs : List ChatCompletionMessage,
        (dispatchAll E clients toolCalls s).llm.Message = s.llm.Message ++ msgs
        ∧ (∀ m ∈ msgs, m.Role = Role.tool)
        ∧ List.Sublist (msgs.map (fun m => m.ToolCallID)) (toolCalls.map (fun tc => tc.ID))
        ∧ ((∀ tr c n a, ∃ t, E.CallTool tr c n a = .ok t) →
            msgs.map (fun m => m.ToolCallID) = toolCalls.map (fun tc => tc.ID)))
    ∧ (∀ (toolCall : ToolCall) (c : MCPClient) (s0 : Session),
        (∀ toolText, E.CallTool s0.trace c toolCall.Function.Name toolCall.Function.Arguments
            = .ok toolText →
          (callOnce E toolCall c s0).llm.Message
            = s0.llm.Message ++ [{ Role := Role.tool, Content := toolText, ToolCalls := [],
                                   ToolCallID := toolCall.ID }])
        ∧ (∀ err, E.CallTool s0.trace c toolCall.Function.Name toolCall.Function.Arguments
            = .error err →
          (callOnce E toolCall c s0).llm.Message = s0.llm.Message))
    ∧ (∀ calls : List ArkToolCall,
        ArkToolCallsToInternal calls
          = calls.map (fun call =>
              { ID := call.ID,
                Function := { Name := call.Function.Name,
                              Arguments := call.Function.Arguments } })) := by
  refine ⟨dispatchAll_eq_dispatchInOrder E clients toolCalls hone s,
    dispatchAll_trace_eq E clients toolCalls s,
    flatMap_expectedCalls_length clients toolCalls hone,
    dispatchAll_ids E clients toolCalls hone s, ?_, arkToolCallsToInternal_eq_map⟩
  intro toolCall c s0
  constructor
  · intro toolText hok
    simp only [callOnce, hok]
  · intro err herr
    simp only [callOnce, herr]

/-- C16 (witness): one provider advertising `t` and `u`, requests for `t` and
`u`, every call succeeding: two calls are issued and the two messages carry the
ids of the requests in order. -/
theorem C16_dispatch_one_message_per_success_witness :
    (∀ tc ∈ twoCalls, (expectedCalls oneProvider tc).length = 1)
    ∧ (∀ tr c n a, ∃ t, oneToolRound.CallTool tr c n a = .ok t)
    ∧ (dispatchAll oneToolRound oneProvider twoCalls oneMessageSession).trace
        = [Event.callTool 1 "t" "x", Event.callTool 1 "u" "y"]
    ∧ ∃ msgs : List ChatCompletionMessage,
        (dispatchAll oneToolRound oneProvider twoCalls oneMessageSession).llm.Message
          = oneMessageSession.llm.Message ++ msgs
        ∧ msgs.map (fun m => m.ToolCallID) = ["id1", "id2"] := by
  have hone : ∀ tc ∈ twoCalls, (expectedCalls oneProvider tc).length = 1 := by decide
  have hall : ∀ tr c n a, ∃ t, oneToolRound.CallTool tr c n a = .ok t :=
    fun _ _ _ _ => ⟨goBytes "ok", rfl⟩
  obtain ⟨_, htr, _, ⟨msgs, hm1, _, _, hm4⟩, _⟩ :=
    C16_dispatch_one_message_per_success oneToolRound oneProvider twoCalls oneMessageSession hone
  refine ⟨hone, hall, ?_, msgs, hm1, ?_⟩
  · rw [htr]; decide
  · rw [hm4 hall]; rfl

/-! ### Tool signatures sent to the model (chat_open_ai.go) -/

theorem mcpTool2ArkTool_eq_map (mcpTools : List Tool) :
    MCPTool2ArkTool mcpTools = mcpTools.map arkToolOf := by
  have hfold : ∀ (l : List Tool) (acc : List ArkTool),
      l.foldl (fun openAITools tool =>
          openAITools ++
            [{ Kind := "function", Name := tool.Name, Description := tool.Description,
               Parameters :=
                 { type := if tool.InputSchema.SchemaType = "" then "object"
                     else tool.InputSchema.SchemaType,
                   properties := tool.InputSchema.Properties,
                   required := tool.InputSchema.Required } }]) acc
        = acc ++ l.map arkToolOf := by
    intro l
    induction l with
    | nil => intro acc; simp
    | cons x xs ih => intro acc; simp [ih, arkToolOf]
  unfold MCPTool2ArkTool
  by_cases h0 : mcpTools.length = 0
  · have hnil : mcpTools = [] := List.length_eq_zero.1 h0
    subst hnil
    rfl
  · rw [if_neg h0]
    simp only
    rw [hfold]
    simp

/-- C17. For every list of tool signatures, `MCPTool2ArkTool` returns a list of
the same length whose i-th entry keeps the i-th tool's name, description,
properties and required set, and whose parameter type is the declared type
when that is a non-empty string and "object" otherwise; the empty list maps
to no tools. -/
theorem C17_tool_conversion (mcpTools : List Tool) :
    (MCPTool2ArkTool mcpTools).length = mcpTools.length
    ∧ MCPTool2ArkTool [] = []
    ∧ ∀ (i : Nat) (tool : Tool), mcpTools[i]? = some tool →
        ∃ ark, (MCPTool2ArkTool mcpTools)[i]? = some ark
          ∧ ark.Name = tool.Name ∧ ark.Description = tool.Description
          ∧ ark.Parameters.properties = tool.InputSchema.Properties
          ∧ ark.Parameters.required = tool.InputSchema.Required
          ∧ (tool.InputSchema.SchemaType ≠ "" → ark.Parameters.type = tool.InputSchema.SchemaType)
          ∧ (tool.InputSchema.SchemaType = "" → ark.Parameters.type = "object") := by
  refine ⟨by rw [mcpTool2ArkTool_eq_map, List.length_map], rfl, ?_⟩
  intro i tool hi
  refine ⟨arkToolOf tool, ?_, rfl, rfl, rfl, rfl, ?_, ?_⟩
  · rw [mcpTool2ArkTool_eq_map, List.getElem?_map, hi]
    rfl
  · intro hne
    simp [arkToolOf, hne]
  · intro he
    simp [arkToolOf, he]

/-- C17 (witness): a tool with the declared type "string" and a tool without a
declared type. -/
theorem C17_tool_conversion_witness :
    ∃ ark, (MCPTool2ArkTool
        [{ Name := "a", Description := "d",
           InputSchema := { SchemaType := "string", Properties := [], Required := [] } },
         plainTool "t"])[1]? = some ark
      ∧ ark.Name = "t" ∧ ark.Parameters.type = "object" := by
  obtain ⟨ark, h1, h2, _, _, _, _, h7⟩ := (C17_tool_conversion
    [{ Name := "a", Description := "d",
       InputSchema := { SchemaType := "string", Properties := [], Required := [] } },
     plainTool "t"]).2.2 1 (plainTool "t") rfl
  exact ⟨ark, h1, h2, h7 rfl⟩

/-! ### The filter of `scoreDocuments` (rag.go) -/

theorem scoreDocuments_foldl (L : GoLib) (r : RAGRetriever) (query : String)
    (documents : List Document) :
    ∀ acc : List Document,
      documents.foldl
        (fun scoredDocs doc =>
          if docScore L query doc ≥ r.MinScore
          then scoredDocs ++
            [{ Path := doc.Path, Content := doc.Content, Score := docScore L query doc }]
          else scoredDocs)
        acc
      = acc ++ (documents.filter (fun d => decide (docScore L query d ≥ r.MinScore))).map
          (fun d => { Path := d.Path, Content := d.Content, Score := docScore L query d }) := by
  induction documents with
  | nil => intro acc; simp
  | cons d ds ih =>
    intro acc
    rw [List.foldl_cons, ih]
    by_cases h : docScore L query d ≥ r.MinScore
    · simp [h, List.filter_cons]
    · simp [h, List.filter_cons]

theorem scoreDocuments_eq (L : GoLib) (r : RAGRetriever) (query : String)
    (documents : List Document) :
    r.scoreDocuments L query documents
      = (documents.filter (fun d => decide (docScore L query d ≥ r.MinScore))).map
          (fun d => { Path := d.Path, Content := d.Content, Score := docScore L query d }) := by
  have h := scoreDocuments_foldl L r query documents []
  rw [List.nil_append] at h
  unfold RAGRetriever.scoreDocuments
  exact h

theorem selectTopDocuments_subset (L : GoLib) (hS : L.SortContract) (r : RAGRetriever)
    (documents top : List Document) (h : r.selectTopDocuments L documents = some top) :
    ∀ d ∈ top, d ∈ documents := by
  have hperm := (hS scoreGreater documents).1
  unfold RAGRetriever.selectTopDocuments at h
  by_cases h0 : documents.length = 0
  · simp only [h0, if_true, Option.some.injEq] at h
    subst h
    exact fun d hd => hd
  · simp only [h0, if_false] at h
    by_cases h1 : ((L.SortSlice scoreGreater documents).length : Int) ≤ r.MaxResults
    · simp only [h1, if_true, Option.some.injEq] at h
      subst h
      exact fun d hd => hperm.mem_iff.1 hd
    · simp only [h1, if_false] at h
      by_cases h2 : r.MaxResults < 0
      · simp [h2] at h
      · simp only [h2, if_false, Option.some.injEq] at h
        subst h
        exact fun d hd => hperm.mem_iff.1 (List.mem_of_mem_take hd)

/-- C19. `scoreDocuments` returns exactly the input documents whose computed
score is at least `MinScore`, in input order, each with `Path` and `Content`
unchanged and `Score` set to its computed score; hence every document it
retains, and every document `selectTopDocuments` then selects for `Retrieve`,
has a score of at least `MinScore`. -/
theorem C19_filter_by_min_score (L : GoLib) (r : RAGRetriever) (query : String)
    (documents : List Document) :
    r.scoreDocuments L query documents
      = (documents.filter (fun d => decide (docScore L query d ≥ r.MinScore))).map
          (fun d => { Path := d.Path, Content := d.Content, Score := docScore L query d })
    ∧ (∀ d ∈ r.scoreDocuments L query documents, d.Score ≥ r.MinScore)
    ∧ (L.SortContract → ∀ top,
        r.selectTopDocuments L (r.scoreDocuments L query documents) = some top →
        ∀ d ∈ top, d.Score ≥ r.MinScore) := by
  have heq := scoreDocuments_eq L r query documents
  have hmin : ∀ d ∈ r.scoreDocuments L query documents, d.Score ≥ r.MinScore := by
    intro d hd
    rw [heq, List.mem_map] at hd
    obtain ⟨d0, hd0, hdd⟩ := hd
    rw [List.mem_filter] at hd0
    rw [← hdd]
    simpa using hd0.2
  refine ⟨heq, hmin, ?_⟩
  intro hS top htop d hd
  exact hmin d (selectTopDocuments_subset L hS r _ top htop d hd)

/-- The score of the boundary document in float64 arithmetic: the query and
the document have ten tokens each and share one, both ratios are the float64
`0.1`, and the weighted sum rounds to 7205759403792793 / 2^56 (printed
0.09999999999999999), one unit in the last place below the float64 `0.1`. -/
theorem boundary_score :
    docScore asciiLib "a b c d e f g h i j" boundaryDoc
      = 7205759403792793 / 72057594037927936 := by
  have hm : matchedCount asciiLib (tokenize asciiLib "a b c d e f g h i j")
      (queryWordSet asciiLib (tokenize asciiLib "a b c d e f g h i j"))
      (contentWordSet asciiLib (tokenize asciiLib boundaryDoc.Content)) = 1 := by decide
  have hf : freqSum (queryWordSet asciiLib (tokenize asciiLib "a b c d e f g h i j"))
      (contentWordSet asciiLib (tokenize asciiLib boundaryDoc.Content)) = 1 := by decide
  have hlq : (tokenize asciiLib "a b c d e f g h i j").length = 10 := by decide
  have hld : (tokenize asciiLib boundaryDoc.Content).length = 10 := by decide
  have hN : asciiLib.ExactNaturals 10 :=
    exactNaturals_of_ieee asciiLib asciiLib_ieee 10 (by norm_num)
  have hI2 : ∀ x : ℚ, asciiLib.Round64 x = round64 x := asciiLib_ieee
  unfold docScore
  rw [calculateScore_unfold asciiLib _ _ _ (by decide), hm,
    freqAccumulate_exact asciiLib 10 hN _ _ (by rw [hld]), hf, hlq, hld]
  rw [hN 1 (by norm_num), hN 10 (by norm_num), if_pos (by norm_num)]
  simp only [hI2]
  rw [show (((1 : ℕ) : ℚ) / ((10 : ℕ) : ℚ)) = 1 / 10 by norm_num, round64_one_tenth]
  unfold float64_0_7 float64_0_3
  rw [round64_tenth_c07, round64_tenth_c03, round64_boundary]

/-- C19 (witness): under the ASCII library with IEEE 754 rounding, the one
document of scenario A is retained and selected with the float64 score 0.85,
above the default minimum; the boundary document, whose float64 score is
7205759403792793 / 2^56, below the float64 `0.1`, is dropped. -/
theorem C19_filter_by_min_score_witness :
    asciiLib.SortContract
    ∧ (NewRAGRetriever "kb").selectTopDocuments asciiLib
        ((NewRAGRetriever "kb").scoreDocuments asciiLib "quick fox" [scenarioADoc])
      = some [{ scenarioADoc with Score := float64_0_85 }]
    ∧ (∀ d ∈ [{ scenarioADoc with Score := float64_0_85 }],
        d.Score ≥ (NewRAGRetriever "kb").MinScore)
    ∧ docScore asciiLib "a b c d e f g h i j" boundaryDoc
        = 7205759403792793 / 72057594037927936
    ∧ ¬ (docScore asciiLib "a b c d e f g h i j" boundaryDoc ≥ (NewRAGRetriever "kb").MinScore)
    ∧ (NewRAGRetriever "kb").scoreDocuments asciiLib "a b c d e f g h i j" [boundaryDoc]
        = [] := by
  have hsel : (NewRAGRetriever "kb").selectTopDocuments asciiLib
      ((NewRAGRetriever "kb").scoreDocuments asciiLib "quick fox" [scenarioADoc])
        = some [{ scenarioADoc with Score := float64_0_85 }] := by
    rw [scenarioA_scored asciiLib asciiLib_agreesOnAscii asciiLib_ieee]
    exact scenarioA_selected asciiLib asciiLib_sortContract
  have hlow : ¬ (docScore asciiLib "a b c d e f g h i j" boundaryDoc
      ≥ (NewRAGRetriever "kb").MinScore) := by
    rw [boundary_score]
    simp only [NewRAGRetriever, float64_0_1]
    norm_num
  have hdrop : (NewRAGRetriever "kb").scoreDocuments asciiLib "a b c d e f g h i j"
      [boundaryDoc] = [] := by
    rw [(C19_filter_by_min_score asciiLib (NewRAGRetriever "kb") "a b c d e f g h i j"
      [boundaryDoc]).1]
    simp [List.filter_cons, hlow]
  exact ⟨asciiLib_sortContract, hsel,
    (C19_filter_by_min_score asciiLib (NewRAGRetriever "kb") "quick fox" [scenarioADoc]).2.2
      asciiLib_sortContract _ hsel, boundary_score, hlow, hdrop⟩

/-! ### Context injection (agent.go) -/

/-- C18. For an agent with a retrieval engine and a non-empty prompt: when
retrieval succeeds with a non-empty context, the log submitted to the model on
the first round is the prior log, then a user-role message carrying the
context, then a user-role message carrying the prompt; when retrieval fails or
yields an empty context, nothing is injected and `InvokeWithRAG` does and
returns exactly what `Invoke` does for the same prompt. -/
theorem C18_rag_injection (E : Collaborators) (L : GoLib) (fs : FileSystem) (fuel : Nat)
    (a : Agent) (llm : ChatOpenAI) (r : RAGRetriever) (tr : List Event) (prompt : String)
    (hllm : a.LLM = some llm) (hr : a.RAGRetriever = some r) (hp : prompt ≠ "") :
    (∀ ctx : Bytes, r.Retrieve L fs prompt = .returned ctx none → ctx ≠ [] →
        ∃ evs : List Event,
          (a.InvokeWithRAG E L fs fuel tr prompt).2.1
            = tr ++ Event.chat
                { Model := llm.Model,
                  Messages := llm.Message ++
                    [{ Role := Role.user, Content := ctx, ToolCalls := [], ToolCallID := "" },
                     { Role := Role.user, Content := goBytes prompt, ToolCalls := [],
                       ToolCallID := "" }],
                  Tools := MCPTool2ArkTool llm.Tools } :: evs)
    ∧ (∀ (ctx : Bytes) (e : RetrieveError), r.Retrieve L fs prompt = .returned ctx (some e) →
        a.InvokeWithRAG E L fs fuel tr prompt = a.Invoke E fuel tr (goBytes prompt))
    ∧ (r.Retrieve L fs prompt = .returned [] none →
        a.InvokeWithRAG E L fs fuel tr prompt = a.Invoke E fuel tr (goBytes prompt)) := by
  refine ⟨?_, ?_, ?_⟩
  · intro ctx hret hctx
    exact invokeWithRAG_first_chat E L fs fuel a llm r tr prompt hllm hr hp ctx hret hctx
  · intro ctx e hret
    have hinj : ¬ ((some e : Option RetrieveError).isNone = true ∧ ctx ≠ []) := by
      simp
    simp only [Agent.InvokeWithRAG, hllm, hr, hret, if_neg hinj]
  · intro hret
    have hinj : ¬ ((none : Option RetrieveError).isNone = true ∧ ([] : Bytes) ≠ []) := by
      simp
    simp only [Agent.InvokeWithRAG, hllm, hr, hret, if_neg hinj]

/-- C18 (witness): the agent with the default retriever and the prompt
"quick fox": over the corpus of scenario A the context is injected before the
prompt; over a missing corpus root `InvokeWithRAG` coincides with `Invoke`. -/
theorem C18_rag_injection_witness :
    ("quick fox" : String) ≠ ""
    ∧ (NewRAGRetriever "kb").Retrieve asciiLib missingRootFs "quick fox"
        = .returned [] (some (.dirNotExist "kb"))
    ∧ ragAgent.InvokeWithRAG oneToolRound asciiLib missingRootFs 5 [] "quick fox"
        = ragAgent.Invoke oneToolRound 5 [] (goBytes "quick fox")
    ∧ ∃ evs : List Event,
        (ragAgent.InvokeWithRAG oneToolRound asciiLib scenarioAFs 5 [] "quick fox").2.1
          = [] ++ Event.chat
              { Model := "m",
                Messages := [] ++
                  [{ Role := Role.user,
                     Content := buildContext asciiLib
                       [{ scenarioADoc with Score := float64_0_85 }] "quick fox",
                     ToolCalls := [], ToolCallID := "" },
                   { Role := Role.user, Content := goBytes "quick fox", ToolCalls := [],
                     ToolCallID := "" }],
                Tools := MCPTool2ArkTool [plainTool "t", plainTool "t"] } :: evs := by
  have hp : ("quick fox" : String) ≠ "" := by decide
  have hmiss : (NewRAGRetriever "kb").Retrieve asciiLib missingRootFs "quick fox"
      = .returned [] (some (.dirNotExist "kb")) := rfl
  have hok := scenarioA_retrieve asciiLib asciiLib_agreesOnAscii asciiLib_ieee
    asciiLib_sortContract
  have hctx := (buildContext_cites asciiLib [{ scenarioADoc with Score := float64_0_85 }]
    "quick fox").1
  have h1 := C18_rag_injection oneToolRound asciiLib missingRootFs 5 ragAgent
    { Model := "m", SystemPrompt := [], Tools := [plainTool "t", plainTool "t"],
      RagContext := [], Message := [] } (NewRAGRetriever "kb") [] "quick fox" rfl rfl hp
  have h2 := C18_rag_injection oneToolRound asciiLib scenarioAFs 5 ragAgent
    { Model := "m", SystemPrompt := [], Tools := [plainTool "t", plainTool "t"],
      RagContext := [], Message := [] } (NewRAGRetriever "kb") [] "quick fox" rfl rfl hp
  exact ⟨hp, hmiss, h1.2.1 [] _ hmiss, h2.1 _ hok hctx⟩

/-! ### Construction of the conversation (chat_open_ai.go) -/

theorem newChatOpenAI_eq (model apiKey : String) (opts : List LLMOption)
    (hm : model ≠ "") (hk : apiKey ≠ "") :
    NewChatOpenAI model apiKey opts
      = some { afterOptions model opts with
          Message := (afterOptions model opts).Message
            ++ (if (afterOptions model opts).SystemPrompt ≠ [] then
                  [{ Role := Role.system, Content := (afterOptions model opts).SystemPrompt,
                     ToolCalls := [], ToolCallID := "" }]
                else [])
            ++ (if (afterOptions model opts).RagContext ≠ [] then
                  [{ Role := Role.user, Content := (afterOptions model opts).RagContext,
                     ToolCalls := [], ToolCallID := "" }]
                else []) } := by
  unfold NewChatOpenAI
  rw [if_neg hm, if_neg hk]
  generalize afterOptions model opts = ai
  cases ai with
  | mk mdl sp tools rc msg =>
    by_cases hs : sp = [] <;> by_cases hr : rc = [] <;> simp [hs, hr]

theorem afterOptions_no_message (model : String) (opts : List LLMOption)
    (h : ∀ opt ∈ opts, (∃ p, opt = WithSystemPrompt p) ∨ (∃ p, opt = WithRagContext p)
      ∨ (∃ t, opt = WithLLMTools t)) :
    (afterOptions model opts).Message = [] := by
  have hfold : ∀ (l : List LLMOption) (init : ChatOpenAI),
      (∀ opt ∈ l, (∃ p, opt = WithSystemPrompt p) ∨ (∃ p, opt = WithRagContext p)
        ∨ (∃ t, opt = WithLLMTools t)) →
      (l.foldl (fun llm opt => opt llm) init).Message = init.Message := by
    intro l
    induction l with
    | nil => intro init _; rfl
    | cons o os ih =>
      intro init hl
      rw [List.foldl_cons, ih (o init) (fun x hx => hl x (List.mem_cons_of_mem _ hx))]
      rcases hl o (List.mem_cons_self _ _) with ⟨p, hp⟩ | ⟨p, hp⟩ | ⟨t, ht⟩
      · rw [hp]; rfl
      · rw [hp]; rfl
      · rw [ht]; rfl
  unfold afterOptions
  rw [hfold opts _ h]

/-- C20 (counterexample). With the options `WithSystemPrompt "sys"` and
`WithMessage [user "hi"]`, the log of `NewChatOpenAI` is the user message
followed by the system message: the system message is not first. With
`WithMessage [system "old"]` and `WithSystemPrompt "sys"`, the log holds two
system-role messages. -/
theorem C20_counterexample :
    (NewChatOpenAI "m" "key"
        [WithSystemPrompt (goBytes "sys"),
         WithMessage [{ Role := Role.user, Content := goBytes "hi", ToolCalls := [],
                        ToolCallID := "" }]]).map (fun llm => llm.Message.map (fun m => m.Role))
      = some [Role.user, Role.system]
    ∧ (NewChatOpenAI "m" "key"
        [WithMessage [{ Role := Role.system, Content := goBytes "old", ToolCalls := [],
                        ToolCallID := "" }],
         WithSystemPrompt (goBytes "sys")]).map (fun llm => (systemMessages llm.Message).length)
      = some 2 := by
  decide

theorem systemMessages_append_system (log rag : List ChatCompletionMessage)
    (m : ChatCompletionMessage) (hm : m.Role = Role.system)
    (hrag : ∀ x ∈ rag, x.Role = Role.user) :
    systemMessages (log ++ m :: rag) = systemMessages log ++ [m] := by
  have hnil : systemMessages rag = [] := by
    unfold systemMessages
    rw [List.filter_eq_nil_iff]
    intro x hx
    simp [hrag x hx]
  unfold systemMessages at hnil ⊢
  rw [List.filter_append, List.filter_cons, hnil]
  simp [hm]

/-- C20 (amended). `NewChatOpenAI` with a non-empty system prompt appends exactly
one system-role message, which carries that prompt; it comes after the
messages the options installed (`WithMessage`) and before the user-role
message carrying the RAG context, so it is the first message of the log and
its only system-role message when the options installed no message, as is the
case for options built from `WithSystemPrompt`, `WithRagContext` and
`WithLLMTools`; with an empty system prompt no system-role message is added. -/
theorem C20_system_message_appended (model apiKey : String) (opts : List LLMOption)
    (hm : model ≠ "") (hk : apiKey ≠ "") :
    ∃ llm, NewChatOpenAI model apiKey opts = some llm
      ∧ ((afterOptions model opts).SystemPrompt ≠ [] →
          ∃ rag : List ChatCompletionMessage,
            llm.Message = (afterOptions model opts).Message
              ++ { Role := Role.system, Content := (afterOptions model opts).SystemPrompt,
                   ToolCalls := [], ToolCallID := "" } :: rag
            ∧ (∀ m ∈ rag, m.Role = Role.user ∧ m.Content = (afterOptions model opts).RagContext)
            ∧ (systemMessages llm.Message).length
                = (systemMessages (afterOptions model opts).Message).length + 1
            ∧ ((afterOptions model opts).Message = [] →
                llm.Message.head?
                    = some { Role := Role.system,
                             Content := (afterOptions model opts).SystemPrompt,
                             ToolCalls := [], ToolCallID := "" }
                ∧ systemMessages llm.Message
                    = [{ Role := Role.system,
                         Content := (afterOptions model opts).SystemPrompt,
                         ToolCalls := [], ToolCallID := "" }]))
      ∧ ((afterOptions model opts).SystemPrompt = [] →
          systemMessages llm.Message = systemMessages (afterOptions model opts).Message)
      ∧ ((∀ opt ∈ opts, (∃ p, opt = WithSystemPrompt p) ∨ (∃ p, opt = WithRagContext p)
            ∨ (∃ t, opt = WithLLMTools t)) →
          (afterOptions model opts).Message = []) := by
  refine ⟨_, newChatOpenAI_eq model apiKey opts hm hk, ?_, ?_,
    afterOptions_no_message model opts⟩
  · intro hs
    have hragRole : ∀ m ∈ (if (afterOptions model opts).RagContext ≠ [] then
          [({ Role := Role.user, Content := (afterOptions model opts).RagContext,
              ToolCalls := [], ToolCallID := "" } : ChatCompletionMessage)]
        else []), m.Role = Role.user ∧ m.Content = (afterOptions model opts).RagContext := by
      intro m hmem
      by_cases hr : (afterOptions model opts).RagContext = []
      · simp [hr] at hmem
      · simp only [ne_eq, hr, not_false_eq_true, if_true, List.mem_singleton] at hmem
        subst hmem
        exact ⟨rfl, rfl⟩
    have hlog : (afterOptions model opts).Message
          ++ (if (afterOptions model opts).SystemPrompt ≠ [] then
                [({ Role := Role.system, Content := (afterOptions model opts).SystemPrompt,
                    ToolCalls := [], ToolCallID := "" } : ChatCompletionMessage)]
              else [])
          ++ (if (afterOptions model opts).RagContext ≠ [] then
                [({ Role := Role.user, Content := (afterOptions model opts).RagContext,
                    ToolCalls := [], ToolCallID := "" } : ChatCompletionMessage)]
              else [])
        = (afterOptions model opts).Message
            ++ { Role := Role.system, Content := (afterOptions model opts).SystemPrompt,
                 ToolCalls := [], ToolCallID := "" }
              :: (if (afterOptions model opts).RagContext ≠ [] then
                    [({ Role := Role.user, Content := (afterOptions model opts).RagContext,
                        ToolCalls := [], ToolCallID := "" } : ChatCompletionMessage)]
                  else []) := by
      rw [if_pos hs]
      simp
    have hsys := systemMessages_append_system (afterOptions model opts).Message _
      { Role := Role.system, Content := (afterOptions model opts).SystemPrompt,
        ToolCalls := [], ToolCallID := "" } rfl (fun x hx => (hragRole x hx).1)
    refine ⟨_, hlog, hragRole, ?_, ?_⟩
    · show (systemMessages _).length = _
      rw [hlog, hsys]
      simp
    · intro hnil
      constructor
      · show List.head? _ = _
        rw [hlog, hnil]
        rfl
      · show systemMessages _ = _
        rw [hlog, hsys, hnil]
        rfl
  · intro hs
    show systemMessages _ = _
    rw [if_neg (by simpa using hs)]
    unfold systemMessages
    rw [List.append_nil, List.filter_append]
    by_cases hr : (afterOptions model opts).RagContext = []
    · simp [hr]
    · simp [hr]

/-- C20 (witness): the options `NewAgent` passes, with a system prompt and a
RAG context: the system message is first and is the only system message. -/
theorem C20_system_message_appended_witness :
    ("m" : String) ≠ "" ∧ ("key" : String) ≠ ""
    ∧ ∃ llm, NewChatOpenAI "m" "key"
          [WithSystemPrompt (goBytes "sys"), WithLLMTools [plainTool "t"],
           WithRagContext (goBytes "ctx")] = some llm
        ∧ llm.Message.head?
            = some { Role := Role.system, Content := goBytes "sys", ToolCalls := [],
                     ToolCallID := "" }
        ∧ (systemMessages llm.Message).length = 1 := by
  have hm : ("m" : String) ≠ "" := by decide
  have hk : ("key" : String) ≠ "" := by decide
  obtain ⟨llm, h1, h2, _, h4⟩ := C20_system_message_appended "m" "key"
    [WithSystemPrompt (goBytes "sys"), WithLLMTools [plainTool "t"],
     WithRagContext (goBytes "ctx")] hm hk
  have hnone := h4 (by
    intro opt hopt
    simp only [List.mem_cons, List.mem_singleton, List.not_mem_nil, or_false] at hopt
    rcases hopt with h | h | h
    · exact Or.inl ⟨_, h⟩
    · exact Or.inr (Or.inr ⟨_, h⟩)
    · exact Or.inr (Or.inl ⟨_, h⟩))
  obtain ⟨rag, _, _, _, h5⟩ := h2 (by decide)
  obtain ⟨h6, h7⟩ := h5 hnone
  refine ⟨hm, hk, llm, h1, h6, ?_⟩
  rw [h7]
  rfl

end LlmMcpRag
